import Mathlib

/-!
Verification development for the voxelcraft chunk system: a shallow
embedding of the Chunk voxel-grid accessors, the greedy mesher, the naive
per-voxel mesher, and the chunk manager, together with theorems settling
the specification claims. JavaScript machine-level details are made
explicit: `Uint8Array` stores truncate to `% 256`, the JS remainder
operator is `Int.tmod` (truncated, sign of the dividend), array reads out
of bounds yield the sentinel default.
-/

set_option maxRecDepth 100000

namespace VoxelCraft

/-- The six face directions of a voxel / chunk, as named in the source. -/
inductive Face where
  | left | right | bottom | top | back | front
deriving DecidableEq, Repr

/-- JS remainder `a % b` on integers: truncated division remainder. -/
def jsMod (a b : Int) : Int := Int.tmod a b

/-- The `Chunk` class fields relevant to the voxel grid: edge length
`size`, the dense `Uint8Array` grid (row-major `x + y*size + z*size²`),
and the derived flags. -/
structure Chunk where
  size : Nat
  voxels : List Nat
  needsUpdate : Bool
  isEmpty : Bool
deriving DecidableEq, Repr

/-- Constructor state of `new Chunk(x, y, z, size)`: an all-zero grid,
`needsUpdate = true`, `isEmpty = true`. -/
def Chunk.init (n : Nat) : Chunk :=
  ⟨n, List.replicate (n * n * n) 0, true, true⟩

/-- The bounds test shared by `getVoxel` / `setVoxel`:
`x < 0 || x >= size || y < 0 || y >= size || z < 0 || z >= size`. -/
def Chunk.outOfRange (c : Chunk) (x y z : Int) : Bool :=
  x < 0 || (c.size : Int) ≤ x || y < 0 || (c.size : Int) ≤ y ||
    z < 0 || (c.size : Int) ≤ z

/-- Flat index `x + y*size + z*size*size` (taken on in-range coordinates,
where it is non-negative). -/
def Chunk.voxelIndex (c : Chunk) (x y z : Int) : Nat :=
  (x + y * (c.size : Int) + z * (c.size : Int) * (c.size : Int)).toNat

/-- `Chunk.getVoxel`: out-of-range local coordinates return air (0),
otherwise the stored block type is read. -/
def Chunk.getVoxel (c : Chunk) (x y z : Int) : Nat :=
  if c.outOfRange x y z then 0
  else c.voxels.getD (c.voxelIndex x y z) 0

/-- `Chunk.setVoxel`: out-of-range coordinates fail returning `false`
without mutation; otherwise the cell is written (a `Uint8Array` store
truncates to `% 256`), `needsUpdate` is set, and `isEmpty` is cleared
when the written type is non-zero. -/
def Chunk.setVoxel (c : Chunk) (x y z : Int) (type : Nat) : Chunk × Bool :=
  if c.outOfRange x y z then (c, false)
  else
    ({ c with
        voxels := c.voxels.set (c.voxelIndex x y z) (type % 256),
        needsUpdate := true,
        isEmpty := if type ≠ 0 then false else c.isEmpty }, true)

/-- Displacement of each face direction, as in `shouldRenderFace`'s
switch statement. -/
def Face.offset : Face → Int × Int × Int
  | .left => (-1, 0, 0)
  | .right => (1, 0, 0)
  | .bottom => (0, -1, 0)
  | .top => (0, 1, 0)
  | .back => (0, 0, -1)
  | .front => (0, 0, 1)

/-- `Chunk.shouldRenderFace`: the neighbor cell along `f` is computed; if
it falls outside the chunk, the linked neighbor chunk (if any) is
consulted at `(coord + size) % size` on every axis (JS `%`), defaulting
to `true` when no neighbor chunk is linked; otherwise the cell is read
from this chunk. The neighbor chunks are the six `this.neighbors`
references, passed here as a function. -/
def Chunk.shouldRenderFace (c : Chunk) (nbrs : Face → Option Chunk)
    (x y z : Int) (f : Face) : Bool :=
  let o := f.offset
  let nx := x + o.1
  let ny := y + o.2.1
  let nz := z + o.2.2
  if c.outOfRange nx ny nz then
    match nbrs f with
    | some nc =>
        decide (nc.getVoxel (jsMod (nx + c.size) c.size)
          (jsMod (ny + c.size) c.size) (jsMod (nz + c.size) c.size) = 0)
    | none => true
  else decide (c.getVoxel nx ny nz = 0)

/-- Applying a sequence of `setVoxel` calls (positions and types),
keeping only the mutated chunk. -/
def Chunk.applySets (c : Chunk) (ops : List (Int × Int × Int × Nat)) : Chunk :=
  ops.foldl (fun ch op => (ch.setVoxel op.1 op.2.1 op.2.2.1 op.2.2.2).1) c

/-- Every cell of the grid is air. -/
def Chunk.allAir (c : Chunk) : Bool := c.voxels.all (· = 0)

/- ### List helper lemmas -/

theorem getD_set_self : ∀ (l : List Nat) (i : Nat) (v : Nat),
    i < l.length → (l.set i v).getD i 0 = v
  | _ :: _, 0, _, _ => rfl
  | _ :: t, i + 1, v, h =>
    getD_set_self t i v (Nat.lt_of_succ_lt_succ h)

theorem all_zero_set_zero : ∀ (l : List Nat) (i : Nat),
    l.all (· = 0) = true → (l.set i 0).all (· = 0) = true
  | [], _, _ => rfl
  | a :: t, 0, h => by
    simp only [List.set, List.all_cons, Bool.and_eq_true] at h ⊢
    exact ⟨by decide, h.2⟩
  | a :: t, i + 1, h => by
    simp only [List.set, List.all_cons, Bool.and_eq_true] at h ⊢
    exact ⟨h.1, all_zero_set_zero t i h.2⟩

/-- In-range coordinates give a flat index below `size³`. -/
theorem voxelIndex_lt (c : Chunk) (x y z : Int)
    (hx0 : 0 ≤ x) (hx1 : x < (c.size : Int))
    (hy0 : 0 ≤ y) (hy1 : y < (c.size : Int))
    (hz0 : 0 ≤ z) (hz1 : z < (c.size : Int)) :
    c.voxelIndex x y z < c.size * c.size * c.size := by
  obtain ⟨a, rfl⟩ := Int.eq_ofNat_of_zero_le hx0
  obtain ⟨b, rfl⟩ := Int.eq_ofNat_of_zero_le hy0
  obtain ⟨d, rfl⟩ := Int.eq_ofNat_of_zero_le hz0
  have ha : a < c.size := by exact_mod_cast hx1
  have hb : b < c.size := by exact_mod_cast hy1
  have hd : d < c.size := by exact_mod_cast hz1
  have : Chunk.voxelIndex c a b d = a + b * c.size + d * c.size * c.size := by
    unfold Chunk.voxelIndex
    have : ((a : Int) + b * c.size + d * c.size * c.size) =
        ((a + b * c.size + d * c.size * c.size : Nat) : Int) := by push_cast; ring
    rw [this, Int.toNat_natCast]
  rw [this]
  nlinarith [Nat.succ_le_of_lt ha, Nat.succ_le_of_lt hb, Nat.succ_le_of_lt hd]

theorem outOfRange_false_iff (c : Chunk) (x y z : Int) :
    c.outOfRange x y z = false ↔
      (0 ≤ x ∧ x < (c.size : Int) ∧ 0 ≤ y ∧ y < (c.size : Int) ∧
        0 ≤ z ∧ z < (c.size : Int)) := by
  unfold Chunk.outOfRange
  simp only [Bool.or_eq_false_iff, decide_eq_false_iff_not, Int.not_lt, Int.not_le]
  constructor
  · rintro ⟨⟨⟨⟨⟨h1, h2⟩, h3⟩, h4⟩, h5⟩, h6⟩
    exact ⟨h1, h2, h3, h4, h5, h6⟩
  · rintro ⟨h1, h2, h3, h4, h5, h6⟩
    exact ⟨⟨⟨⟨⟨h1, h2⟩, h3⟩, h4⟩, h5⟩, h6⟩

/- ### Claim C3 -/

/-- Claim C3: for in-range local coordinates and any block type (a
`Uint8Array` value, below 256), `setVoxel` returns `true` and a
subsequent `getVoxel` returns that same type; for out-of-range
coordinates `getVoxel` returns air and `setVoxel` returns `false`
leaving the chunk (grid, `isEmpty`, `needsUpdate`) unchanged. -/
theorem setVoxel_getVoxel_spec (c : Chunk) (x y z : Int) (type : Nat)
    (hlen : c.voxels.length = c.size * c.size * c.size) (htype : type < 256) :
    (c.outOfRange x y z = false →
      (c.setVoxel x y z type).2 = true ∧
      (c.setVoxel x y z type).1.getVoxel x y z = type) ∧
    (c.outOfRange x y z = true →
      c.getVoxel x y z = 0 ∧ c.setVoxel x y z type = (c, false)) := by
  constructor
  · intro hin
    unfold Chunk.setVoxel
    rw [hin]
    simp only [Bool.false_eq_true, if_false, and_true, true_and]
    unfold Chunk.getVoxel
    have hout' : Chunk.outOfRange { c with
        voxels := c.voxels.set (c.voxelIndex x y z) (type % 256),
        needsUpdate := true,
        isEmpty := if type ≠ 0 then false else c.isEmpty } x y z = false := hin
    rw [hout']
    simp only [Bool.false_eq_true, if_false]
    obtain ⟨hx0, hx1, hy0, hy1, hz0, hz1⟩ := (outOfRange_false_iff c x y z).mp hin
    have hidx : c.voxelIndex x y z < c.voxels.length := by
      rw [hlen]; exact voxelIndex_lt c x y z hx0 hx1 hy0 hy1 hz0 hz1
    have : Chunk.voxelIndex { c with
        voxels := c.voxels.set (c.voxelIndex x y z) (type % 256),
        needsUpdate := true,
        isEmpty := if type ≠ 0 then false else c.isEmpty } x y z
        = c.voxelIndex x y z := rfl
    rw [this, getD_set_self _ _ _ (by simpa using hidx)]
    exact Nat.mod_eq_of_lt htype
  · intro hout
    constructor
    · unfold Chunk.getVoxel; rw [hout]; rfl
    · unfold Chunk.setVoxel; rw [hout]; rfl

/-- Witness for C3 at a concrete input: chunk of edge 2, set `(1,0,1)`
to 7 succeeds and reads back 7. -/
theorem setVoxel_getVoxel_spec_witness :
    ((Chunk.init 2).setVoxel 1 0 1 7).2 = true ∧
      ((Chunk.init 2).setVoxel 1 0 1 7).1.getVoxel 1 0 1 = 7 :=
  (setVoxel_getVoxel_spec (Chunk.init 2) 1 0 1 7 (by decide) (by decide)).1
    (by decide)

/- ### Claim C4 -/

/-- The face-visibility behavior as worded by the spec and claim C4: true
iff the cell adjacent along the face is air; inside the grid the cell is
read directly; outside, the linked neighbor chunk is consulted at the
wrapped local coordinate `(coord + N) mod N` on the crossed axis (the
other two axes keep the original local coordinates, `%` mathematical);
with no linked neighbor the result is `true`. -/
def faceVisibleSpec (c : Chunk) (nbrs : Face → Option Chunk)
    (x y z : Int) (f : Face) : Bool :=
  let o := f.offset
  let nx := x + o.1
  let ny := y + o.2.1
  let nz := z + o.2.2
  if 0 ≤ nx ∧ nx < (c.size : Int) ∧ 0 ≤ ny ∧ ny < (c.size : Int) ∧
      0 ≤ nz ∧ nz < (c.size : Int) then
    decide (c.getVoxel nx ny nz = 0)
  else
    match nbrs f with
    | none => true
    | some nc =>
      match f with
      | .left | .right =>
          decide (nc.getVoxel ((nx + (c.size : Int)) % (c.size : Int)) y z = 0)
      | .bottom | .top =>
          decide (nc.getVoxel x ((ny + (c.size : Int)) % (c.size : Int)) z = 0)
      | .back | .front =>
          decide (nc.getVoxel x y ((nz + (c.size : Int)) % (c.size : Int)) = 0)

theorem jsMod_fixed (n : Nat) (t : Int) (h0 : 0 ≤ t) (h1 : t < (n : Int)) :
    jsMod (t + (n : Int)) (n : Int) = t := by
  unfold jsMod
  rw [Int.tmod_eq_emod (by omega) (Int.natCast_nonneg n)]
  rw [show t + (n : Int) = t + (n : Int) * 1 by ring, Int.add_mul_emod_self_left]
  exact Int.emod_eq_of_lt h0 h1

theorem jsMod_wrap (n : Nat) (t : Int) (h : 0 ≤ t + (n : Int)) :
    jsMod (t + (n : Int)) (n : Int) = (t + (n : Int)) % (n : Int) :=
  Int.tmod_eq_emod h (Int.natCast_nonneg n)

/-- Claim C4: for every in-range local position and face direction,
`shouldRenderFace` computes exactly the spec-described visibility test
(`faceVisibleSpec`): the code's JS-`%` wrap of all three axes coincides,
on in-range inputs, with wrapping only the crossed axis. -/
theorem shouldRenderFace_spec (c : Chunk) (nbrs : Face → Option Chunk)
    (x y z : Int) (f : Face)
    (hx0 : 0 ≤ x) (hx1 : x < (c.size : Int))
    (hy0 : 0 ≤ y) (hy1 : y < (c.size : Int))
    (hz0 : 0 ≤ z) (hz1 : z < (c.size : Int)) :
    c.shouldRenderFace nbrs x y z f = faceVisibleSpec c nbrs x y z f := by
  cases f
  case left =>
    simp only [Chunk.shouldRenderFace, faceVisibleSpec, Face.offset, add_zero]
    by_cases hp : 0 ≤ x + -1 ∧ x + -1 < (c.size : Int) ∧ 0 ≤ y ∧
        y < (c.size : Int) ∧ 0 ≤ z ∧ z < (c.size : Int)
    · have hb : c.outOfRange (x + -1) y z = false :=
        (outOfRange_false_iff c _ _ _).mpr hp
      rw [if_neg (by rw [hb]; exact Bool.false_ne_true), if_pos hp]
    · have hb : c.outOfRange (x + -1) y z = true := by
        cases hc2 : c.outOfRange (x + -1) y z
        · exact absurd ((outOfRange_false_iff c _ _ _).mp hc2) hp
        · rfl
      rw [if_pos hb, if_neg hp]
      cases hnb : nbrs Face.left
      · rfl
      · rw [jsMod_fixed c.size y hy0 hy1, jsMod_fixed c.size z hz0 hz1,
            jsMod_wrap c.size (x + -1) (by omega)]
  case right =>
    simp only [Chunk.shouldRenderFace, faceVisibleSpec, Face.offset, add_zero]
    by_cases hp : 0 ≤ x + 1 ∧ x + 1 < (c.size : Int) ∧ 0 ≤ y ∧
        y < (c.size : Int) ∧ 0 ≤ z ∧ z < (c.size : Int)
    · have hb : c.outOfRange (x + 1) y z = false :=
        (outOfRange_false_iff c _ _ _).mpr hp
      rw [if_neg (by rw [hb]; exact Bool.false_ne_true), if_pos hp]
    · have hb : c.outOfRange (x + 1) y z = true := by
        cases hc2 : c.outOfRange (x + 1) y z
        · exact absurd ((outOfRange_false_iff c _ _ _).mp hc2) hp
        · rfl
      rw [if_pos hb, if_neg hp]
      cases hnb : nbrs Face.right
      · rfl
      · rw [jsMod_fixed c.size y hy0 hy1, jsMod_fixed c.size z hz0 hz1,
            jsMod_wrap c.size (x + 1) (by omega)]
  case bottom =>
    simp only [Chunk.shouldRenderFace, faceVisibleSpec, Face.offset, add_zero]
    by_cases hp : 0 ≤ x ∧ x < (c.size : Int) ∧ 0 ≤ y + -1 ∧
        y + -1 < (c.size : Int) ∧ 0 ≤ z ∧ z < (c.size : Int)
    · have hb : c.outOfRange x (y + -1) z = false :=
        (outOfRange_false_iff c _ _ _).mpr hp
      rw [if_neg (by rw [hb]; exact Bool.false_ne_true), if_pos hp]
    · have hb : c.outOfRange x (y + -1) z = true := by
        cases hc2 : c.outOfRange x (y + -1) z
        · exact absurd ((outOfRange_false_iff c _ _ _).mp hc2) hp
        · rfl
      rw [if_pos hb, if_neg hp]
      cases hnb : nbrs Face.bottom
      · rfl
      · rw [jsMod_fixed c.size x hx0 hx1, jsMod_fixed c.size z hz0 hz1,
            jsMod_wrap c.size (y + -1) (by omega)]
  case top =>
    simp only [Chunk.shouldRenderFace, faceVisibleSpec, Face.offset, add_zero]
    by_cases hp : 0 ≤ x ∧ x < (c.size : Int) ∧ 0 ≤ y + 1 ∧
        y + 1 < (c.size : Int) ∧ 0 ≤ z ∧ z < (c.size : Int)
    · have hb : c.outOfRange x (y + 1) z = false :=
        (outOfRange_false_iff c _ _ _).mpr hp
      rw [if_neg (by rw [hb]; exact Bool.false_ne_true), if_pos hp]
    · have hb : c.outOfRange x (y + 1) z = true := by
        cases hc2 : c.outOfRange x (y + 1) z
        · exact absurd ((outOfRange_false_iff c _ _ _).mp hc2) hp
        · rfl
      rw [if_pos hb, if_neg hp]
      cases hnb : nbrs Face.top
      · rfl
      · rw [jsMod_fixed c.size x hx0 hx1, jsMod_fixed c.size z hz0 hz1,
            jsMod_wrap c.size (y + 1) (by omega)]
  case back =>
    simp only [Chunk.shouldRenderFace, faceVisibleSpec, Face.offset, add_zero]
    by_cases hp : 0 ≤ x ∧ x < (c.size : Int) ∧ 0 ≤ y ∧
        y < (c.size : Int) ∧ 0 ≤ z + -1 ∧ z + -1 < (c.size : Int)
    · have hb : c.outOfRange x y (z + -1) = false :=
        (outOfRange_false_iff c _ _ _).mpr hp
      rw [if_neg (by rw [hb]; exact Bool.false_ne_true), if_pos hp]
    · have hb : c.outOfRange x y (z + -1) = true := by
        cases hc2 : c.outOfRange x y (z + -1)
        · exact absurd ((outOfRange_false_iff c _ _ _).mp hc2) hp
        · rfl
      rw [if_pos hb, if_neg hp]
      cases hnb : nbrs Face.back
      · rfl
      · rw [jsMod_fixed c.size x hx0 hx1, jsMod_fixed c.size y hy0 hy1,
            jsMod_wrap c.size (z + -1) (by omega)]
  case front =>
    simp only [Chunk.shouldRenderFace, faceVisibleSpec, Face.offset, add_zero]
    by_cases hp : 0 ≤ x ∧ x < (c.size : Int) ∧ 0 ≤ y ∧
        y < (c.size : Int) ∧ 0 ≤ z + 1 ∧ z + 1 < (c.size : Int)
    · have hb : c.outOfRange x y (z + 1) = false :=
        (outOfRange_false_iff c _ _ _).mpr hp
      rw [if_neg (by rw [hb]; exact Bool.false_ne_true), if_pos hp]
    · have hb : c.outOfRange x y (z + 1) = true := by
        cases hc2 : c.outOfRange x y (z + 1)
        · exact absurd ((outOfRange_false_iff c _ _ _).mp hc2) hp
        · rfl
      rw [if_pos hb, if_neg hp]
      cases hnb : nbrs Face.front
      · rfl
      · rw [jsMod_fixed c.size x hx0 hx1, jsMod_fixed c.size y hy0 hy1,
            jsMod_wrap c.size (z + 1) (by omega)]

/-- Witness for C4 at a concrete input: size-2 chunk, position (0,0,0),
left face crossing into a linked neighbor. -/
theorem shouldRenderFace_spec_witness :
    (Chunk.init 2).shouldRenderFace
        (fun f => if f = Face.left then some ((Chunk.init 2).setVoxel 1 0 0 5).1
          else none) 0 0 0 Face.left =
      faceVisibleSpec (Chunk.init 2)
        (fun f => if f = Face.left then some ((Chunk.init 2).setVoxel 1 0 0 5).1
          else none) 0 0 0 Face.left :=
  shouldRenderFace_spec _ _ 0 0 0 Face.left (by decide) (by decide)
    (by decide) (by decide) (by decide) (by decide)

/- ### Claim C5 -/

/-- One `setVoxel` preserves the direction `isEmpty → all cells air`. -/
theorem setVoxel_preserves_empty_inv (c : Chunk)
    (h : c.isEmpty = true → c.allAir = true) (x y z : Int) (t : Nat) :
    (c.setVoxel x y z t).1.isEmpty = true → (c.setVoxel x y z t).1.allAir = true := by
  unfold Chunk.setVoxel
  by_cases hb : c.outOfRange x y z = true
  · rw [if_pos hb]
    exact h
  · rw [if_neg hb]
    intro hemp
    by_cases ht : t ≠ 0
    · exact absurd (by rw [if_pos ht] at hemp; exact hemp) Bool.false_ne_true
    · push_neg at ht
      subst ht
      rw [if_neg (by simp)] at hemp
      show (c.voxels.set (c.voxelIndex x y z) (0 % 256)).all (· = 0) = true
      exact all_zero_set_zero _ _ (h hemp)

theorem applySets_empty_inv (ops : List (Int × Int × Int × Nat)) :
    ∀ (c : Chunk), (c.isEmpty = true → c.allAir = true) →
      ((c.applySets ops).isEmpty = true → (c.applySets ops).allAir = true) := by
  induction ops with
  | nil => intro c h; exact h
  | cons op rest ih =>
      intro c h
      exact ih _ (setVoxel_preserves_empty_inv c h op.1 op.2.1 op.2.2.1 op.2.2.2)

theorem allAir_init (n : Nat) : (Chunk.init n).allAir = true := by
  unfold Chunk.init Chunk.allAir
  simp only [List.all_eq_true, List.mem_replicate, decide_eq_true_eq]
  rintro x ⟨-, rfl⟩
  rfl

/-- Claim C5 fails as stated: after `set(0,0,0,1)` then `set(0,0,0,0)` on
a fresh size-2 chunk the grid is entirely air yet `isEmpty` is still
`false` (clearing a cell never re-checks emptiness), so `isEmpty` does
not hold iff every cell is air. -/
theorem isEmpty_iff_allAir_counterexample :
    ¬ (((Chunk.init 2).applySets [(0, 0, 0, 1), (0, 0, 0, 0)]).isEmpty = true ↔
        ((Chunk.init 2).applySets [(0, 0, 0, 1), (0, 0, 0, 0)]).allAir = true) := by
  decide

/-- Claim C5 (amended): after any sequence of `setVoxel` operations on a
fresh chunk, `isEmpty = true` implies every cell is air (the converse can
fail: overwriting the last solid cell with air leaves `isEmpty` false),
and every successful `setVoxel` with a non-zero type clears `isEmpty`. -/
theorem isEmpty_invariant (n : Nat) (ops : List (Int × Int × Int × Nat)) :
    (((Chunk.init n).applySets ops).isEmpty = true →
      ((Chunk.init n).applySets ops).allAir = true) ∧
    (∀ (x y z : Int) (t : Nat),
      (((Chunk.init n).applySets ops).setVoxel x y z t).2 = true → t ≠ 0 →
      (((Chunk.init n).applySets ops).setVoxel x y z t).1.isEmpty = false) := by
  constructor
  · exact applySets_empty_inv ops _ (fun _ => allAir_init n)
  · intro x y z t hset ht
    unfold Chunk.setVoxel at hset ⊢
    by_cases hb : Chunk.outOfRange ((Chunk.init n).applySets ops) x y z = true
    · rw [if_pos hb] at hset
      exact absurd hset Bool.false_ne_true
    · rw [if_neg hb]
      show (if t ≠ 0 then false else _) = false
      rw [if_pos ht]

/-- Witness for the amended C5: a successful non-air set on a fresh
chunk clears `isEmpty`. -/
theorem isEmpty_invariant_witness :
    (((Chunk.init 2).applySets []).setVoxel 0 0 0 1).1.isEmpty = false :=
  (isEmpty_invariant 2 []).2 0 0 0 1 (by decide) (by decide)

/- ## The greedy mesher (`OptimizationUtils.GreedyMesher.mesh`)

The imperative triple loop is embedded structurally: the per-slice signed
mask is a function `Nat → Int` over the flat 2D index `n = i + j * U`
(`u` the inner axis), the row scan is fuel-based structural recursion
(fuel `U` bounds the inner loop, fuel `V` the outer one, exactly the
source's loop bounds), and quad emission records `(i, j, w, h, mask[n])`
from which `createQuad`'s geometry is reconstructed. -/

namespace GreedyMesher

/-- `x[a]` of a coordinate triple, axis index `a ∈ {0,1,2}`. -/
def axGet (p : Int × Int × Int) : Nat → Int
  | 0 => p.1
  | 1 => p.2.1
  | _ => p.2.2

/-- `x[a] = val` on a coordinate triple. -/
def axSet (p : Int × Int × Int) : Nat → Int → Int × Int × Int
  | 0, val => (val, p.2.1, p.2.2)
  | 1, val => (p.1, val, p.2.2)
  | _, val => (p.1, p.2.1, val)

/-- `dims[a]`. -/
def dimGet (dims : Nat × Nat × Nat) : Nat → Nat
  | 0 => dims.1
  | 1 => dims.2.1
  | _ => dims.2.2

/-- `GreedyMesher.getVoxel`: flat read
`voxels[p0 + p1*dims0 + p2*dims0*dims1] || 0`; any out-of-array read
yields 0. -/
def mGetVoxel (voxels : List Nat) (dims : Nat × Nat × Nat)
    (p : Int × Int × Int) : Nat :=
  let idx : Int := p.1 + p.2.1 * (dims.1 : Int) + p.2.2 * (dims.1 : Int) * (dims.2.1 : Int)
  if 0 ≤ idx then voxels.getD idx.toNat 0 else 0

/-- The position with `x[d] = s`, `x[u] = i`, `x[v] = j` (axes
`d`, `u`, `v` a permutation of `0,1,2`). -/
def posAt (d u v : Nat) (s : Int) (i j : Nat) : Int × Int × Int :=
  axSet (axSet (axSet (0, 0, 0) d s) u (i : Int)) v (j : Int)

/-- One step along axis `d` (the `q` vector of the source). -/
def stepAx (p : Int × Int × Int) (d : Nat) : Int × Int × Int :=
  axSet p d (axGet p d + 1)

/-- The signed mask of the slice at plane index `s` for sweep axis `d`
(`u`, `v` the other two axes): at cell `n = i + j*U`, with `a` the voxel
just behind the plane (0 when `s < 0`) and `b` the voxel just ahead
(0 when `s ≥ dims[d] - 1`), the mask is 0 if `a = b`, else `a` if `a` is
non-air, else `-b`. -/
def maskFn (voxels : List Nat) (dims : Nat × Nat × Nat) (d u v : Nat)
    (s : Int) : Nat → Int := fun n =>
  let U := dimGet dims u
  let V := dimGet dims v
  if n < U * V then
    let i := n % U
    let j := n / U
    let base := posAt d u v s i j
    let a : Nat := if 0 ≤ s then mGetVoxel voxels dims base else 0
    let b : Nat := if s < (dimGet dims d : Int) - 1 then
      mGetVoxel voxels dims (stepAx base d) else 0
    if a = b then 0 else if a ≠ 0 then (a : Int) else -(b : Int)
  else 0

/-- A merged rectangle emitted by the scan: anchor cell `(qi, qj)`,
extent `qw × qh`, mask value `val`. -/
structure RQuad where
  qi : Nat
  qj : Nat
  qw : Nat
  qh : Nat
  val : Int
deriving DecidableEq, Repr

/-- The `while (i + w < dims[u] && mask[n + w] === mask[n]) w++` width
computation, as the length of the run of matching cells to the right. -/
def widthAt (U : Nat) (mask : Nat → Int) (n i : Nat) : Nat :=
  1 + ((List.range (U - i - 1)).takeWhile
        (fun k => mask (n + (k + 1)) == mask n)).length

/-- The height loop: extend while every cell of the next row across the
current width matches `mask[n]`. -/
def heightAt (U V : Nat) (mask : Nat → Int) (n j w : Nat) : Nat :=
  1 + ((List.range (V - j - 1)).takeWhile
        (fun hh => (List.range w).all
          (fun k => mask (n + k + (hh + 1) * U) == mask n))).length

/-- Zeroing the consumed `w × h` rectangle anchored at `n`. -/
def zeroRect (U : Nat) (mask : Nat → Int) (n w h : Nat) : Nat → Int :=
  fun m =>
    if (List.range h).any (fun l => (List.range w).any
        (fun k => m == n + k + l * U)) then 0
    else mask m

/-- The inner scan loop over one row `j`: advance `i`, emitting and
consuming a maximal rectangle at each non-zero mask cell. The fuel is an
upper bound on the number of loop iterations (the caller passes `U`;
each iteration advances `i` by at least 1). -/
def scanRowGo (U V j : Nat) : Nat → Nat → (Nat → Int) → List RQuad × (Nat → Int)
  | 0, _, mask => ([], mask)
  | fuel + 1, i, mask =>
    if i < U then
      let n := i + j * U
      if mask n = 0 then scanRowGo U V j fuel (i + 1) mask
      else
        let w := widthAt U mask n i
        let h := heightAt U V mask n j w
        let rest := scanRowGo U V j fuel (i + w) (zeroRect U mask n w h)
        (⟨i, j, w, h, mask n⟩ :: rest.1, rest.2)
    else ([], mask)

/-- The outer scan loop over rows `j = 0 .. V-1`, threading the
partially-zeroed mask. -/
def scanRows (U V : Nat) : Nat → Nat → (Nat → Int) → List RQuad
  | 0, _, _ => []
  | fuel + 1, j, mask =>
    if j < V then
      let row := scanRowGo U V j U 0 mask
      row.1 ++ scanRows U V fuel (j + 1) row.2
    else []

/-- Greedy scan of a full `U × V` mask in row-major order. -/
def scanMask (U V : Nat) (mask : Nat → Int) : List RQuad :=
  scanRows U V V 0 mask

/-- All quads of one sweep axis: plane index `s` runs from `-1` to
`dims[d] - 1`; each quad is tagged with its slice. -/
def axisQuads (voxels : List Nat) (dims : Nat × Nat × Nat) (d u v : Nat) :
    List (Int × RQuad) :=
  (List.range (dimGet dims d + 1)).flatMap (fun t =>
    let s : Int := (t : Int) - 1
    (scanMask (dimGet dims u) (dimGet dims v)
        (maskFn voxels dims d u v s)).map (fun q => (s, q)))

/-- The second axis `u = (d + 1) % 3` for each sweep axis. -/
def axisU : Nat → Nat
  | 0 => 1
  | 1 => 2
  | _ => 0

/-- The third axis `v = (d + 2) % 3` for each sweep axis. -/
def axisV : Nat → Nat
  | 0 => 2
  | 1 => 0
  | _ => 1

/-- All quads of `GreedyMesher.mesh`, in emission order: axes
`d = 0, 1, 2`, slices in order within each axis. -/
def meshQuads (voxels : List Nat) (dims : Nat × Nat × Nat) :
    List (Nat × Int × RQuad) :=
  ((axisQuads voxels dims 0 1 2).map (fun p => (0, p.1, p.2))) ++
  ((axisQuads voxels dims 1 2 0).map (fun p => (1, p.1, p.2))) ++
  ((axisQuads voxels dims 2 0 1).map (fun p => (2, p.1, p.2)))

/-- `createQuad` vertex data for one tagged quad: quad corner
`pos` (plane `s + 1`, cell `(qi, qj)`), edge vectors `du = w·e_u`,
`dv = h·e_v`; corners `pos`, `pos+du`, `pos+du+dv`, `pos+dv`. -/
def gqVertices (g : Nat × Int × RQuad) : List Int :=
  let d := g.1
  let q := g.2.2
  let pos := posAt d (axisU d) (axisV d) (g.2.1 + 1) q.qi q.qj
  let du := axSet (0, 0, 0) (axisU d) (q.qw : Int)
  let dv := axSet (0, 0, 0) (axisV d) (q.qh : Int)
  [pos.1, pos.2.1, pos.2.2,
   pos.1 + du.1, pos.2.1 + du.2.1, pos.2.2 + du.2.2,
   pos.1 + du.1 + dv.1, pos.2.1 + du.2.1 + dv.2.1, pos.2.2 + du.2.2 + dv.2.2,
   pos.1 + dv.1, pos.2.1 + dv.2.1, pos.2.2 + dv.2.2]

/-- `createQuad` normal data: `±e_d` (sign from the mask's sign),
repeated for the four corners. -/
def gqNormals (g : Nat × Int × RQuad) : List Int :=
  let nrm := axSet (0, 0, 0) g.1 (if 0 < g.2.2.val then 1 else -1)
  [nrm.1, nrm.2.1, nrm.2.2, nrm.1, nrm.2.1, nrm.2.2,
   nrm.1, nrm.2.1, nrm.2.2, nrm.1, nrm.2.1, nrm.2.2]

/-- The four mesh buffers produced by `GreedyMesher.mesh`. -/
structure MeshData where
  vertices : List Int
  indices : List Nat
  normals : List Int
  uvs : List Nat
deriving DecidableEq, Repr

/-- `GreedyMesher.mesh`: concatenated per-quad geometry; per quad,
indices `[o, o+1, o+2, o+2, o+3, o]` at offset `o = 4·(quad index)` and
UVs `[0,0, 1,0, 1,1, 0,1]`. -/
def mesh (voxels : List Nat) (dims : Nat × Nat × Nat) : MeshData :=
  let quads := meshQuads voxels dims
  { vertices := quads.flatMap gqVertices
    indices := (List.range quads.length).flatMap
      (fun t => [4 * t, 4 * t + 1, 4 * t + 2, 4 * t + 2, 4 * t + 3, 4 * t])
    normals := quads.flatMap gqNormals
    uvs := quads.flatMap (fun _ => [0, 0, 1, 0, 1, 1, 0, 1]) }

end GreedyMesher

/- ## The naive per-voxel mesher (`Chunk.generateMesh`, simple variant) -/

/-- The face order of the naive mesher's per-voxel loop. -/
def naiveFaceList : List Face :=
  [Face.left, Face.right, Face.bottom, Face.top, Face.back, Face.front]

/-- The faces emitted by the naive per-voxel `generateMesh` with no
neighbor chunks linked: for every non-air voxel, each of its six faces
passing `shouldRenderFace`. -/
def naiveFaces (c : Chunk) : List ((Nat × Nat × Nat) × Face) :=
  (List.range c.size).flatMap (fun x =>
    (List.range c.size).flatMap (fun y =>
      (List.range c.size).flatMap (fun z =>
        if c.getVoxel x y z = 0 then []
        else (naiveFaceList.filter
            (fun f => c.shouldRenderFace (fun _ => none) x y z f)).map
          (fun f => ((x, y, z), f)))))

/-- Number of faces emitted by the naive mesher. -/
def naiveFaceCount (c : Chunk) : Nat := (naiveFaces c).length

/- ### Claim C1, counterexample -/

/-- Claim C1 fails as stated: on the 2×2×2 grid with two face-adjacent
voxels of distinct non-air types (cell (0,0,0) = 1, cell (1,0,0) = 2)
the greedy mesher emits 11 quads while the naive mesher emits only 10
faces. Where two distinct solid types touch, the signed mask is non-zero
(the greedy mesher emits a quad) but the naive `shouldRenderFace` sees a
non-air neighbor and emits no face, so the greedy count is not `≤` the
naive count. -/
theorem greedy_le_naive_counterexample :
    ¬ ((GreedyMesher.meshQuads [1, 2, 0, 0, 0, 0, 0, 0] (2, 2, 2)).length ≤
        naiveFaceCount ⟨2, [1, 2, 0, 0, 0, 0, 0, 0], true, false⟩) := by
  decide

/- ### Claim C2 -/

namespace GreedyMesher

theorem scanRowGo_stop (U V j : Nat) (fuel i : Nat) (mask : Nat → Int)
    (h : ¬ i < U) : scanRowGo U V j fuel i mask = ([], mask) := by
  cases fuel with
  | zero => rfl
  | succ fuel => simp only [scanRowGo, if_neg h]

theorem scanRowGo_of_zero (U V j : Nat) : ∀ (fuel i : Nat) (mask : Nat → Int),
    (∀ n, mask n = 0) → scanRowGo U V j fuel i mask = ([], mask)
  | 0, _, _, _ => rfl
  | fuel + 1, i, mask, hm => by
    simp only [scanRowGo]
    split
    · rw [if_pos (hm _)]
      exact scanRowGo_of_zero U V j fuel (i + 1) mask hm
    · rfl

theorem scanRows_of_zero (U V : Nat) : ∀ (fuel j : Nat) (mask : Nat → Int),
    (∀ n, mask n = 0) → scanRows U V fuel j mask = []
  | 0, _, _, _ => rfl
  | fuel + 1, j, mask, hm => by
    simp only [scanRows]
    split
    · rw [scanRowGo_of_zero U V j U 0 mask hm]
      exact scanRows_of_zero U V fuel (j + 1) mask hm
    · rfl

/-- `dims[a] = N` for a cubic dimension triple, whatever the axis. -/
theorem dimGet_cube (N : Nat) : ∀ a, dimGet (N, N, N) a = N := by
  intro a
  rcases a with _ | _ | a <;> rfl

/-- The mask of an all-air grid vanishes. -/
theorem maskFn_of_air (voxels : List Nat) (dims : Nat × Nat × Nat)
    (d u v : Nat) (s : Int) (hv : ∀ k, voxels.getD k 0 = 0) :
    ∀ n, maskFn voxels dims d u v s n = 0 := by
  have hg : ∀ p, mGetVoxel voxels dims p = 0 := by
    intro p
    simp only [mGetVoxel]
    split
    · exact hv _
    · rfl
  intro n
  unfold maskFn
  simp [hg]

/-- An all-air grid produces no quads at all. -/
theorem meshQuads_of_air (voxels : List Nat) (dims : Nat × Nat × Nat)
    (hv : ∀ k, voxels.getD k 0 = 0) : meshQuads voxels dims = [] := by
  have hq : ∀ d u v, axisQuads voxels dims d u v = [] := by
    intro d u v
    unfold axisQuads
    rw [List.flatMap_eq_nil_iff]
    intro t _
    dsimp only
    unfold scanMask
    rw [scanRows_of_zero _ _ _ _ _ (maskFn_of_air voxels dims d u v _ hv)]
    rfl
  unfold meshQuads
  rw [hq, hq, hq]
  rfl

theorem getD_replicate_of_lt : ∀ (m k a : Nat), k < m →
    (List.replicate m a).getD k 0 = a
  | _ + 1, 0, _, _ => rfl
  | m + 1, k + 1, a, h =>
    getD_replicate_of_lt m k a (Nat.lt_of_succ_lt_succ h)

/-- Reading a fully solid `N×N×N` grid inside bounds gives the solid
type. -/
theorem mGetVoxel_replicate (N t : Nat) (p : Int × Int × Int)
    (h10 : 0 ≤ p.1) (h11 : p.1 < (N : Int))
    (h20 : 0 ≤ p.2.1) (h21 : p.2.1 < (N : Int))
    (h30 : 0 ≤ p.2.2) (h31 : p.2.2 < (N : Int)) :
    mGetVoxel (List.replicate (N * N * N) t) (N, N, N) p = t := by
  obtain ⟨a, ha⟩ := Int.eq_ofNat_of_zero_le h10
  obtain ⟨b, hb⟩ := Int.eq_ofNat_of_zero_le h20
  obtain ⟨d, hd⟩ := Int.eq_ofNat_of_zero_le h30
  have ha' : a < N := by rw [ha] at h11; exact_mod_cast h11
  have hb' : b < N := by rw [hb] at h21; exact_mod_cast h21
  have hd' : d < N := by rw [hd] at h31; exact_mod_cast h31
  unfold mGetVoxel
  rw [show p = ((a : Int), (b : Int), (d : Int)) from by
    rcases p with ⟨p1, p2, p3⟩; simp_all]
  have hidx : ((a : Int) + (b : Int) * (N : Int) + (d : Int) * (N : Int) * (N : Int)) =
      ((a + b * N + d * N * N : Nat) : Int) := by push_cast; ring
  rw [if_pos (by rw [hidx]; exact Int.natCast_nonneg _)]
  rw [hidx, Int.toNat_natCast]
  have hlt : a + b * N + d * N * N < N * N * N := by
    nlinarith [Nat.succ_le_of_lt ha', Nat.succ_le_of_lt hb', Nat.succ_le_of_lt hd']
  exact getD_replicate_of_lt _ _ _ hlt

/-- The three axis triples `(d, u, v)` actually used by the sweep. -/
def AxisTriple (d u v : Nat) : Prop :=
  (d = 0 ∧ u = 1 ∧ v = 2) ∨ (d = 1 ∧ u = 2 ∧ v = 0) ∨ (d = 2 ∧ u = 0 ∧ v = 1)

theorem stepAx_posAt (d u v : Nat) (hperm : AxisTriple d u v) (s : Int)
    (i j : Nat) : stepAx (posAt d u v s i j) d = posAt d u v (s + 1) i j := by
  rcases hperm with ⟨rfl, rfl, rfl⟩ | ⟨rfl, rfl, rfl⟩ | ⟨rfl, rfl, rfl⟩ <;> rfl

/-- Reading the solid grid at `posAt` inside bounds gives the solid
type. -/
theorem posAt_solid (N t : Nat) (d u v : Nat) (hperm : AxisTriple d u v)
    (s : Int) (i j : Nat) (hs0 : 0 ≤ s) (hs1 : s < (N : Int))
    (hi : i < N) (hj : j < N) :
    mGetVoxel (List.replicate (N * N * N) t) (N, N, N) (posAt d u v s i j) = t := by
  have hi0 : (0 : Int) ≤ (i : Int) := Int.natCast_nonneg i
  have hj0 : (0 : Int) ≤ (j : Int) := Int.natCast_nonneg j
  have hi1 : (i : Int) < (N : Int) := by exact_mod_cast hi
  have hj1 : (j : Int) < (N : Int) := by exact_mod_cast hj
  rcases hperm with ⟨rfl, rfl, rfl⟩ | ⟨rfl, rfl, rfl⟩ | ⟨rfl, rfl, rfl⟩
  · exact mGetVoxel_replicate N t (s, (i : Int), (j : Int)) hs0 hs1 hi0 hi1 hj0 hj1
  · exact mGetVoxel_replicate N t ((j : Int), s, (i : Int)) hj0 hj1 hs0 hs1 hi0 hi1
  · exact mGetVoxel_replicate N t ((i : Int), (j : Int), s) hi0 hi1 hj0 hj1 hs0 hs1

/-- Mask of the fully solid grid at the entry slice `s = -1`:
constantly `-t` on the mask area. -/
theorem maskFn_solid_neg (N t : Nat) (hN : 0 < N) (ht : 0 < t)
    (d u v : Nat) (hperm : AxisTriple d u v) :
    maskFn (List.replicate (N * N * N) t) (N, N, N) d u v (-1) =
      fun n => if n < N * N then -(t : Int) else 0 := by
  funext n
  simp only [maskFn, dimGet_cube]
  by_cases hn : n < N * N
  · rw [if_pos hn, if_pos hn]
    have hi : n % N < N := Nat.mod_lt _ hN
    have hj : n / N < N := (Nat.div_lt_iff_lt_mul hN).mpr hn
    rw [if_neg (by omega : ¬ (0 : Int) ≤ -1)]
    rw [if_pos (by omega : (-1 : Int) < (N : Int) - 1)]
    rw [stepAx_posAt d u v hperm (-1) _ _]
    rw [show (-1 : Int) + 1 = 0 from by norm_num]
    rw [posAt_solid N t d u v hperm 0 _ _ le_rfl (by exact_mod_cast hN) hi hj]
    rw [if_neg (by omega : ¬ (0 = t)), if_neg (by simp : ¬ ((0 : Nat) ≠ 0))]
  · rw [if_neg hn, if_neg hn]

/-- Mask of the fully solid grid at an interior slice: zero. -/
theorem maskFn_solid_mid (N t : Nat) (hN : 0 < N)
    (d u v : Nat) (hperm : AxisTriple d u v) (s : Int)
    (hs0 : 0 ≤ s) (hs1 : s < (N : Int) - 1) :
    maskFn (List.replicate (N * N * N) t) (N, N, N) d u v s = fun _ => 0 := by
  funext n
  simp only [maskFn, dimGet_cube]
  by_cases hn : n < N * N
  · rw [if_pos hn]
    have hi : n % N < N := Nat.mod_lt _ hN
    have hj : n / N < N := (Nat.div_lt_iff_lt_mul hN).mpr hn
    rw [if_pos hs0, if_pos hs1]
    rw [stepAx_posAt d u v hperm s _ _]
    rw [posAt_solid N t d u v hperm s _ _ hs0 (by omega) hi hj]
    rw [posAt_solid N t d u v hperm (s + 1) _ _ (by omega) (by omega) hi hj]
    rw [if_pos rfl]
  · rw [if_neg hn]

/-- Mask of the fully solid grid at the exit slice `s = N - 1`:
constantly `t` on the mask area. -/
theorem maskFn_solid_pos (N t : Nat) (hN : 0 < N) (ht : 0 < t)
    (d u v : Nat) (hperm : AxisTriple d u v) :
    maskFn (List.replicate (N * N * N) t) (N, N, N) d u v ((N : Int) - 1) =
      fun n => if n < N * N then (t : Int) else 0 := by
  funext n
  simp only [maskFn, dimGet_cube]
  by_cases hn : n < N * N
  · rw [if_pos hn, if_pos hn]
    have hi : n % N < N := Nat.mod_lt _ hN
    have hj : n / N < N := (Nat.div_lt_iff_lt_mul hN).mpr hn
    have hN' : (1 : Int) ≤ (N : Int) := by exact_mod_cast hN
    rw [if_pos (by omega : (0 : Int) ≤ (N : Int) - 1)]
    rw [if_neg (by omega : ¬ ((N : Int) - 1 < (N : Int) - 1))]
    rw [posAt_solid N t d u v hperm ((N : Int) - 1) _ _ (by omega) (by omega) hi hj]
    rw [if_neg (by omega : ¬ (t = 0)), if_pos (by omega : t ≠ 0)]
  · rw [if_neg hn, if_neg hn]

/- #### The scan of a constant mask yields a single maximal quad -/

theorem widthAt_const (U V : Nat) (hU : 0 < U) (hV : 0 < V) (c : Int) :
    widthAt U (fun n => if n < U * V then c else 0) 0 0 = U := by
  unfold widthAt
  rw [List.takeWhile_eq_self_iff.mpr ?_, List.length_range]
  · omega
  · intro k hk
    rw [List.mem_range] at hk
    have hUV : U ≤ U * V := Nat.le_mul_of_pos_right U hV
    have hk' : k + 1 < U := by omega
    beta_reduce
    rw [Nat.zero_add, if_pos (lt_of_lt_of_le hk' hUV),
      if_pos (Nat.mul_pos hU hV)]
    exact beq_self_eq_true c

theorem heightAt_const (U V : Nat) (hU : 0 < U) (hV : 0 < V) (c : Int) :
    heightAt U V (fun n => if n < U * V then c else 0) 0 0 U = V := by
  unfold heightAt
  rw [List.takeWhile_eq_self_iff.mpr ?_, List.length_range]
  · omega
  · intro hh hhm
    rw [List.mem_range] at hhm
    rw [List.all_eq_true]
    intro k hkm
    rw [List.mem_range] at hkm
    have hidx : 0 + k + (hh + 1) * U < U * V := by
      have h1 : k + (hh + 1) * U < (hh + 2) * U := by
        have := Nat.succ_le_of_lt hkm
        calc k + (hh + 1) * U < U + (hh + 1) * U := by omega
          _ = (hh + 2) * U := by ring
      have h2 : (hh + 2) * U ≤ V * U := Nat.mul_le_mul_right U (by omega)
      calc 0 + k + (hh + 1) * U = k + (hh + 1) * U := by omega
        _ < (hh + 2) * U := h1
        _ ≤ V * U := h2
        _ = U * V := Nat.mul_comm V U
    beta_reduce
    rw [if_pos hidx, if_pos (Nat.mul_pos hU hV)]
    exact beq_self_eq_true c

theorem zeroRect_full (U V : Nat) (hU : 0 < U) (mask : Nat → Int)
    (hout : ∀ m, U * V ≤ m → mask m = 0) :
    ∀ m, zeroRect U mask 0 U V m = 0 := by
  intro m
  unfold zeroRect
  by_cases hm : m < U * V
  · have hm' : m < V * U := by rw [Nat.mul_comm V U]; exact hm
    have hsplit := Nat.mod_add_div m U
    rw [Nat.mul_comm U (m / U)] at hsplit
    rw [if_pos ?_]
    rw [List.any_eq_true]
    refine ⟨m / U, List.mem_range.mpr ((Nat.div_lt_iff_lt_mul hU).mpr hm'), ?_⟩
    rw [List.any_eq_true]
    refine ⟨m % U, List.mem_range.mpr (Nat.mod_lt _ hU), ?_⟩
    rw [beq_iff_eq]
    omega
  · split
    · rfl
    · exact hout m (Nat.le_of_not_lt hm)

theorem scanRows_step (U V fuel j : Nat) (mask : Nat → Int)
    (hf : 0 < fuel) (hj : j < V) :
    scanRows U V fuel j mask =
      (scanRowGo U V j U 0 mask).1 ++
        scanRows U V (fuel - 1) (j + 1) (scanRowGo U V j U 0 mask).2 := by
  cases fuel with
  | zero => omega
  | succ f => simp only [scanRows, if_pos hj, Nat.add_sub_cancel]

theorem scanRowGo_emit (U V j fuel i : Nat) (mask : Nat → Int)
    (hf : 0 < fuel) (hi : i < U) (hm : ¬ mask (i + j * U) = 0) :
    scanRowGo U V j fuel i mask =
      (⟨i, j, widthAt U mask (i + j * U) i,
          heightAt U V mask (i + j * U) j (widthAt U mask (i + j * U) i),
          mask (i + j * U)⟩ ::
        (scanRowGo U V j (fuel - 1) (i + widthAt U mask (i + j * U) i)
          (zeroRect U mask (i + j * U) (widthAt U mask (i + j * U) i)
            (heightAt U V mask (i + j * U) j (widthAt U mask (i + j * U) i)))).1,
      (scanRowGo U V j (fuel - 1) (i + widthAt U mask (i + j * U) i)
        (zeroRect U mask (i + j * U) (widthAt U mask (i + j * U) i)
          (heightAt U V mask (i + j * U) j (widthAt U mask (i + j * U) i)))).2) := by
  cases fuel with
  | zero => omega
  | succ f => simp only [scanRowGo, if_pos hi, if_neg hm, Nat.add_sub_cancel]

theorem scanRowGo_skip (U V j fuel i : Nat) (mask : Nat → Int)
    (hf : 0 < fuel) (hi : i < U) (hm : mask (i + j * U) = 0) :
    scanRowGo U V j fuel i mask = scanRowGo U V j (fuel - 1) (i + 1) mask := by
  cases fuel with
  | zero => omega
  | succ f => simp only [scanRowGo, if_pos hi, if_pos hm, Nat.add_sub_cancel]

/-- Scanning a mask that is constantly `c ≠ 0` over its `U × V` area
yields the single maximal quad. -/
theorem scanMask_const (U V : Nat) (hU : 0 < U) (hV : 0 < V) (c : Int)
    (hc : c ≠ 0) :
    scanMask U V (fun n => if n < U * V then c else 0) =
      [⟨0, 0, U, V, c⟩] := by
  have h0 : (if 0 + 0 * U < U * V then c else (0 : Int)) = c := by
    simp only [Nat.zero_mul, Nat.add_zero]
    exact if_pos (Nat.mul_pos hU hV)
  unfold scanMask
  rw [scanRows_step U V V 0 _ hV hV]
  rw [scanRowGo_emit U V 0 U 0 _ hU hU (by rw [h0]; exact hc)]
  simp only [Nat.zero_mul, Nat.add_zero, Nat.zero_add] at h0 ⊢
  rw [h0, widthAt_const U V hU hV c, heightAt_const U V hU hV c]
  rw [scanRowGo_stop U V 0 (U - 1) U _ (by omega)]
  have hz : ∀ m, zeroRect U (fun n => if n < U * V then c else 0) 0 U V m = 0 :=
    zeroRect_full U V hU _ (fun m hm => if_neg (by omega))
  rw [scanRows_of_zero U V (V - 1) 1 _ hz]
  rfl

theorem flatMap_range_mids_nil {α : Type} (f : Nat → List α) (N : Nat)
    (hN : 0 < N) (hmid : ∀ t, 0 < t → t < N → f t = []) :
    (List.range (N + 1)).flatMap f = f 0 ++ f N := by
  have key : ∀ M, 0 < M → M ≤ N → (List.range M).flatMap f = f 0 := by
    intro M
    induction M with
    | zero => intro h; omega
    | succ M ih =>
      intro _ hMN
      rw [List.range_succ, List.flatMap_append]
      by_cases hM : M = 0
      · subst hM
        simp
      · rw [ih (by omega) (by omega)]
        simp only [List.flatMap_cons, List.flatMap_nil, List.append_nil]
        rw [hmid M (by omega) (by omega)]
        simp
  rw [List.range_succ, List.flatMap_append, key N hN le_rfl]
  simp

/-- The quads of one sweep axis over the fully solid cube: one maximal
`N × N` quad at the entry slice and one at the exit slice. -/
theorem axisQuads_solid (N t : Nat) (hN : 0 < N) (ht : 0 < t)
    (d u v : Nat) (hperm : AxisTriple d u v) :
    axisQuads (List.replicate (N * N * N) t) (N, N, N) d u v =
      [(-1, ⟨0, 0, N, N, -(t : Int)⟩),
       ((N : Int) - 1, ⟨0, 0, N, N, (t : Int)⟩)] := by
  unfold axisQuads
  simp only [dimGet_cube]
  have hmid : ∀ (t' : Nat), 0 < t' → t' < N →
      (scanMask N N (maskFn (List.replicate (N * N * N) t) (N, N, N) d u v
          ((t' : Int) - 1))).map
        (fun q => (((t' : Int) - 1), q)) = [] := by
    intro t' ht0 htN
    rw [maskFn_solid_mid N t hN d u v hperm ((t' : Int) - 1) (by omega) (by omega)]
    unfold scanMask
    rw [scanRows_of_zero _ _ _ _ _ (fun n => rfl)]
    rfl
  rw [flatMap_range_mids_nil _ N hN hmid]
  rw [show ((0 : Nat) : Int) - 1 = -1 from by norm_num]
  rw [maskFn_solid_neg N t hN ht d u v hperm]
  rw [scanMask_const N N hN hN (-(t : Int)) (by omega)]
  rw [maskFn_solid_pos N t hN ht d u v hperm]
  rw [scanMask_const N N hN hN (t : Int) (by omega)]
  rfl

/-- The full quad list for the solid cube: six maximal quads, one per
outer face. -/
theorem meshQuads_solid (N t : Nat) (hN : 0 < N) (ht : 0 < t) :
    meshQuads (List.replicate (N * N * N) t) (N, N, N) =
      [(0, -1, ⟨0, 0, N, N, -(t : Int)⟩), (0, (N : Int) - 1, ⟨0, 0, N, N, (t : Int)⟩),
       (1, -1, ⟨0, 0, N, N, -(t : Int)⟩), (1, (N : Int) - 1, ⟨0, 0, N, N, (t : Int)⟩),
       (2, -1, ⟨0, 0, N, N, -(t : Int)⟩), (2, (N : Int) - 1, ⟨0, 0, N, N, (t : Int)⟩)] := by
  unfold meshQuads
  rw [axisQuads_solid N t hN ht 0 1 2 (Or.inl ⟨rfl, rfl, rfl⟩),
      axisQuads_solid N t hN ht 1 2 0 (Or.inr (Or.inl ⟨rfl, rfl, rfl⟩)),
      axisQuads_solid N t hN ht 2 0 1 (Or.inr (Or.inr ⟨rfl, rfl, rfl⟩))]
  rfl

end GreedyMesher

theorem getD_replicate_zero : ∀ (m k : Nat), (List.replicate m (0 : Nat)).getD k 0 = 0
  | 0, 0 => rfl
  | 0, _ + 1 => rfl
  | _ + 1, 0 => rfl
  | m + 1, k + 1 => getD_replicate_zero m k

/-- Claim C2: meshing an all-air grid returns empty vertex, normal, uv
and index buffers; meshing a fully solid single-type `N×N×N` grid emits
exactly 6 quads, i.e. 24 vertices (72 coordinates) and 36 indices. -/
theorem mesh_air_and_solid (dims : Nat × Nat × Nat) (voxels0 : List Nat)
    (hair : ∀ k, voxels0.getD k 0 = 0) (N t : Nat) (hN : 0 < N) (ht : 0 < t) :
    GreedyMesher.mesh voxels0 dims = ⟨[], [], [], []⟩ ∧
    (GreedyMesher.meshQuads (List.replicate (N * N * N) t) (N, N, N)).length = 6 ∧
    (GreedyMesher.mesh (List.replicate (N * N * N) t) (N, N, N)).vertices.length =
      3 * 24 ∧
    (GreedyMesher.mesh (List.replicate (N * N * N) t) (N, N, N)).indices.length =
      36 := by
  refine ⟨?_, ?_, ?_, ?_⟩
  · unfold GreedyMesher.mesh
    rw [GreedyMesher.meshQuads_of_air voxels0 dims hair]
    rfl
  · rw [GreedyMesher.meshQuads_solid N t hN ht]
    rfl
  · unfold GreedyMesher.mesh
    rw [GreedyMesher.meshQuads_solid N t hN ht]
    simp [GreedyMesher.gqVertices]
  · unfold GreedyMesher.mesh
    rw [GreedyMesher.meshQuads_solid N t hN ht]
    rfl

/-- Witness for C2 at `N = 2`, solid type 3. -/
theorem mesh_air_and_solid_witness :
    GreedyMesher.mesh (List.replicate 8 0) (2, 2, 2) = ⟨[], [], [], []⟩ ∧
    (GreedyMesher.meshQuads (List.replicate (2 * 2 * 2) 3) (2, 2, 2)).length = 6 ∧
    (GreedyMesher.mesh (List.replicate (2 * 2 * 2) 3) (2, 2, 2)).vertices.length =
      3 * 24 ∧
    (GreedyMesher.mesh (List.replicate (2 * 2 * 2) 3) (2, 2, 2)).indices.length =
      36 :=
  mesh_air_and_solid (2, 2, 2) (List.replicate 8 0)
    (fun k => getD_replicate_zero 8 k) 2 3 (by decide) (by decide)

/- ## The ChunkManager (pooled variant)

The manager owns a heap of `Chunk` objects addressed by object ids (JS
object references), the coordinate-keyed known-chunk map, the object
pool's free list (ids, top of stack first) and active set, and the FIFO
generation queue. JS exceptions are modeled by a `Bool` "threw" flag
accompanying each operation's result; an operation that throws returns
the partial state reached at the throw point, exactly the mutations the
JS code performed before the exception. `update(cameraPosition)` factors,
for the state components modeled here, into `processGenerationQueue`
followed by a sequence of `getChunkByIndex` and `unloadChunk` calls (its
LOD/culling work touches only per-chunk scalar fields and rendering
state). -/

/-- A chunk coordinate triple. -/
abbrev Coord := Int × Int × Int

/-- A pooled `Chunk` object: coordinates, possibly-null voxel array and
neighbor table (`dispose()` nulls both), flags, and whether a mesh is
held. Neighbor references are heap object ids. -/
structure PChunk where
  cx : Int
  cy : Int
  cz : Int
  size : Nat
  voxels : Option (List Nat)
  neighbors : Option (Face → Option Nat)
  needsUpdate : Bool
  isEmpty : Bool
  meshLive : Bool

/-- `new Chunk(0, 0, 0, n)`: the pool's `createFn`. -/
def freshPChunk (n : Nat) : PChunk :=
  ⟨0, 0, 0, n, some (List.replicate (n * n * n) 0), some (fun _ => none),
    true, true, false⟩

/-- The manager state. -/
structure MState where
  heap : Nat → PChunk
  nextId : Nat
  chunks : List (Coord × Nat)
  freePool : List Nat
  activePool : List Nat
  queue : List Nat
  csize : Nat
  isGenerating : Bool

/-- `new ChunkManager(scene)` as used by `World`: chunk size 16, pool
pre-populated with 20 fresh chunks (ids 0–19, top of the free stack
last-created). -/
def initState : MState :=
  { heap := fun _ => freshPChunk 16
    nextId := 20
    chunks := []
    freePool := (List.range 20).reverse
    activePool := []
    queue := []
    csize := 16
    isGenerating := false }

/-- `Map.get` over the coordinate-keyed chunk map. -/
def findCoord : List (Coord × Nat) → Coord → Option Nat
  | [], _ => none
  | e :: rest, c => if e.1 = c then some e.2 else findCoord rest c

/-- `Map.delete`. -/
def eraseCoord (l : List (Coord × Nat)) (c : Coord) : List (Coord × Nat) :=
  l.filter (fun e => decide (e.1 ≠ c))

/-- Coordinate of the neighbor chunk along a face, as laid out in
`linkNeighbors`. -/
def adjCoord (c : Coord) (f : Face) : Coord :=
  let o := f.offset
  (c.1 + o.1, c.2.1 + o.2.1, c.2.2 + o.2.2)

/-- `getOppositeFace`. -/
def oppFace : Face → Face
  | .left => .right
  | .right => .left
  | .top => .bottom
  | .bottom => .top
  | .front => .back
  | .back => .front

/-- Point update of the heap. -/
def hset (h : Nat → PChunk) (id : Nat) (f : PChunk → PChunk) : Nat → PChunk :=
  fun k => if k = id then f (h k) else h k

/-- `chunkPool.acquire()`: pop the free list or construct fresh; either
way the object joins the pool's active set. -/
def acquire (s : MState) : Nat × MState :=
  match s.freePool with
  | id :: rest =>
      (id, { s with freePool := rest, activePool := id :: s.activePool })
  | [] =>
      (s.nextId,
        { s with heap := hset s.heap s.nextId (fun _ => freshPChunk s.csize)
                 nextId := s.nextId + 1
                 activePool := s.nextId :: s.activePool })

/-- `Object.entries(chunk.neighbors)` iteration order: the constructor's
literal key order. -/
def linkFaceOrder : List Face :=
  [Face.left, Face.right, Face.top, Face.bottom, Face.front, Face.back]

/-- The back-patching loop of `linkNeighbors`: for each face whose
neighbor is present, write the reciprocal reference into that neighbor's
table. Writing into a disposed (null) table throws. Returns the new
heap and the threw flag. -/
def patchFaces (ι : Nat) (nb : Face → Option Nat) :
    List Face → (Nat → PChunk) → (Nat → PChunk) × Bool
  | [], h => (h, false)
  | f :: fs, h =>
      match nb f with
      | none => patchFaces ι nb fs h
      | some b =>
          match (h b).neighbors with
          | none => (h, true)
          | some m =>
          patchFaces ι nb fs
            (hset h b (fun ch =>
              { ch with
                neighbors := some (fun f' =>
                  if f' = oppFace f then some ι else m f') }))

/-- `linkNeighbors(chunk)`: set the chunk's six references from the
current map, then back-patch the present neighbors. -/
def linkNeighbors (s : MState) (ι : Nat) (c : Coord) : MState × Bool :=
  let nb : Face → Option Nat := fun f => findCoord s.chunks (adjCoord c f)
  match (s.heap ι).neighbors with
  | none => (s, true)
  | some _ =>
      let h1 := hset s.heap ι (fun ch => { ch with neighbors := some nb })
      let r := patchFaces ι nb linkFaceOrder h1
      ({ s with heap := r.1 }, r.2)

/-- The allocation half of `getChunkByIndex` on a miss: acquire an
object, overwrite its coordinates, and register it in the map. -/
def registerChunk (s : MState) (c : Coord) : MState × Nat :=
  let a := acquire s
  ({ a.2 with
      heap := hset a.2.heap a.1
        (fun ch => { ch with cx := c.1, cy := c.2.1, cz := c.2.2 })
      chunks := (c, a.1) :: a.2.chunks }, a.1)

/-- `getChunkByIndex(x, y, z)`: return the known chunk, or acquire one,
set its coordinates, register it, link neighbors, and enqueue it for
generation. Returns (state, id, threw). -/
def getChunkByIndex (s : MState) (c : Coord) : MState × Nat × Bool :=
  match findCoord s.chunks c with
  | some id => (s, id, false)
  | none =>
      let r := registerChunk s c
      let lk := linkNeighbors r.1 r.2 c
      if lk.2 then (lk.1, r.2, true)
      else ({ lk.1 with queue := lk.1.queue ++ [r.2] }, r.2, false)

/-- `unloadChunk(chunkId)`: dispose (null voxels and neighbor table,
drop the mesh), delete from the map, then `chunkPool.release`. The
release's `resetFn` runs `chunk.voxels.fill(0)` on the just-nulled
array, throwing a TypeError, so the chunk never reaches the free list
and the active set keeps it. Returns (state, threw). -/
def unloadChunk (s : MState) (c : Coord) : MState × Bool :=
  match findCoord s.chunks c with
  | none => (s, false)
  | some a =>
      let s1 := { s with
        heap := hset s.heap a (fun ch =>
          { ch with meshLive := false, voxels := none, neighbors := none }) }
      let s2 := { s1 with chunks := eraseCoord s1.chunks c }
      if a ∈ s2.activePool then (s2, true)
      else (s2, false)

/-- `chunk.setVoxel` on a managed chunk object: the bounds check runs
first (out-of-range writes fail without touching the object); a write on
a disposed chunk (null `voxels`) throws. Returns
(chunk, returned value, threw). -/
def PChunk.setVoxelP (ch : PChunk) (x y z : Int) (t : Nat) :
    PChunk × Bool × Bool :=
  match ch.voxels with
  | some vx =>
      let r := (Chunk.mk ch.size vx ch.needsUpdate ch.isEmpty).setVoxel x y z t
      ({ ch with
          voxels := some r.1.voxels,
          needsUpdate := r.1.needsUpdate,
          isEmpty := r.1.isEmpty }, r.2, false)
  | none =>
      if (Chunk.mk ch.size [] ch.needsUpdate ch.isEmpty).outOfRange x y z then
        (ch, false, false)
      else (ch, false, true)

/-- `chunk.getVoxel` on a managed chunk object: the out-of-range
sentinel needs no array; an in-range read of a disposed chunk throws.
Returns (value, threw). -/
def PChunk.getVoxelP (ch : PChunk) (x y z : Int) : Nat × Bool :=
  match ch.voxels with
  | some vx => ((Chunk.mk ch.size vx ch.needsUpdate ch.isEmpty).getVoxel x y z, false)
  | none =>
      if (Chunk.mk ch.size [] ch.needsUpdate ch.isEmpty).outOfRange x y z then
        (0, false)
      else (0, true)

/-- The external generation hook (`TerrainGenerator.generateChunk`),
abstracted as the sequence of `setVoxel` writes it performs; it stops at
the first thrown write. Returns (chunk, threw). -/
def applyHook (ch : PChunk) : List (Int × Int × Int × Nat) → PChunk × Bool
  | [] => (ch, false)
  | w :: ws =>
      let r := ch.setVoxelP w.1 w.2.1 w.2.2.1 w.2.2.2
      if r.2.2 then (r.1, true)
      else applyHook r.1 ws

/-- `chunk.generateMesh()` of the pooled variant: empty chunks drop any
held mesh and return nothing; otherwise the greedy mesher runs over the
grid (throwing on a disposed chunk), and a non-empty vertex buffer
replaces the mesh and clears `needsUpdate`. Returns
(chunk, returned a mesh, threw). -/
def PChunk.generateMeshP (ch : PChunk) : PChunk × Bool × Bool :=
  if ch.isEmpty then
    (if ch.meshLive then { ch with meshLive := false } else ch, false, false)
  else
    match ch.voxels with
    | none => (ch, false, true)
    | some vx =>
        let md := GreedyMesher.mesh vx (ch.size, ch.size, ch.size)
        if 0 < md.vertices.length then
          ({ ch with meshLive := true, needsUpdate := false }, true, false)
        else (ch, false, false)

/-- `updateChunkMesh(chunk)` (scene bookkeeping elided). Returns
(state, threw). -/
def updateChunkMeshP (s : MState) (id : Nat) : MState × Bool :=
  let r := (s.heap id).generateMeshP
  ({ s with heap := hset s.heap id (fun _ => r.1) }, r.2.2)

/-- `processGenerationQueue()`: bail out when already generating or the
queue is empty; otherwise shift one chunk, run the generation hook when
wired (on whatever object was dequeued — there is no active-set check),
then remesh it. A thrown hook or remesh leaves `isGenerating` stuck at
`true`. Returns (state, serviced id, threw). -/
def processGen (s : MState) (hook : Option (List (Int × Int × Int × Nat))) :
    MState × Option Nat × Bool :=
  if s.isGenerating ∨ s.queue = [] then (s, none, false)
  else
    match s.queue with
    | [] => (s, none, false)
    | id :: rest =>
        let s1 := { s with queue := rest, isGenerating := true }
        let hr : MState × Bool :=
          match hook with
          | some ws =>
              let r := applyHook (s1.heap id) ws
              ({ s1 with heap := hset s1.heap id (fun _ => r.1) }, r.2)
          | none => (s1, false)
        if hr.2 then (hr.1, some id, true)
        else
          let m := updateChunkMeshP hr.1 id
          if m.2 then (m.1, some id, true)
          else ({ m.1 with isGenerating := false }, some id, false)

/- ### World-level block accessors (`terrain.js`) -/

/-- The boundary-edit neighbor dirtying of `World.setBlockAt`: an edit
on any face of the chunk marks every linked neighbor `needsUpdate`.
Returns (state, threw — `Object.values(null)` would throw on a disposed
chunk). -/
def markNeighborsDirty (s : MState) (id : Nat) (lx ly lz : Int) : MState × Bool :=
  let ch := s.heap id
  if lx = 0 ∨ lx = (ch.size : Int) - 1 ∨ ly = 0 ∨ ly = (ch.size : Int) - 1 ∨
      lz = 0 ∨ lz = (ch.size : Int) - 1 then
    match ch.neighbors with
    | none => (s, true)
    | some nb =>
        (⟨linkFaceOrder.foldl (fun h f =>
            match nb f with
            | some b => hset h b (fun c2 => { c2 with needsUpdate := true })
            | none => h) s.heap,
          s.nextId, s.chunks, s.freePool, s.activePool, s.queue, s.csize,
          s.isGenerating⟩, false)
  else (s, false)

/-- `World.getBlockAt(worldX, worldY, worldZ)` at integer world
coordinates: fetch (or create) the enclosing chunk via floor division,
then read the voxel at the JS-`%` local coordinates. Returns
(state, value, threw). -/
def getBlockAt (s : MState) (wx wy wz : Int) : MState × Nat × Bool :=
  let g := getChunkByIndex s
    (Int.fdiv wx s.csize, Int.fdiv wy s.csize, Int.fdiv wz s.csize)
  if g.2.2 then (g.1, 0, true)
  else
    let ch := g.1.heap g.2.1
    let r := ch.getVoxelP (jsMod wx ch.size) (jsMod wy ch.size) (jsMod wz ch.size)
    (g.1, r.1, r.2)

/-- `World.setBlockAt(worldX, worldY, worldZ, blockType)` at integer
world coordinates: fetch (or create) the enclosing chunk, write the
voxel at the JS-`%` local coordinates, and on success remesh and mark
boundary neighbors dirty. Returns (state, success, threw). -/
def setBlockAt (s : MState) (wx wy wz : Int) (t : Nat) : MState × Bool × Bool :=
  let g := getChunkByIndex s
    (Int.fdiv wx s.csize, Int.fdiv wy s.csize, Int.fdiv wz s.csize)
  if g.2.2 then (g.1, false, true)
  else
    let s1 := g.1
    let id := g.2.1
    let ch := s1.heap id
    let lx := jsMod wx ch.size
    let ly := jsMod wy ch.size
    let lz := jsMod wz ch.size
    let r := ch.setVoxelP lx ly lz t
    let s2 := { s1 with heap := hset s1.heap id (fun _ => r.1) }
    if r.2.2 then (s2, false, true)
    else if r.2.1 then
      let m := updateChunkMeshP s2 id
      if m.2 then (m.1, false, true)
      else
        let d := markNeighborsDirty m.1 id lx ly lz
        (d.1, true, d.2)
    else (s2, false, false)

/- ### Claims C7, C8, C9: the unload / recycle / queue-service bugs -/

/-- State after `getChunkByIndex(0,0,0)` on a fresh manager: the chunk
uses pooled object 19 (top of the pre-populated free stack). -/
def stateA : MState := (getChunkByIndex initState (0, 0, 0)).1

/-- State after additionally `getChunkByIndex(1,0,0)`: pooled object
18, linked right of object 19. -/
def stateAB : MState := (getChunkByIndex stateA (1, 0, 0)).1

/-- `unloadChunk("1_0_0")` on `stateAB`. -/
def unloadB : MState × Bool := unloadChunk stateAB (1, 0, 0)

/-- Claim C7 at the failing input (two adjacent loaded chunks, unload
the second): the chunk is removed from the map, but the pool release
throws (`resetFn` runs `voxels.fill(0)` on the array `dispose()` just
nulled), the object never reaches the free list, and the remaining
neighbor's back-reference still points at the disposed object instead
of being cleared. -/
theorem unload_dangling_and_pool_failure :
    unloadB.2 = true ∧
    findCoord unloadB.1.chunks (1, 0, 0) = none ∧
    (unloadB.1.heap 19).neighbors.map (fun nb => nb Face.right) =
      some (some 18) ∧
    ¬ (18 ∈ unloadB.1.freePool) ∧
    (unloadB.1.heap 18).voxels = none := by
  decide

/-- `unloadChunk("0_0_0")` on `stateA`. -/
def unloadA : MState × Bool := unloadChunk stateA (0, 0, 0)

/-- Requesting coordinate (0,0,0) again after unloading it. -/
def reacquireA : MState × Nat × Bool := getChunkByIndex unloadA.1 (0, 0, 0)

/-- Claim C8 at the failing input (unload then re-request (0,0,0)): the
release throws, so object 19 never returns to the free list and its
grid is left null rather than reset to air; the re-request is served by
a different pre-populated object (18), never by a recycled one. -/
theorem unload_reload_not_recycled :
    unloadA.2 = true ∧
    ¬ (19 ∈ unloadA.1.freePool) ∧
    (unloadA.1.heap 19).voxels = none ∧
    reacquireA.2.1 = 18 ∧
    (reacquireA.1.heap 18).voxels.isSome = true ∧
    (reacquireA.1.heap 18).getVoxelP 0 0 0 = (0, false) := by
  decide

/-- `processGenerationQueue()` after the chunk queued at (0,0,0) was
unloaded, with a generation hook that writes voxel (0,0,0). -/
def deadGen : MState × Option Nat × Bool :=
  processGen unloadA.1 (some [(0, 0, 0, 1)])

/-- Claim C9 at the failing input: the dequeued chunk (object 19) was
already unloaded — its coordinate is no longer in the known-chunk map —
yet the call is not a guarded no-op: the generation hook is invoked on
the dead chunk, its first voxel write throws on the nulled array, and
the exception leaves `isGenerating` stuck at `true`. -/
theorem processGen_unguarded_dead_chunk :
    deadGen.2.1 = some 19 ∧
    findCoord unloadA.1.chunks (0, 0, 0) = none ∧
    deadGen.2.2 = true ∧
    deadGen.1.isGenerating = true := by
  decide

/- ### Claim C10: world accessors at negative coordinates -/

/-- Claim C10 fails as stated: at world coordinate (-16, 0, 0), whose
first component is negative, the JS local coordinate is
`(-16) % 16 = -0`, which passes the bounds check as 0, so `setBlockAt`
succeeds (returns `true`) instead of returning `false`. -/
theorem negative_world_setBlockAt_counterexample :
    ¬ ((setBlockAt initState (-16) 0 0 0).2.1 = false) := by
  decide

/-- A negative local coordinate always lands in the out-of-range
branch. -/
theorem outOfRange_of_neg (c : Chunk) (x y z : Int)
    (h : x < 0 ∨ y < 0 ∨ z < 0) : c.outOfRange x y z = true := by
  unfold Chunk.outOfRange
  rcases h with h | h | h <;> simp [h]

/-- The JS remainder of a negative dividend by a natural is never
positive. -/
theorem tmod_nonpos_of_neg (a : Int) (n : Nat) (h : a < 0) :
    a.tmod (n : Int) ≤ 0 := by
  cases a with
  | ofNat m => exact absurd h (Int.not_lt.mpr (Int.ofNat_nonneg m))
  | negSucc m =>
    show Int.tmod (Int.negSucc m) (Int.ofNat n) ≤ 0
    rw [show Int.tmod (Int.negSucc m) (Int.ofNat n) =
      -(((m + 1) % n : Nat) : Int) from rfl]
    omega

/-- Well-formedness of a manager state, as maintained by the manager's
own operations: chunks reachable through the map or the pool's free
list have live neighbor tables, every object carries the manager's
chunk size, and ids not yet allocated are untouched fresh objects. -/
structure WFState (s : MState) : Prop where
  mapLive : ∀ p a, findCoord s.chunks p = some a →
    (s.heap a).neighbors.isSome = true
  poolLive : ∀ id ∈ s.freePool, (s.heap id).neighbors.isSome = true
  sizes : ∀ id, (s.heap id).size = s.csize
  phantom : ∀ id, s.nextId ≤ id → s.heap id = freshPChunk s.csize

theorem adjCoord_ne (c : Coord) (f : Face) : adjCoord c f ≠ c := by
  cases f <;>
  · simp only [adjCoord, Face.offset, ne_eq, Prod.ext_iff, not_and]
    intro h1 h2
    omega

theorem patchFaces_cons_none (ι : Nat) (nb : Face → Option Nat) (f : Face)
    (fs : List Face) (h : Nat → PChunk) (hf : nb f = none) :
    patchFaces ι nb (f :: fs) h = patchFaces ι nb fs h := by
  conv_lhs => unfold patchFaces
  rw [hf]

theorem patchFaces_cons_dead (ι : Nat) (nb : Face → Option Nat) (f : Face)
    (fs : List Face) (h : Nat → PChunk) (b : Nat) (hf : nb f = some b)
    (hb : (h b).neighbors = none) :
    patchFaces ι nb (f :: fs) h = (h, true) := by
  conv_lhs => unfold patchFaces
  rw [hf]
  show (match (h b).neighbors with
    | none => (h, true)
    | some m => patchFaces ι nb fs
        (hset h b (fun ch =>
          { ch with neighbors := some (fun f' =>
              if f' = oppFace f then some ι else m f') }))) = (h, true)
  rw [hb]

theorem patchFaces_cons_live (ι : Nat) (nb : Face → Option Nat) (f : Face)
    (fs : List Face) (h : Nat → PChunk) (b : Nat) (m : Face → Option Nat)
    (hf : nb f = some b) (hb : (h b).neighbors = some m) :
    patchFaces ι nb (f :: fs) h = patchFaces ι nb fs
      (hset h b (fun ch =>
        { ch with neighbors := some (fun f' =>
            if f' = oppFace f then some ι else m f') })) := by
  conv_lhs => unfold patchFaces
  rw [hf]
  show (match (h b).neighbors with
    | none => (h, true)
    | some m => patchFaces ι nb fs
        (hset h b (fun ch =>
          { ch with neighbors := some (fun f' =>
              if f' = oppFace f then some ι else m f') }))) = _
  rw [hb]

/-- The back-patching loop touches only neighbor tables: voxel arrays
and sizes are untouched, whether or not it throws. -/
theorem patchFaces_preserve (ι : Nat) (nb : Face → Option Nat)
    (fs : List Face) : ∀ (h : Nat → PChunk) (x : Nat),
    ((patchFaces ι nb fs h).1 x).voxels = (h x).voxels ∧
    ((patchFaces ι nb fs h).1 x).size = (h x).size := by
  induction fs with
  | nil => intro h x; exact ⟨rfl, rfl⟩
  | cons f fs ih =>
    intro h x
    cases hnb : nb f with
    | none =>
      rw [patchFaces_cons_none ι nb f fs h hnb]
      exact ih h x
    | some b =>
      cases hb : (h b).neighbors with
      | none =>
        rw [patchFaces_cons_dead ι nb f fs h b hnb hb]
        exact ⟨rfl, rfl⟩
      | some m =>
        rw [patchFaces_cons_live ι nb f fs h b m hnb hb]
        obtain ⟨h1, h2⟩ := ih (hset h b (fun ch =>
          { ch with neighbors := some (fun f' =>
              if f' = oppFace f then some ι else m f') })) x
        refine ⟨h1.trans ?_, h2.trans ?_⟩ <;>
        · unfold hset
          split <;> rfl

/-- The back-patching loop does not throw when every present target has
a live neighbor table. -/
theorem patchFaces_no_throw (ι : Nat) (nb : Face → Option Nat)
    (fs : List Face) : ∀ (h : Nat → PChunk),
    (∀ f ∈ fs, ∀ b, nb f = some b → (h b).neighbors.isSome = true) →
    (patchFaces ι nb fs h).2 = false := by
  induction fs with
  | nil => intro h _; rfl
  | cons f fs ih =>
    intro h hlive
    cases hnb : nb f with
    | none =>
      rw [patchFaces_cons_none ι nb f fs h hnb]
      exact ih h (fun f' hf' => hlive f' (List.mem_cons_of_mem f hf'))
    | some b =>
      cases hb : (h b).neighbors with
      | none =>
        have := hlive f (List.mem_cons_self f fs) b hnb
        rw [hb] at this
        cases this
      | some m =>
        rw [patchFaces_cons_live ι nb f fs h b m hnb hb]
        apply ih
        intro f' hf' b' hnb'
        unfold hset
        split
        · rfl
        · exact hlive f' (List.mem_cons_of_mem f hf') b' hnb'

/-- `acquire` leaves the heap pointwise unchanged (the fresh branch
writes a fresh object over an id that, by well-formedness, already held
exactly that), and the acquired object is live with the manager's
size. -/
theorem acquire_pool_eq (s : MState) (id : Nat) (rest : List Nat)
    (hfp : s.freePool = id :: rest) :
    acquire s =
      (id, { s with freePool := rest, activePool := id :: s.activePool }) := by
  unfold acquire
  rw [hfp]

theorem acquire_fresh_eq (s : MState) (hfp : s.freePool = []) :
    acquire s = (s.nextId, { s with
      heap := hset s.heap s.nextId (fun _ => freshPChunk s.csize)
      nextId := s.nextId + 1
      activePool := s.nextId :: s.activePool }) := by
  unfold acquire
  rw [hfp]

theorem acquire_props (s : MState)
    (hpool : ∀ id ∈ s.freePool, (s.heap id).neighbors.isSome = true)
    (hsizes : ∀ id, (s.heap id).size = s.csize)
    (hphantom : ∀ id, s.nextId ≤ id → s.heap id = freshPChunk s.csize) :
    (∀ x, (acquire s).2.heap x = s.heap x) ∧
    ((acquire s).2.heap (acquire s).1).neighbors.isSome = true ∧
    ((acquire s).2.heap (acquire s).1).size = s.csize ∧
    (acquire s).2.chunks = s.chunks ∧
    (acquire s).2.csize = s.csize := by
  cases hfp : s.freePool with
  | nil =>
    rw [acquire_fresh_eq s hfp]
    refine ⟨?_, ?_, ?_, rfl, rfl⟩
    · intro x
      show hset s.heap s.nextId (fun _ => freshPChunk s.csize) x = s.heap x
      unfold hset
      split
      · next hx => rw [hx]; exact (hphantom s.nextId le_rfl).symm
      · rfl
    · show (hset s.heap s.nextId (fun _ => freshPChunk s.csize)
          s.nextId).neighbors.isSome = true
      unfold hset
      rw [if_pos rfl]
      rfl
    · show (hset s.heap s.nextId (fun _ => freshPChunk s.csize)
          s.nextId).size = s.csize
      unfold hset
      rw [if_pos rfl]
      rfl
  | cons id rest =>
    rw [acquire_pool_eq s id rest hfp]
    exact ⟨fun _ => rfl,
      hpool id (by rw [hfp]; exact List.mem_cons_self id rest),
      hsizes id, rfl, rfl⟩

theorem linkNeighbors_some_eq (s : MState) (ι : Nat) (c : Coord)
    (nb0 : Face → Option Nat) (hs : (s.heap ι).neighbors = some nb0) :
    linkNeighbors s ι c =
      ({ s with heap := (patchFaces ι
          (fun f => findCoord s.chunks (adjCoord c f)) linkFaceOrder
          (hset s.heap ι (fun ch => { ch with
            neighbors := some (fun f => findCoord s.chunks (adjCoord c f)) }))).1 },
       (patchFaces ι (fun f => findCoord s.chunks (adjCoord c f)) linkFaceOrder
          (hset s.heap ι (fun ch => { ch with
            neighbors := some (fun f => findCoord s.chunks (adjCoord c f)) }))).2) := by
  unfold linkNeighbors
  rw [hs]

/-- `linkNeighbors` does not throw and touches only neighbor tables,
provided the linked chunk and every present map target are live. -/
theorem linkNeighbors_ok (s : MState) (ι : Nat) (c : Coord)
    (hself : (s.heap ι).neighbors.isSome = true)
    (htarg : ∀ f b, findCoord s.chunks (adjCoord c f) = some b → b ≠ ι →
      (s.heap b).neighbors.isSome = true) :
    (linkNeighbors s ι c).2 = false ∧
    (∀ x, ((linkNeighbors s ι c).1.heap x).voxels = (s.heap x).voxels) ∧
    (∀ x, ((linkNeighbors s ι c).1.heap x).size = (s.heap x).size) ∧
    (linkNeighbors s ι c).1.chunks = s.chunks ∧
    (linkNeighbors s ι c).1.csize = s.csize ∧
    (linkNeighbors s ι c).1.queue = s.queue := by
  obtain ⟨nb0, hs⟩ := Option.isSome_iff_exists.mp hself
  rw [linkNeighbors_some_eq s ι c nb0 hs]
  have hlive : ∀ f ∈ linkFaceOrder, ∀ b,
      (fun f => findCoord s.chunks (adjCoord c f)) f = some b →
      ((hset s.heap ι (fun ch => { ch with
        neighbors := some (fun f => findCoord s.chunks (adjCoord c f)) }))
        b).neighbors.isSome = true := by
    intro f _ b hb
    unfold hset
    split
    · rfl
    · next hne => exact htarg f b hb hne
  refine ⟨patchFaces_no_throw _ _ _ _ hlive, ?_, ?_, rfl, rfl, rfl⟩
  · intro x
    obtain ⟨h1, -⟩ := patchFaces_preserve ι
      (fun f => findCoord s.chunks (adjCoord c f)) linkFaceOrder
      (hset s.heap ι (fun ch => { ch with
        neighbors := some (fun f => findCoord s.chunks (adjCoord c f)) })) x
    refine h1.trans ?_
    unfold hset
    split <;> rfl
  · intro x
    obtain ⟨-, h2⟩ := patchFaces_preserve ι
      (fun f => findCoord s.chunks (adjCoord c f)) linkFaceOrder
      (hset s.heap ι (fun ch => { ch with
        neighbors := some (fun f => findCoord s.chunks (adjCoord c f)) })) x
    refine h2.trans ?_
    unfold hset
    split <;> rfl

theorem registerChunk_eq (s : MState) (c : Coord) :
    registerChunk s c =
      ({ (acquire s).2 with
          heap := hset (acquire s).2.heap (acquire s).1
            (fun ch => { ch with cx := c.1, cy := c.2.1, cz := c.2.2 })
          chunks := (c, (acquire s).1) :: (acquire s).2.chunks },
        (acquire s).1) := rfl

/-- `registerChunk` on a well-formed state: no voxel array changes, the
new object is live and of the manager's size, the map gains exactly the
new binding. -/
theorem registerChunk_props (s : MState) (hwf : WFState s) (c : Coord) :
    (∀ x, ((registerChunk s c).1.heap x).voxels = (s.heap x).voxels) ∧
    ((registerChunk s c).1.heap (registerChunk s c).2).neighbors.isSome = true ∧
    ((registerChunk s c).1.heap (registerChunk s c).2).size = s.csize ∧
    (registerChunk s c).1.chunks = (c, (registerChunk s c).2) :: s.chunks ∧
    (registerChunk s c).1.csize = s.csize ∧
    (∀ x, x ≠ (registerChunk s c).2 →
      ((registerChunk s c).1.heap x).neighbors = (s.heap x).neighbors) := by
  obtain ⟨haeq, halive, hasize, hachunks, hacsize⟩ :=
    acquire_props s hwf.poolLive hwf.sizes hwf.phantom
  rw [registerChunk_eq]
  refine ⟨?_, ?_, ?_, ?_, hacsize, ?_⟩
  · intro x
    show (hset (acquire s).2.heap (acquire s).1 _ x).voxels = _
    rw [← haeq x]
    unfold hset
    split <;> rfl
  · show (hset (acquire s).2.heap (acquire s).1 _ (acquire s).1).neighbors.isSome = true
    unfold hset
    rw [if_pos rfl]
    exact halive
  · show (hset (acquire s).2.heap (acquire s).1 _ (acquire s).1).size = s.csize
    unfold hset
    rw [if_pos rfl]
    exact hasize
  · show (c, (acquire s).1) :: (acquire s).2.chunks = (c, (acquire s).1) :: s.chunks
    rw [hachunks]
  · intro x hx
    show (hset (acquire s).2.heap (acquire s).1 _ x).neighbors = _
    rw [← haeq x]
    unfold hset
    rw [if_neg hx]

theorem getChunkByIndex_hit (s : MState) (c : Coord) (id : Nat)
    (h : findCoord s.chunks c = some id) :
    getChunkByIndex s c = (s, id, false) := by
  unfold getChunkByIndex
  rw [h]

theorem getChunkByIndex_miss (s : MState) (c : Coord)
    (h : findCoord s.chunks c = none) :
    getChunkByIndex s c =
      (if (linkNeighbors (registerChunk s c).1 (registerChunk s c).2 c).2 then
        ((linkNeighbors (registerChunk s c).1 (registerChunk s c).2 c).1,
          (registerChunk s c).2, true)
      else
        ({ (linkNeighbors (registerChunk s c).1 (registerChunk s c).2 c).1 with
            queue := (linkNeighbors (registerChunk s c).1
              (registerChunk s c).2 c).1.queue ++ [(registerChunk s c).2] },
          (registerChunk s c).2, false)) := by
  unfold getChunkByIndex
  rw [h]

/-- Under well-formedness, `getChunkByIndex` never throws, changes no
voxel array, and hands back a chunk of the manager's size. -/
theorem getChunkByIndex_ok (s : MState) (hwf : WFState s) (c : Coord) :
    (getChunkByIndex s c).2.2 = false ∧
    (∀ x, ((getChunkByIndex s c).1.heap x).voxels = (s.heap x).voxels) ∧
    ((getChunkByIndex s c).1.heap (getChunkByIndex s c).2.1).size = s.csize ∧
    (getChunkByIndex s c).1.csize = s.csize := by
  cases hfind : findCoord s.chunks c with
  | some id =>
    rw [getChunkByIndex_hit s c id hfind]
    exact ⟨rfl, fun _ => rfl, hwf.sizes id, rfl⟩
  | none =>
    obtain ⟨hrvox, hrlive, hrsize, hrchunks, hrcsize, hrnbrs⟩ :=
      registerChunk_props s hwf c
    have htarg : ∀ f b, findCoord (registerChunk s c).1.chunks (adjCoord c f) =
        some b → b ≠ (registerChunk s c).2 →
        ((registerChunk s c).1.heap b).neighbors.isSome = true := by
      intro f b hb hbne
      rw [hrchunks] at hb
      have hb' : findCoord s.chunks (adjCoord c f) = some b := by
        unfold findCoord at hb
        rw [if_neg (fun h => adjCoord_ne c f h.symm)] at hb
        exact hb
      rw [hrnbrs b hbne]
      exact hwf.mapLive (adjCoord c f) b hb'
    obtain ⟨hlk2, hlkvox, hlksize, hlkchunks, hlkcsize, hlkqueue⟩ :=
      linkNeighbors_ok (registerChunk s c).1 (registerChunk s c).2 c hrlive htarg
    rw [getChunkByIndex_miss s c hfind, hlk2]
    simp only [Bool.false_eq_true, if_false]
    refine ⟨trivial, ?_, ?_, hlkcsize.trans hrcsize⟩
    · intro x
      exact (hlkvox x).trans (hrvox x)
    · exact (hlksize (registerChunk s c).2).trans hrsize

theorem setVoxel_out (c : Chunk) (x y z : Int) (t : Nat)
    (h : c.outOfRange x y z = true) : c.setVoxel x y z t = (c, false) := by
  unfold Chunk.setVoxel
  rw [if_pos h]

theorem getVoxelP_out (ch : PChunk) (x y z : Int)
    (h : x < 0 ∨ y < 0 ∨ z < 0) : ch.getVoxelP x y z = (0, false) := by
  obtain ⟨cx, cy, cz, sz, vx, nb, nu, ie, ml⟩ := ch
  cases vx with
  | none =>
    show (if (Chunk.mk sz [] nu ie).outOfRange x y z then ((0 : Nat), false)
      else ((0 : Nat), true)) = ((0 : Nat), false)
    rw [if_pos (outOfRange_of_neg _ x y z h)]
  | some v =>
    show (((Chunk.mk sz v nu ie).getVoxel x y z, false) : Nat × Bool) = (0, false)
    unfold Chunk.getVoxel
    rw [if_pos (outOfRange_of_neg _ x y z h)]

theorem setVoxelP_out (ch : PChunk) (x y z : Int) (t : Nat)
    (h : x < 0 ∨ y < 0 ∨ z < 0) :
    ch.setVoxelP x y z t = (ch, false, false) := by
  obtain ⟨cx, cy, cz, sz, vx, nb, nu, ie, ml⟩ := ch
  cases vx with
  | none =>
    show (if (Chunk.mk sz [] nu ie).outOfRange x y z then
        (PChunk.mk cx cy cz sz none nb nu ie ml, false, false)
      else (PChunk.mk cx cy cz sz none nb nu ie ml, false, true)) = _
    rw [if_pos (outOfRange_of_neg _ x y z h)]
  | some v =>
    show ({ PChunk.mk cx cy cz sz (some v) nb nu ie ml with
        voxels := some ((Chunk.mk sz v nu ie).setVoxel x y z t).1.voxels
        needsUpdate := ((Chunk.mk sz v nu ie).setVoxel x y z t).1.needsUpdate
        isEmpty := ((Chunk.mk sz v nu ie).setVoxel x y z t).1.isEmpty },
      ((Chunk.mk sz v nu ie).setVoxel x y z t).2, false) = _
    rw [setVoxel_out _ x y z t (outOfRange_of_neg _ x y z h)]

theorem wfInit : WFState initState :=
  ⟨fun p a h => Option.noConfusion h, fun id _ => rfl, fun id => rfl,
    fun id _ => rfl⟩

/-- Claim C10, amended: on a well-formed manager state, for every world
coordinate one of whose components is negative and not an exact multiple
of the chunk size (so its JS remainder is strictly negative, not `-0`),
`getBlockAt` returns air without throwing, `setBlockAt` returns `false`
without throwing, and neither call changes any chunk's voxel data —
even though the enclosing chunk exists or is created by the call. -/
theorem negative_world_accessors (s : MState) (hwf : WFState s)
    (wx wy wz : Int) (t : Nat)
    (h : (wx < 0 ∧ jsMod wx s.csize ≠ 0) ∨ (wy < 0 ∧ jsMod wy s.csize ≠ 0) ∨
      (wz < 0 ∧ jsMod wz s.csize ≠ 0)) :
    (getBlockAt s wx wy wz).2 = (0, false) ∧
    (∀ x, ((getBlockAt s wx wy wz).1.heap x).voxels = (s.heap x).voxels) ∧
    (setBlockAt s wx wy wz t).2 = (false, false) ∧
    (∀ x, ((setBlockAt s wx wy wz t).1.heap x).voxels = (s.heap x).voxels) := by
  obtain ⟨hg2, hgvox, hgsize, hgcsize⟩ := getChunkByIndex_ok s hwf
    (Int.fdiv wx s.csize, Int.fdiv wy s.csize, Int.fdiv wz s.csize)
  have hneg : jsMod wx (((getChunkByIndex s (Int.fdiv wx s.csize,
        Int.fdiv wy s.csize, Int.fdiv wz s.csize)).1.heap
        (getChunkByIndex s (Int.fdiv wx s.csize, Int.fdiv wy s.csize,
          Int.fdiv wz s.csize)).2.1).size) < 0 ∨
      jsMod wy (((getChunkByIndex s (Int.fdiv wx s.csize,
        Int.fdiv wy s.csize, Int.fdiv wz s.csize)).1.heap
        (getChunkByIndex s (Int.fdiv wx s.csize, Int.fdiv wy s.csize,
          Int.fdiv wz s.csize)).2.1).size) < 0 ∨
      jsMod wz (((getChunkByIndex s (Int.fdiv wx s.csize,
        Int.fdiv wy s.csize, Int.fdiv wz s.csize)).1.heap
        (getChunkByIndex s (Int.fdiv wx s.csize, Int.fdiv wy s.csize,
          Int.fdiv wz s.csize)).2.1).size) < 0 := by
    rw [hgsize]
    rcases h with ⟨h1, h2⟩ | ⟨h1, h2⟩ | ⟨h1, h2⟩
    · exact Or.inl (lt_of_le_of_ne (tmod_nonpos_of_neg wx s.csize h1) h2)
    · exact Or.inr (Or.inl
        (lt_of_le_of_ne (tmod_nonpos_of_neg wy s.csize h1) h2))
    · exact Or.inr (Or.inr
        (lt_of_le_of_ne (tmod_nonpos_of_neg wz s.csize h1) h2))
  have hread := getVoxelP_out ((getChunkByIndex s (Int.fdiv wx s.csize,
      Int.fdiv wy s.csize, Int.fdiv wz s.csize)).1.heap
      (getChunkByIndex s (Int.fdiv wx s.csize, Int.fdiv wy s.csize,
        Int.fdiv wz s.csize)).2.1) _ _ _ hneg
  have hwrite := setVoxelP_out ((getChunkByIndex s (Int.fdiv wx s.csize,
      Int.fdiv wy s.csize, Int.fdiv wz s.csize)).1.heap
      (getChunkByIndex s (Int.fdiv wx s.csize, Int.fdiv wy s.csize,
        Int.fdiv wz s.csize)).2.1) _ _ _ t hneg
  have hget : getBlockAt s wx wy wz =
      ((getChunkByIndex s (Int.fdiv wx s.csize, Int.fdiv wy s.csize,
        Int.fdiv wz s.csize)).1, 0, false) := by
    simp only [getBlockAt, hg2, Bool.false_eq_true, if_false, hread]
  have hsetb : setBlockAt s wx wy wz t =
      ({ (getChunkByIndex s (Int.fdiv wx s.csize, Int.fdiv wy s.csize,
          Int.fdiv wz s.csize)).1 with
        heap := hset (getChunkByIndex s (Int.fdiv wx s.csize,
            Int.fdiv wy s.csize, Int.fdiv wz s.csize)).1.heap
          (getChunkByIndex s (Int.fdiv wx s.csize, Int.fdiv wy s.csize,
            Int.fdiv wz s.csize)).2.1
          (fun _ => (getChunkByIndex s (Int.fdiv wx s.csize,
            Int.fdiv wy s.csize, Int.fdiv wz s.csize)).1.heap
            (getChunkByIndex s (Int.fdiv wx s.csize, Int.fdiv wy s.csize,
              Int.fdiv wz s.csize)).2.1) }, false, false) := by
    simp only [setBlockAt, hg2, Bool.false_eq_true, if_false, hwrite]
  refine ⟨?_, ?_, ?_, ?_⟩
  · rw [hget]
  · intro x
    rw [hget]
    exact hgvox x
  · rw [hsetb]
  · intro x
    rw [hsetb]
    show ((hset (getChunkByIndex s (Int.fdiv wx s.csize, Int.fdiv wy s.csize,
        Int.fdiv wz s.csize)).1.heap
      (getChunkByIndex s (Int.fdiv wx s.csize, Int.fdiv wy s.csize,
        Int.fdiv wz s.csize)).2.1
      (fun _ => (getChunkByIndex s (Int.fdiv wx s.csize, Int.fdiv wy s.csize,
        Int.fdiv wz s.csize)).1.heap
        (getChunkByIndex s (Int.fdiv wx s.csize, Int.fdiv wy s.csize,
          Int.fdiv wz s.csize)).2.1)) x).voxels = (s.heap x).voxels
    unfold hset
    split
    · next hx =>
      rw [hx]
      exact hgvox _
    · exact hgvox x

theorem negative_world_accessors_witness :
    ((-17 : Int) < 0 ∧ jsMod (-17) initState.csize ≠ 0) ∧
    (getBlockAt initState (-17) 0 0).2 = (0, false) ∧
    (setBlockAt initState (-17) 0 0 5).2 = (false, false) ∧
    ((setBlockAt initState (-17) 0 0 5).1.heap 19).voxels =
      (initState.heap 19).voxels :=
  ⟨⟨by decide, by decide⟩,
    (negative_world_accessors initState wfInit (-17) 0 0 5
      (Or.inl ⟨by decide, by decide⟩)).1,
    (negative_world_accessors initState wfInit (-17) 0 0 5
      (Or.inl ⟨by decide, by decide⟩)).2.2.1,
    (negative_world_accessors initState wfInit (-17) 0 0 5
      (Or.inl ⟨by decide, by decide⟩)).2.2.2 19⟩

/- ### Claim C6: neighbor-reference symmetry across manager operations -/

theorem opp_opp (f : Face) : oppFace (oppFace f) = f := by
  cases f <;> rfl

theorem adj_opp (c : Coord) (f : Face) :
    adjCoord (adjCoord c f) (oppFace f) = c := by
  obtain ⟨x, y, z⟩ := c
  cases f <;> simp only [adjCoord, oppFace, Face.offset, Prod.mk.injEq] <;>
    omega

theorem adjCoord_inj_face (c : Coord) (f₁ f₂ : Face)
    (h : adjCoord c f₁ = adjCoord c f₂) : f₁ = f₂ := by
  obtain ⟨x, y, z⟩ := c
  cases f₁ <;> cases f₂ <;>
    first
    | rfl
    | (exfalso
       simp only [adjCoord, Face.offset, Prod.mk.injEq] at h
       omega)

theorem findCoord_cons_eq (e : Coord × Nat) (l : List (Coord × Nat))
    (d : Coord) (h : e.1 = d) : findCoord (e :: l) d = some e.2 := by
  conv_lhs => unfold findCoord
  rw [if_pos h]

theorem findCoord_cons_ne (e : Coord × Nat) (l : List (Coord × Nat))
    (d : Coord) (h : ¬ (e.1 = d)) : findCoord (e :: l) d = findCoord l d := by
  conv_lhs => unfold findCoord
  rw [if_neg h]

theorem findCoord_mem (l : List (Coord × Nat)) (c : Coord) (a : Nat)
    (h : findCoord l c = some a) : (c, a) ∈ l := by
  induction l with
  | nil => exact Option.noConfusion h
  | cons e rest ih =>
    unfold findCoord at h
    split at h
    · next he =>
      rw [Option.some.injEq] at h
      subst h
      rw [← he]
      exact List.mem_cons_self e rest
    · next => exact List.mem_cons_of_mem e (ih h)

theorem findCoord_none_not_mem (l : List (Coord × Nat)) (c : Coord)
    (h : findCoord l c = none) : ∀ a, (c, a) ∉ l := by
  induction l with
  | nil => intro a hm; exact absurd hm (List.not_mem_nil _)
  | cons e rest ih =>
    unfold findCoord at h
    split at h
    · exact Option.noConfusion h
    · next hne =>
      intro a hm
      rcases List.mem_cons.mp hm with he | hm2
      · exact hne (by rw [← he])
      · exact ih h a hm2

theorem findCoord_erase_self (l : List (Coord × Nat)) (c : Coord) :
    findCoord (eraseCoord l c) c = none := by
  induction l with
  | nil => rfl
  | cons e rest ih =>
    rw [eraseCoord, List.filter_cons]
    by_cases he : e.1 = c
    · rw [if_neg (by simp [he])]
      exact ih
    · rw [if_pos (by simp [he])]
      rw [findCoord_cons_ne e _ c he]
      exact ih

theorem findCoord_erase_ne (l : List (Coord × Nat)) (c d : Coord)
    (hne : d ≠ c) : findCoord (eraseCoord l c) d = findCoord l d := by
  induction l with
  | nil => rfl
  | cons e rest ih =>
    rw [eraseCoord, List.filter_cons]
    by_cases he : e.1 = c
    · rw [if_neg (by simp [he])]
      rw [show List.filter (fun e => decide (e.1 ≠ c)) rest =
        eraseCoord rest c from rfl]
      rw [ih, findCoord_cons_ne e rest d (fun h => hne (h ▸ he))]
    · rw [if_pos (by simp [he])]
      by_cases hd : e.1 = d
      · rw [findCoord_cons_eq e _ d hd, findCoord_cons_eq e rest d hd]
      · rw [findCoord_cons_ne e _ d hd, findCoord_cons_ne e rest d hd]
        exact ih

theorem mem_snd_inj (l : List (Coord × Nat))
    (hids : (l.map Prod.snd).Nodup) (p q : Coord) (a : Nat)
    (hp : (p, a) ∈ l) (hq : (q, a) ∈ l) : p = q := by
  induction l with
  | nil => exact absurd hp (List.not_mem_nil _)
  | cons e rest ih =>
    rw [List.map_cons, List.nodup_cons] at hids
    rcases List.mem_cons.mp hp with hpe | hp2
    · rcases List.mem_cons.mp hq with hqe | hq2
      · rw [← hqe] at hpe
        exact congrArg Prod.fst hpe
      · exfalso
        apply hids.1
        rw [← hpe]
        exact List.mem_map.mpr ⟨(q, a), hq2, rfl⟩
    · rcases List.mem_cons.mp hq with hqe | hq2
      · exfalso
        apply hids.1
        rw [← hqe]
        exact List.mem_map.mpr ⟨(p, a), hp2, rfl⟩
      · exact ih hids.2 hp2 hq2

theorem patchFaces_live_mono (ι : Nat) (nb : Face → Option Nat)
    (fs : List Face) : ∀ (h : Nat → PChunk) (x : Nat),
    (∀ f ∈ fs, ∀ b, nb f = some b → (h b).neighbors.isSome = true) →
    (h x).neighbors.isSome = true →
    ((patchFaces ι nb fs h).1 x).neighbors.isSome = true := by
  induction fs with
  | nil => intro h x _ hx; exact hx
  | cons f fs ih =>
    intro h x hlive hx
    cases hnb : nb f with
    | none =>
      rw [patchFaces_cons_none ι nb f fs h hnb]
      exact ih h x (fun f2 hf2 => hlive f2 (List.mem_cons_of_mem f hf2)) hx
    | some b =>
      obtain ⟨m, hb⟩ := Option.isSome_iff_exists.mp
        (hlive f (List.mem_cons_self f fs) b hnb)
      rw [patchFaces_cons_live ι nb f fs h b m hnb hb]
      refine ih _ x ?_ ?_
      · intro f2 hf2 b2 hb2
        unfold hset
        split
        · rfl
        · exact hlive f2 (List.mem_cons_of_mem f hf2) b2 hb2
      · unfold hset
        split
        · rfl
        · exact hx

theorem patchFaces_nb_at (ι : Nat) (nb : Face → Option Nat)
    (fs : List Face) : ∀ (h : Nat → PChunk) (x : Nat) (g : Face),
    (∀ f ∈ fs, ∀ b, nb f = some b → (h b).neighbors.isSome = true) →
    (∀ f ∈ fs, nb f = some x → oppFace f ≠ g) →
    ((patchFaces ι nb fs h).1 x).neighbors.map (fun m => m g) =
      ((h x).neighbors).map (fun m => m g) := by
  induction fs with
  | nil => intro h x g _ _; rfl
  | cons f fs ih =>
    intro h x g hlive hg
    cases hnb : nb f with
    | none =>
      rw [patchFaces_cons_none ι nb f fs h hnb]
      exact ih h x g (fun f2 hf2 => hlive f2 (List.mem_cons_of_mem f hf2))
        (fun f2 hf2 => hg f2 (List.mem_cons_of_mem f hf2))
    | some b =>
      obtain ⟨m, hb⟩ := Option.isSome_iff_exists.mp
        (hlive f (List.mem_cons_self f fs) b hnb)
      rw [patchFaces_cons_live ι nb f fs h b m hnb hb]
      have hlive2 : ∀ f2 ∈ fs, ∀ b2, nb f2 = some b2 →
          ((hset h b (fun ch =>
            { ch with neighbors := some (fun f2 =>
                if f2 = oppFace f then some ι else m f2) })) b2).neighbors.isSome
            = true := by
        intro f2 hf2 b2 hb2
        unfold hset
        split
        · rfl
        · exact hlive f2 (List.mem_cons_of_mem f hf2) b2 hb2
      rw [ih _ x g hlive2 (fun f2 hf2 => hg f2 (List.mem_cons_of_mem f hf2))]
      show ((hset h b (fun ch =>
          { ch with neighbors := some (fun f2 =>
              if f2 = oppFace f then some ι else m f2) }) x).neighbors).map
          (fun m => m g) = ((h x).neighbors).map (fun m => m g)
      unfold hset
      split
      · next hx =>
        show some (if g = oppFace f then some ι else m g) =
          ((h x).neighbors).map (fun m => m g)
        rw [if_neg (Ne.symm (hg f (List.mem_cons_self f fs)
          (by rw [hnb, hx])))]
        rw [hx, hb]
        rfl
      · rfl

theorem patchFaces_nb_target (ι : Nat) (nb : Face → Option Nat)
    (fs : List Face) : ∀ (h : Nat → PChunk) (x : Nat) (f₀ : Face),
    (∀ f ∈ fs, ∀ b, nb f = some b → (h b).neighbors.isSome = true) →
    fs.Nodup → f₀ ∈ fs → nb f₀ = some x →
    (∀ f ∈ fs, nb f = some x → f = f₀) →
    ((patchFaces ι nb fs h).1 x).neighbors.map (fun m => m (oppFace f₀)) =
      some (some ι) := by
  induction fs with
  | nil => intro h x f₀ _ _ hf₀ _ _; exact absurd hf₀ (List.not_mem_nil f₀)
  | cons f fs ih =>
    intro h x f₀ hlive hnodup hf₀ hx huniq
    rw [List.nodup_cons] at hnodup
    by_cases hff : f = f₀
    · subst hff
      obtain ⟨m, hb⟩ := Option.isSome_iff_exists.mp
        (hlive f (List.mem_cons_self f fs) x hx)
      rw [patchFaces_cons_live ι nb f fs h x m hx hb]
      have hlive2 : ∀ f2 ∈ fs, ∀ b2, nb f2 = some b2 →
          ((hset h x (fun ch =>
            { ch with neighbors := some (fun f2 =>
                if f2 = oppFace f then some ι else m f2) })) b2).neighbors.isSome
            = true := by
        intro f2 hf2 b2 hb2
        unfold hset
        split
        · rfl
        · exact hlive f2 (List.mem_cons_of_mem f hf2) b2 hb2
      have hg : ∀ f2 ∈ fs, nb f2 = some x → oppFace f2 ≠ oppFace f := by
        intro f2 hf2 hnb2
        exact absurd (huniq f2 (List.mem_cons_of_mem f hf2) hnb2)
          (fun he => hnodup.1 (he ▸ hf2))
      rw [patchFaces_nb_at ι nb fs _ x (oppFace f) hlive2 hg]
      show ((hset h x (fun ch =>
          { ch with neighbors := some (fun f2 =>
              if f2 = oppFace f then some ι else m f2) }) x).neighbors).map
          (fun m => m (oppFace f)) = some (some ι)
      unfold hset
      rw [if_pos rfl]
      show some (if oppFace f = oppFace f then some ι else m (oppFace f)) =
        some (some ι)
      rw [if_pos rfl]
    · have hf₀2 : f₀ ∈ fs := by
        rcases List.mem_cons.mp hf₀ with he | hm
        · exact absurd he.symm hff
        · exact hm
      cases hnb : nb f with
      | none =>
        rw [patchFaces_cons_none ι nb f fs h hnb]
        exact ih h x f₀ (fun f2 hf2 => hlive f2 (List.mem_cons_of_mem f hf2))
          hnodup.2 hf₀2 hx (fun f2 hf2 => huniq f2 (List.mem_cons_of_mem f hf2))
      | some b =>
        obtain ⟨m, hb⟩ := Option.isSome_iff_exists.mp
          (hlive f (List.mem_cons_self f fs) b hnb)
        rw [patchFaces_cons_live ι nb f fs h b m hnb hb]
        refine ih _ x f₀ ?_ hnodup.2 hf₀2 hx
          (fun f2 hf2 => huniq f2 (List.mem_cons_of_mem f hf2))
        intro f2 hf2 b2 hb2
        unfold hset
        split
        · rfl
        · exact hlive f2 (List.mem_cons_of_mem f hf2) b2 hb2

theorem registerChunk_facts (s : MState) (c : Coord)
    (hidsPool : ∀ p a, (p, a) ∈ s.chunks → a ∉ s.freePool)
    (hidsLt : ∀ p a, (p, a) ∈ s.chunks → a < s.nextId)
    (hpoolNodup : s.freePool.Nodup)
    (hpoolLt : ∀ id ∈ s.freePool, id < s.nextId)
    (hpoolLive : ∀ id ∈ s.freePool, (s.heap id).neighbors.isSome = true) :
    (registerChunk s c).1.chunks = (c, (registerChunk s c).2) :: s.chunks ∧
    (∀ x, x ≠ (registerChunk s c).2 →
      (registerChunk s c).1.heap x = s.heap x) ∧
    ((registerChunk s c).1.heap (registerChunk s c).2).neighbors.isSome
      = true ∧
    (∀ p a, (p, a) ∈ s.chunks → a ≠ (registerChunk s c).2) ∧
    (registerChunk s c).2 ∉ (registerChunk s c).1.freePool ∧
    (∀ p a, (p, a) ∈ s.chunks → a ∉ (registerChunk s c).1.freePool) ∧
    (registerChunk s c).1.freePool.Nodup ∧
    (∀ id ∈ (registerChunk s c).1.freePool,
      id < (registerChunk s c).1.nextId) ∧
    (∀ id ∈ (registerChunk s c).1.freePool,
      ((registerChunk s c).1.heap id).neighbors.isSome = true) ∧
    s.nextId ≤ (registerChunk s c).1.nextId ∧
    (registerChunk s c).2 < (registerChunk s c).1.nextId := by
  rw [registerChunk_eq]
  cases hfp : s.freePool with
  | cons ι rest =>
    rw [acquire_pool_eq s ι rest hfp]
    rw [hfp, List.nodup_cons] at hpoolNodup
    have hmem : ι ∈ s.freePool := by rw [hfp]; exact List.mem_cons_self ι rest
    refine ⟨rfl, ?_, ?_, ?_, ?_, ?_, hpoolNodup.2, ?_, ?_, le_rfl, hpoolLt ι hmem⟩
    · intro x hx
      show hset s.heap ι (fun ch =>
        { ch with cx := c.1, cy := c.2.1, cz := c.2.2 }) x = s.heap x
      unfold hset
      rw [if_neg hx]
    · show (hset s.heap ι (fun ch =>
        { ch with cx := c.1, cy := c.2.1, cz := c.2.2 }) ι).neighbors.isSome
        = true
      unfold hset
      rw [if_pos rfl]
      exact hpoolLive ι hmem
    · intro p a hm he
      exact hidsPool p a hm (he ▸ hmem)
    · intro hι
      exact hpoolNodup.1 hι
    · intro p a hm hι
      exact hidsPool p a hm (by rw [hfp]; exact List.mem_cons_of_mem ι hι)
    · intro id hid
      exact hpoolLt id (by rw [hfp]; exact List.mem_cons_of_mem ι hid)
    · intro id hid
      have hne : id ≠ ι := fun he => hpoolNodup.1 (he ▸ hid)
      show (hset s.heap ι (fun ch =>
        { ch with cx := c.1, cy := c.2.1, cz := c.2.2 }) id).neighbors.isSome
        = true
      unfold hset
      rw [if_neg hne]
      exact hpoolLive id (by rw [hfp]; exact List.mem_cons_of_mem ι hid)
  | nil =>
    rw [acquire_fresh_eq s hfp]
    refine ⟨rfl, ?_, ?_, ?_, ?_, ?_, ?_, ?_, ?_, Nat.le_succ s.nextId,
      Nat.lt_succ_self s.nextId⟩
    · intro x hx
      show hset (hset s.heap s.nextId (fun _ => freshPChunk s.csize))
        s.nextId (fun ch =>
          { ch with cx := c.1, cy := c.2.1, cz := c.2.2 }) x = s.heap x
      unfold hset
      rw [if_neg hx, if_neg hx]
    · show (hset (hset s.heap s.nextId (fun _ => freshPChunk s.csize))
        s.nextId (fun ch =>
          { ch with cx := c.1, cy := c.2.1, cz := c.2.2 })
        s.nextId).neighbors.isSome = true
      unfold hset
      rw [if_pos rfl, if_pos rfl]
      rfl
    · intro p a hm he
      exact absurd (hidsLt p a hm) (by rw [he]; exact Nat.lt_irrefl s.nextId)
    · intro hι
      exact absurd (hpoolLt s.nextId hι) (Nat.lt_irrefl s.nextId)
    · intro p a hm
      exact hidsPool p a hm
    · exact hpoolNodup
    · intro id hid
      exact Nat.lt_succ_of_lt (hpoolLt id hid)
    · intro id hid
      have hne : id ≠ s.nextId :=
        fun he => absurd (hpoolLt id hid) (by rw [he]; exact Nat.lt_irrefl _)
      show (hset (hset s.heap s.nextId (fun _ => freshPChunk s.csize))
        s.nextId (fun ch =>
          { ch with cx := c.1, cy := c.2.1, cz := c.2.2 })
        id).neighbors.isSome = true
      unfold hset
      rw [if_neg hne, if_neg hne]
      exact hpoolLive id hid

theorem setVoxelP_neighbors (ch : PChunk) (x y z : Int) (t : Nat) :
    ((ch.setVoxelP x y z t).1).neighbors = ch.neighbors := by
  obtain ⟨cx, cy, cz, sz, vx, nb, nu, ie, ml⟩ := ch
  cases vx with
  | none =>
    show (if (Chunk.mk sz [] nu ie).outOfRange x y z then
        (PChunk.mk cx cy cz sz none nb nu ie ml, false, false)
      else (PChunk.mk cx cy cz sz none nb nu ie ml, false,
        true)).1.neighbors = nb
    split <;> rfl
  | some v => rfl

theorem applyHook_neighbors (ws : List (Int × Int × Int × Nat)) :
    ∀ ch : PChunk, ((applyHook ch ws).1).neighbors = ch.neighbors := by
  induction ws with
  | nil => intro ch; rfl
  | cons w ws ih =>
    intro ch
    show (if (ch.setVoxelP w.1 w.2.1 w.2.2.1 w.2.2.2).2.2 = true then
        ((ch.setVoxelP w.1 w.2.1 w.2.2.1 w.2.2.2).1, true)
      else applyHook (ch.setVoxelP w.1 w.2.1 w.2.2.1 w.2.2.2).1
        ws).1.neighbors = ch.neighbors
    split
    · exact setVoxelP_neighbors ch w.1 w.2.1 w.2.2.1 w.2.2.2
    · exact (ih _).trans (setVoxelP_neighbors ch w.1 w.2.1 w.2.2.1 w.2.2.2)

theorem generateMeshP_neighbors (ch : PChunk) :
    ((ch.generateMeshP).1).neighbors = ch.neighbors := by
  unfold PChunk.generateMeshP
  split
  · split <;> rfl
  · split
    · rfl
    · next vx heq =>
      show (if 0 < (GreedyMesher.mesh vx
            (ch.size, ch.size, ch.size)).vertices.length then
          ({ ch with meshLive := true, needsUpdate := false }, true, false)
        else (ch, false, false)).1.neighbors = ch.neighbors
      split <;> rfl

theorem updateChunkMeshP_heap_neighbors (s : MState) (id x : Nat) :
    ((updateChunkMeshP s id).1.heap x).neighbors = (s.heap x).neighbors := by
  show (hset s.heap id (fun _ => ((s.heap id).generateMeshP).1) x).neighbors
    = (s.heap x).neighbors
  unfold hset
  split
  · next hx =>
    rw [hx]
    exact generateMeshP_neighbors (s.heap id)
  · rfl

theorem unloadChunk_none_eq (s : MState) (c : Coord)
    (hfind : findCoord s.chunks c = none) : unloadChunk s c = (s, false) := by
  unfold unloadChunk
  rw [hfind]

theorem unloadChunk_some_eq (s : MState) (c : Coord) (u : Nat)
    (hfind : findCoord s.chunks c = some u) :
    (unloadChunk s c).1 = { s with
      heap := hset s.heap u (fun ch =>
        { ch with meshLive := false, voxels := none, neighbors := none })
      chunks := eraseCoord s.chunks c } := by
  unfold unloadChunk
  rw [hfind]
  split
  · next heq => exact Option.noConfusion heq
  · next a heq =>
    rw [Option.some.injEq] at heq
    subst heq
    show (if u ∈ s.activePool then
        ({ s with
          heap := hset s.heap u (fun ch =>
            { ch with meshLive := false, voxels := none, neighbors := none })
          chunks := eraseCoord s.chunks c }, true)
      else
        ({ s with
          heap := hset s.heap u (fun ch =>
            { ch with meshLive := false, voxels := none, neighbors := none })
          chunks := eraseCoord s.chunks c }, false)).1 =
      { s with
        heap := hset s.heap u (fun ch =>
          { ch with meshLive := false, voxels := none, neighbors := none })
        chunks := eraseCoord s.chunks c }
    split <;> rfl

/-- The manager invariant maintained by `getChunkByIndex`,
`processGenerationQueue`, `updateChunkMesh` and `unloadChunk`: unique map
keys and values, pooled and mapped objects live and disjoint, ids below
the allocation counter, and every mapped chunk's neighbor reference
along each face pointing exactly at the current map holder of the
face-adjacent coordinate. -/
structure Inv (s : MState) : Prop where
  keys : (s.chunks.map Prod.fst).Nodup
  ids : (s.chunks.map Prod.snd).Nodup
  idsLt : ∀ p a, (p, a) ∈ s.chunks → a < s.nextId
  idsPool : ∀ p a, (p, a) ∈ s.chunks → a ∉ s.freePool
  poolNodup : s.freePool.Nodup
  poolLt : ∀ id ∈ s.freePool, id < s.nextId
  poolLive : ∀ id ∈ s.freePool, (s.heap id).neighbors.isSome = true
  live : ∀ p a, findCoord s.chunks p = some a →
    (s.heap a).neighbors.isSome = true
  sym : ∀ c a f b, findCoord s.chunks c = some a →
    findCoord s.chunks (adjCoord c f) = some b →
    (s.heap a).neighbors.map (fun nbt => nbt f) = some (some b)

/-- One ChunkManager operation, as invoked from `update` and the world
accessors: chunk lookup/creation, queue servicing (with an arbitrary
generation hook), remeshing, and unloading. -/
inductive Step : MState → MState → Prop where
  | create (s : MState) (c : Coord) : Step s (getChunkByIndex s c).1
  | gen (s : MState) (hook : Option (List (Int × Int × Int × Nat))) :
      Step s (processGen s hook).1
  | remesh (s : MState) (id : Nat) : Step s (updateChunkMeshP s id).1
  | unload (s : MState) (c : Coord) : Step s (unloadChunk s c).1

/-- States reachable from the freshly constructed manager. -/
inductive Reachable : MState → Prop where
  | init : Reachable initState
  | step (s s' : MState) : Reachable s → Step s s' → Reachable s'

theorem inv_heap_mod (s s' : MState) (hs : Inv s)
    (hheap : ∀ x, (s'.heap x).neighbors = (s.heap x).neighbors)
    (hch : s'.chunks = s.chunks) (hfp : s'.freePool = s.freePool)
    (hn : s'.nextId = s.nextId) : Inv s' := by
  refine ⟨?_, ?_, ?_, ?_, ?_, ?_, ?_, ?_, ?_⟩
  · rw [hch]; exact hs.keys
  · rw [hch]; exact hs.ids
  · intro p a hm; rw [hn]; exact hs.idsLt p a (hch ▸ hm)
  · intro p a hm; rw [hfp]; exact hs.idsPool p a (hch ▸ hm)
  · rw [hfp]; exact hs.poolNodup
  · intro id hid; rw [hn]; exact hs.poolLt id (hfp ▸ hid)
  · intro id hid; rw [hheap id]; exact hs.poolLive id (hfp ▸ hid)
  · intro p a hm; rw [hheap a]; exact hs.live p a (hch ▸ hm)
  · intro c a f b h1 h2
    rw [hheap a]
    exact hs.sym c a f b (hch ▸ h1) (hch ▸ h2)

theorem processGen_shape (s : MState)
    (hook : Option (List (Int × Int × Int × Nat))) :
    (∀ x, ((processGen s hook).1.heap x).neighbors = (s.heap x).neighbors) ∧
    (processGen s hook).1.chunks = s.chunks ∧
    (processGen s hook).1.freePool = s.freePool ∧
    (processGen s hook).1.nextId = s.nextId := by
  unfold processGen
  split
  · exact ⟨fun x => rfl, rfl, rfl, rfl⟩
  · split
    · exact ⟨fun x => rfl, rfl, rfl, rfl⟩
    · next qid qrest hq =>
      cases hook with
      | none =>
        simp only []
        refine ⟨fun x => ?_, ?_, ?_, ?_⟩ <;>
          (split <;>
            first
            | rfl
            | (split <;>
                 first
                 | rfl
                 | exact updateChunkMeshP_heap_neighbors
                     { s with queue := qrest, isGenerating := true } qid x))
      | some ws =>
        simp only []
        have hS2 : ∀ y,
            ((hset s.heap qid (fun _ => (applyHook (s.heap qid) ws).1))
              y).neighbors = (s.heap y).neighbors := by
          intro y
          unfold hset
          split
          · next hy =>
            rw [hy]
            exact applyHook_neighbors ws (s.heap qid)
          · rfl
        refine ⟨fun x => ?_, ?_, ?_, ?_⟩ <;>
          (split <;>
            first
            | rfl
            | exact hS2 x
            | (split <;>
                 first
                 | rfl
                 | exact hS2 x
                 | exact (updateChunkMeshP_heap_neighbors
                     { s with
                       heap := hset s.heap qid
                         (fun _ => (applyHook (s.heap qid) ws).1)
                       queue := qrest
                       isGenerating := true } qid x).trans (hS2 x)))

theorem inv_gen (s : MState) (hs : Inv s)
    (hook : Option (List (Int × Int × Int × Nat))) :
    Inv (processGen s hook).1 := by
  obtain ⟨h1, h2, h3, h4⟩ := processGen_shape s hook
  exact inv_heap_mod s _ hs h1 h2 h3 h4

theorem inv_remesh (s : MState) (hs : Inv s) (id : Nat) :
    Inv (updateChunkMeshP s id).1 :=
  inv_heap_mod s _ hs (fun x => updateChunkMeshP_heap_neighbors s id x)
    rfl rfl rfl

theorem inv_unload (s : MState) (hs : Inv s) (c : Coord) :
    Inv (unloadChunk s c).1 := by
  cases hfind : findCoord s.chunks c with
  | none =>
    rw [unloadChunk_none_eq s c hfind]
    exact hs
  | some u =>
    rw [unloadChunk_some_eq s c u hfind]
    have hu : (c, u) ∈ s.chunks := findCoord_mem _ _ _ hfind
    have hsub : List.Sublist (eraseCoord s.chunks c) s.chunks :=
      List.filter_sublist _
    have hne_heap : ∀ x, x ≠ u →
        (hset s.heap u (fun ch =>
          { ch with meshLive := false, voxels := none, neighbors := none }) x)
          = s.heap x := by
      intro x hx
      unfold hset
      rw [if_neg hx]
    refine ⟨?_, ?_, ?_, ?_, hs.poolNodup, hs.poolLt, ?_, ?_, ?_⟩
    · exact hs.keys.sublist (hsub.map Prod.fst)
    · exact hs.ids.sublist (hsub.map Prod.snd)
    · intro p a hm
      exact hs.idsLt p a (hsub.subset hm)
    · intro p a hm
      exact hs.idsPool p a (hsub.subset hm)
    · intro id hid
      have hne : id ≠ u := fun he => hs.idsPool c u hu (he ▸ hid)
      show ((hset s.heap u (fun ch =>
        { ch with meshLive := false, voxels := none, neighbors := none })
        id).neighbors.isSome = true)
      rw [hne_heap id hne]
      exact hs.poolLive id hid
    · intro p a hfind2
      replace hfind2 : findCoord (eraseCoord s.chunks c) p = some a := hfind2
      by_cases hp : p = c
      · rw [hp, findCoord_erase_self] at hfind2
        exact Option.noConfusion hfind2
      · rw [findCoord_erase_ne s.chunks c p hp] at hfind2
        have ha : a ≠ u := by
          intro he
          exact hp (mem_snd_inj s.chunks hs.ids p c u
            (he ▸ findCoord_mem _ _ _ hfind2) hu)
        show ((hset s.heap u (fun ch =>
          { ch with meshLive := false, voxels := none, neighbors := none })
          a).neighbors.isSome = true)
        rw [hne_heap a ha]
        exact hs.live p a hfind2
    · intro d a f b h1 h2
      replace h1 : findCoord (eraseCoord s.chunks c) d = some a := h1
      replace h2 : findCoord (eraseCoord s.chunks c) (adjCoord d f) = some b :=
        h2
      by_cases hd : d = c
      · rw [hd, findCoord_erase_self] at h1
        exact Option.noConfusion h1
      · rw [findCoord_erase_ne s.chunks c d hd] at h1
        by_cases hdf : adjCoord d f = c
        · rw [hdf, findCoord_erase_self] at h2
          exact Option.noConfusion h2
        · rw [findCoord_erase_ne s.chunks c _ hdf] at h2
          have ha : a ≠ u := by
            intro he
            exact hd (mem_snd_inj s.chunks hs.ids d c u
              (he ▸ findCoord_mem _ _ _ h1) hu)
          show ((hset s.heap u (fun ch =>
            { ch with meshLive := false, voxels := none, neighbors := none })
            a).neighbors.map (fun nbt => nbt f) = some (some b))
          rw [hne_heap a ha]
          exact hs.sym d a f b h1 h2

theorem inv_init : Inv initState :=
  ⟨List.nodup_nil, List.nodup_nil,
    fun p a hm => absurd hm (List.not_mem_nil _),
    fun p a hm => absurd hm (List.not_mem_nil _),
    by decide, by decide, fun id _ => rfl,
    fun p a h => Option.noConfusion h,
    fun c a f b h _ => Option.noConfusion h⟩

theorem inv_create (s : MState) (hs : Inv s) (c : Coord) :
    Inv (getChunkByIndex s c).1 := by
  cases hfind : findCoord s.chunks c with
  | some id =>
    rw [getChunkByIndex_hit s c id hfind]
    exact hs
  | none =>
    obtain ⟨hch, hpre, hιlive, hneid, hιpool, hmpool, hpnodup, hplt, hplive,
      hnle, hιlt⟩ := registerChunk_facts s c hs.idsPool hs.idsLt hs.poolNodup
      hs.poolLt hs.poolLive
    have hnb_pre : ∀ f b,
        findCoord (registerChunk s c).1.chunks (adjCoord c f) = some b →
        findCoord s.chunks (adjCoord c f) = some b ∧ b ≠ (registerChunk s c).2 := by
      intro f b hb
      rw [hch, findCoord_cons_ne _ _ _
        (fun h => adjCoord_ne c f h.symm)] at hb
      exact ⟨hb, fun he => hneid (adjCoord c f) b (findCoord_mem _ _ _ hb) he⟩
    have hlive1 : ∀ f ∈ linkFaceOrder, ∀ b,
        (fun f => findCoord (registerChunk s c).1.chunks (adjCoord c f)) f = some b →
        ((hset (registerChunk s c).1.heap (registerChunk s c).2 (fun ch =>
      { ch with neighbors := some (fun f =>
        findCoord (registerChunk s c).1.chunks (adjCoord c f)) }))
          b).neighbors.isSome = true := by
      intro f _ b hb
      unfold hset
      split
      · rfl
      · next hbne =>
        obtain ⟨hb2, hbι⟩ := hnb_pre f b hb
        rw [hpre b hbι]
        exact hs.live (adjCoord c f) b hb2
    obtain ⟨nb₀, hnb₀⟩ := Option.isSome_iff_exists.mp hιlive
    have hlk2 : (linkNeighbors (registerChunk s c).1 (registerChunk s c).2 c).2 = false := by
      rw [linkNeighbors_some_eq (registerChunk s c).1 (registerChunk s c).2 c nb₀ hnb₀]
      exact patchFaces_no_throw _ _ _ _ hlive1
    have hHι : ∀ g, (((patchFaces (registerChunk s c).2
      (fun f => findCoord (registerChunk s c).1.chunks (adjCoord c f))
      linkFaceOrder
      (hset (registerChunk s c).1.heap (registerChunk s c).2 (fun ch =>
      { ch with neighbors := some (fun f =>
        findCoord (registerChunk s c).1.chunks (adjCoord c f)) }))).1
        (registerChunk s c).2).neighbors).map (fun m => m g) =
        some (findCoord (registerChunk s c).1.chunks (adjCoord c g)) := by
      intro g
      rw [patchFaces_nb_at (registerChunk s c).2
        (fun f => findCoord (registerChunk s c).1.chunks (adjCoord c f))
        linkFaceOrder
        (hset (registerChunk s c).1.heap (registerChunk s c).2 (fun ch =>
      { ch with neighbors := some (fun f =>
        findCoord (registerChunk s c).1.chunks (adjCoord c f)) })) (registerChunk s c).2 g hlive1
        (fun f _ hf => absurd rfl (hnb_pre f (registerChunk s c).2 hf).2)]
      unfold hset
      rw [if_pos rfl]
      rfl
    have hHι_live : (((patchFaces (registerChunk s c).2
      (fun f => findCoord (registerChunk s c).1.chunks (adjCoord c f))
      linkFaceOrder
      (hset (registerChunk s c).1.heap (registerChunk s c).2 (fun ch =>
      { ch with neighbors := some (fun f =>
        findCoord (registerChunk s c).1.chunks (adjCoord c f)) }))).1
        (registerChunk s c).2).neighbors).isSome = true := by
      refine patchFaces_live_mono (registerChunk s c).2
        (fun f => findCoord (registerChunk s c).1.chunks (adjCoord c f))
        linkFaceOrder
        (hset (registerChunk s c).1.heap (registerChunk s c).2 (fun ch =>
      { ch with neighbors := some (fun f =>
        findCoord (registerChunk s c).1.chunks (adjCoord c f)) })) (registerChunk s c).2 hlive1 ?_
      unfold hset
      rw [if_pos rfl]
      rfl
    have hHold : ∀ a, a ≠ (registerChunk s c).2 →
        (∀ f2 ∈ linkFaceOrder, (fun f => findCoord (registerChunk s c).1.chunks (adjCoord c f)) f2 = some a → False) →
        ∀ g, (((patchFaces (registerChunk s c).2
      (fun f => findCoord (registerChunk s c).1.chunks (adjCoord c f))
      linkFaceOrder
      (hset (registerChunk s c).1.heap (registerChunk s c).2 (fun ch =>
      { ch with neighbors := some (fun f =>
        findCoord (registerChunk s c).1.chunks (adjCoord c f)) }))).1 a).neighbors).map (fun m => m g) =
          ((s.heap a).neighbors).map (fun m => m g) := by
      intro a haι hnot g
      rw [patchFaces_nb_at (registerChunk s c).2
        (fun f => findCoord (registerChunk s c).1.chunks (adjCoord c f))
        linkFaceOrder
        (hset (registerChunk s c).1.heap (registerChunk s c).2 (fun ch =>
      { ch with neighbors := some (fun f =>
        findCoord (registerChunk s c).1.chunks (adjCoord c f)) })) a g hlive1
        (fun f2 hf2 hnb2 => absurd (hnot f2 hf2 hnb2) not_false)]
      unfold hset
      rw [if_neg haι, hpre a haι]
    have hsym2 : ∀ d a f b,
        findCoord ((c, (registerChunk s c).2) :: s.chunks) d = some a →
        findCoord ((c, (registerChunk s c).2) :: s.chunks) (adjCoord d f) = some b →
        (((patchFaces (registerChunk s c).2
      (fun f => findCoord (registerChunk s c).1.chunks (adjCoord c f))
      linkFaceOrder
      (hset (registerChunk s c).1.heap (registerChunk s c).2 (fun ch =>
      { ch with neighbors := some (fun f =>
        findCoord (registerChunk s c).1.chunks (adjCoord c f)) }))).1 a).neighbors).map (fun m => m f) = some (some b) := by
      intro d a f b h1 h2
      by_cases hdc : d = c
      · rw [hdc] at h1 h2
        rw [findCoord_cons_eq (c, (registerChunk s c).2) s.chunks c rfl,
          Option.some.injEq] at h1
        replace h1 : (registerChunk s c).2 = a := h1
        subst h1
        rw [hHι f, hch]
        rw [h2]
      · rw [findCoord_cons_ne (c, (registerChunk s c).2) s.chunks d
          (fun h => hdc h.symm)] at h1
        have haι : a ≠ (registerChunk s c).2 :=
          fun he => hneid d a (findCoord_mem _ _ _ h1) he
        by_cases hadj : adjCoord d f = c
        · rw [hadj, findCoord_cons_eq (c, (registerChunk s c).2) s.chunks c rfl,
            Option.some.injEq] at h2
          replace h2 : (registerChunk s c).2 = b := h2
          subst h2
          have hnbf : (fun f => findCoord (registerChunk s c).1.chunks (adjCoord c f)) (oppFace f) = some a := by
            show findCoord (registerChunk s c).1.chunks (adjCoord c (oppFace f)) = some a
            rw [hch, show adjCoord c (oppFace f) = d from by
              rw [← hadj, adj_opp]]
            rw [findCoord_cons_ne (c, (registerChunk s c).2) s.chunks d
              (fun h => hdc h.symm)]
            exact h1
          have huniq : ∀ f2 ∈ linkFaceOrder,
              (fun f => findCoord (registerChunk s c).1.chunks (adjCoord c f)) f2 = some a → f2 = oppFace f := by
            intro f2 _ hf2
            have hf2b : findCoord s.chunks (adjCoord c f2) = some a :=
              (hnb_pre f2 a hf2).1
            have hone : adjCoord c f2 = d := mem_snd_inj s.chunks hs.ids _ _ a
              (findCoord_mem _ _ _ hf2b) (findCoord_mem _ _ _ h1)
            apply adjCoord_inj_face c
            rw [hone, ← hadj, adj_opp]
          have htgt := patchFaces_nb_target (registerChunk s c).2
            (fun f => findCoord (registerChunk s c).1.chunks (adjCoord c f))
            linkFaceOrder
            (hset (registerChunk s c).1.heap (registerChunk s c).2 (fun ch =>
      { ch with neighbors := some (fun f =>
        findCoord (registerChunk s c).1.chunks (adjCoord c f)) })) a (oppFace f) hlive1 (by decide)
            (by cases f <;> decide) hnbf huniq
          rw [opp_opp] at htgt
          exact htgt
        · rw [findCoord_cons_ne (c, (registerChunk s c).2) s.chunks (adjCoord d f)
            (fun h => hadj h.symm)] at h2
          have hg : ∀ f2 ∈ linkFaceOrder,
              (fun f => findCoord (registerChunk s c).1.chunks (adjCoord c f)) f2 = some a → oppFace f2 ≠ f := by
            intro f2 _ hf2 hopp
            have hf2b : findCoord s.chunks (adjCoord c f2) = some a :=
              (hnb_pre f2 a hf2).1
            have hone : adjCoord c f2 = d := mem_snd_inj s.chunks hs.ids _ _ a
              (findCoord_mem _ _ _ hf2b) (findCoord_mem _ _ _ h1)
            apply hadj
            rw [← hopp, ← hone, adj_opp]
          rw [patchFaces_nb_at (registerChunk s c).2
            (fun f => findCoord (registerChunk s c).1.chunks (adjCoord c f))
            linkFaceOrder
            (hset (registerChunk s c).1.heap (registerChunk s c).2 (fun ch =>
      { ch with neighbors := some (fun f =>
        findCoord (registerChunk s c).1.chunks (adjCoord c f)) })) a f hlive1 hg]
          unfold hset
          rw [if_neg haι, hpre a haι]
          exact hs.sym d a f b h1 h2
    have hlivepost : ∀ p a, findCoord ((c, (registerChunk s c).2) :: s.chunks) p = some a →
        (((patchFaces (registerChunk s c).2
      (fun f => findCoord (registerChunk s c).1.chunks (adjCoord c f))
      linkFaceOrder
      (hset (registerChunk s c).1.heap (registerChunk s c).2 (fun ch =>
      { ch with neighbors := some (fun f =>
        findCoord (registerChunk s c).1.chunks (adjCoord c f)) }))).1 a).neighbors).isSome = true := by
      intro p a h1
      by_cases hpc : p = c
      · rw [hpc] at h1
        rw [findCoord_cons_eq (c, (registerChunk s c).2) s.chunks c rfl,
          Option.some.injEq] at h1
        replace h1 : (registerChunk s c).2 = a := h1
        subst h1
        exact hHι_live
      · rw [findCoord_cons_ne (c, (registerChunk s c).2) s.chunks p
          (fun h => hpc h.symm)] at h1
        have haι : a ≠ (registerChunk s c).2 :=
          fun he => hneid p a (findCoord_mem _ _ _ h1) he
        refine patchFaces_live_mono (registerChunk s c).2
          (fun f => findCoord (registerChunk s c).1.chunks (adjCoord c f))
          linkFaceOrder
          (hset (registerChunk s c).1.heap (registerChunk s c).2 (fun ch =>
      { ch with neighbors := some (fun f =>
        findCoord (registerChunk s c).1.chunks (adjCoord c f)) })) a hlive1 ?_
        unfold hset
        rw [if_neg haι, hpre a haι]
        exact hs.live p a h1
    have hplive2 : ∀ id ∈ (registerChunk s c).1.freePool,
        (((patchFaces (registerChunk s c).2
      (fun f => findCoord (registerChunk s c).1.chunks (adjCoord c f))
      linkFaceOrder
      (hset (registerChunk s c).1.heap (registerChunk s c).2 (fun ch =>
      { ch with neighbors := some (fun f =>
        findCoord (registerChunk s c).1.chunks (adjCoord c f)) }))).1 id).neighbors).isSome = true := by
      intro id hid
      have hidι : id ≠ (registerChunk s c).2 := fun he => hιpool (he ▸ hid)
      refine patchFaces_live_mono (registerChunk s c).2
        (fun f => findCoord (registerChunk s c).1.chunks (adjCoord c f))
        linkFaceOrder
        (hset (registerChunk s c).1.heap (registerChunk s c).2 (fun ch =>
      { ch with neighbors := some (fun f =>
        findCoord (registerChunk s c).1.chunks (adjCoord c f)) })) id hlive1 ?_
      unfold hset
      rw [if_neg hidι]
      exact hplive id hid
    rw [getChunkByIndex_miss s c hfind]
    simp only [hlk2, Bool.false_eq_true, if_false]
    rw [linkNeighbors_some_eq (registerChunk s c).1 (registerChunk s c).2 c nb₀ hnb₀]
    refine ⟨?_, ?_, ?_, ?_, hpnodup, hplt, ?_, ?_, ?_⟩
    · show (((registerChunk s c).1.chunks).map Prod.fst).Nodup
      rw [hch, List.map_cons, List.nodup_cons]
      refine ⟨?_, hs.keys⟩
      intro hcm
      obtain ⟨e, hem, hefst⟩ := List.mem_map.mp hcm
      replace hefst : e.1 = c := hefst
      exact findCoord_none_not_mem s.chunks c hfind e.2
        (by rw [← hefst]; exact hem)
    · show (((registerChunk s c).1.chunks).map Prod.snd).Nodup
      rw [hch, List.map_cons, List.nodup_cons]
      refine ⟨?_, hs.ids⟩
      intro hιm
      obtain ⟨e, hem, hesnd⟩ := List.mem_map.mp hιm
      replace hesnd : e.2 = (registerChunk s c).2 := hesnd
      exact hneid e.1 e.2 hem hesnd
    · intro p a hm
      replace hm : (p, a) ∈ (registerChunk s c).1.chunks := hm
      rw [hch] at hm
      rcases List.mem_cons.mp hm with he | hm2
      · have ha : a = (registerChunk s c).2 := congrArg Prod.snd he
        rw [ha]
        exact hιlt
      · exact lt_of_lt_of_le (hs.idsLt p a hm2) hnle
    · intro p a hm
      replace hm : (p, a) ∈ (registerChunk s c).1.chunks := hm
      rw [hch] at hm
      rcases List.mem_cons.mp hm with he | hm2
      · have ha : a = (registerChunk s c).2 := congrArg Prod.snd he
        rw [ha]
        exact hιpool
      · exact hmpool p a hm2
    · intro id hid
      exact hplive2 id hid
    · intro p a h1
      replace h1 : findCoord (registerChunk s c).1.chunks p = some a := h1
      rw [hch] at h1
      exact hlivepost p a h1
    · intro d a f b h1 h2
      replace h1 : findCoord (registerChunk s c).1.chunks d = some a := h1
      replace h2 : findCoord (registerChunk s c).1.chunks (adjCoord d f) = some b := h2
      rw [hch] at h1 h2
      exact hsym2 d a f b h1 h2

theorem inv_step (s s' : MState) (hs : Inv s) (h : Step s s') : Inv s' := by
  cases h with
  | create c => exact inv_create s hs c
  | gen hook => exact inv_gen s hs hook
  | remesh id => exact inv_remesh s hs id
  | unload c => exact inv_unload s hs c

theorem inv_reach (s : MState) (h : Reachable s) : Inv s := by
  induction h with
  | init => exact inv_init
  | step s s' hr hst ih => exact inv_step s s' ih hst

/-- Claim C6: in every state reachable by the ChunkManager operations
(`getChunkByIndex`, the queue-servicing and remeshing work of `update`,
and `unloadChunk`), for any two chunks simultaneously present in the
known-chunk map at face-adjacent coordinates, the first chunk's
neighbor reference along the shared face points to the second iff the
second's reciprocal reference points back to the first (indeed both
directions always hold). -/
theorem neighbor_symmetry (s : MState) (hr : Reachable s)
    (c c' : Coord) (a b : Nat) (f : Face)
    (hc : findCoord s.chunks c = some a)
    (hadj : c' = adjCoord c f)
    (hc' : findCoord s.chunks c' = some b) :
    ((s.heap a).neighbors.map (fun nbt => nbt f) = some (some b)) ↔
    ((s.heap b).neighbors.map (fun nbt => nbt (oppFace f)) = some (some a)) := by
  have hinv := inv_reach s hr
  subst hadj
  have h1 := hinv.sym c a f b hc hc'
  have h2 := hinv.sym (adjCoord c f) b (oppFace f) a hc'
    (by rw [adj_opp]; exact hc)
  exact iff_of_true h1 h2

theorem neighbor_symmetry_witness :
    findCoord stateAB.chunks (0, 0, 0) = some 19 ∧
    findCoord stateAB.chunks (1, 0, 0) = some 18 ∧
    (((stateAB.heap 19).neighbors.map (fun nbt => nbt Face.right) =
        some (some 18)) ↔
      ((stateAB.heap 18).neighbors.map (fun nbt => nbt (oppFace Face.right)) =
        some (some 19))) :=
  ⟨by decide, by decide,
    neighbor_symmetry stateAB
      (Reachable.step stateA stateAB
        (Reachable.step initState stateA Reachable.init
          (Step.create initState (0, 0, 0)))
        (Step.create stateA (1, 0, 0)))
      (0, 0, 0) (1, 0, 0) 19 18 Face.right (by decide) (by decide)
      (by decide)⟩

/- ### Claim C1, amended: counting machinery -/

namespace GreedyMesher

/-- Number of non-zero mask cells among the listed indices. -/
def suppCountL (m : Nat → Int) (L : List Nat) : Nat :=
  (L.filter (fun n => decide (m n ≠ 0))).length

theorem suppCountL_mono (mp m : Nat → Int)
    (h : ∀ x, mp x = 0 ∨ mp x = m x) :
    ∀ L : List Nat, suppCountL mp L ≤ suppCountL m L := by
  intro L
  induction L with
  | nil => exact Nat.le_refl 0
  | cons a t ih =>
    unfold suppCountL at ih ⊢
    rw [List.filter_cons, List.filter_cons]
    by_cases hmp : mp a ≠ 0
    · have hma : m a ≠ 0 := by
        rcases h a with h0 | he
        · exact absurd h0 hmp
        · rw [← he]; exact hmp
      rw [if_pos (decide_eq_true hmp), if_pos (decide_eq_true hma)]
      simp only [List.length_cons]
      exact Nat.succ_le_succ ih
    · rw [if_neg (by simp [hmp])]
      by_cases hma : m a ≠ 0
      · rw [if_pos (decide_eq_true hma)]
        simp only [List.length_cons]
        exact Nat.le_succ_of_le ih
      · rw [if_neg (by simp [hma])]
        exact ih

theorem suppCountL_drop (mp m : Nat → Int)
    (h : ∀ x, mp x = 0 ∨ mp x = m x) (n0 : Nat)
    (h0p : mp n0 = 0) (h0 : m n0 ≠ 0) :
    ∀ L : List Nat, n0 ∈ L → suppCountL mp L + 1 ≤ suppCountL m L := by
  intro L
  induction L with
  | nil => intro hm; exact absurd hm (List.not_mem_nil _)
  | cons a t ih =>
    intro hmem
    unfold suppCountL at ih ⊢
    rw [List.filter_cons, List.filter_cons]
    by_cases hae : a = n0
    · subst hae
      rw [if_neg (by simp [h0p]), if_pos (decide_eq_true h0)]
      simp only [List.length_cons]
      exact Nat.succ_le_succ (suppCountL_mono mp m h t)
    · have hmem2 : n0 ∈ t := by
        rcases List.mem_cons.mp hmem with he | ht
        · exact absurd he.symm hae
        · exact ht
      by_cases hmp : mp a ≠ 0
      · have hma : m a ≠ 0 := by
          rcases h a with hz | he
          · exact absurd hz hmp
          · rw [← he]; exact hmp
        rw [if_pos (decide_eq_true hmp), if_pos (decide_eq_true hma)]
        simp only [List.length_cons]
        have hih := ih hmem2
        omega
      · rw [if_neg (by simp [hmp])]
        by_cases hma : m a ≠ 0
        · rw [if_pos (decide_eq_true hma)]
          simp only [List.length_cons]
          have hih := ih hmem2
          omega
        · rw [if_neg (by simp [hma])]
          exact ih hmem2

theorem zeroRect_cases (U : Nat) (mask : Nat → Int) (n w h x : Nat) :
    zeroRect U mask n w h x = 0 ∨ zeroRect U mask n w h x = mask x := by
  unfold zeroRect
  split
  · exact Or.inl rfl
  · exact Or.inr rfl

theorem zeroRect_anchor (U : Nat) (mask : Nat → Int) (n w h : Nat)
    (hw : 0 < w) (hh : 0 < h) : zeroRect U mask n w h n = 0 := by
  unfold zeroRect
  rw [if_pos (List.any_eq_true.mpr ⟨0, List.mem_range.mpr hh,
    List.any_eq_true.mpr ⟨0, List.mem_range.mpr hw, by simp⟩⟩)]

theorem widthAt_pos (U : Nat) (mask : Nat → Int) (n i : Nat) :
    0 < widthAt U mask n i := by
  unfold widthAt
  omega

theorem heightAt_pos (U V : Nat) (mask : Nat → Int) (n j w : Nat) :
    0 < heightAt U V mask n j w := by
  unfold heightAt
  omega

theorem cell_lt_area (U V i j : Nat) (hi : i < U) (hj : j < V) :
    i + j * U < U * V := by
  have h1 : (j + 1) * U ≤ V * U :=
    Nat.mul_le_mul_right U (Nat.succ_le_of_lt hj)
  have h2 : (j + 1) * U = j * U + U := by ring
  have h3 : V * U = U * V := Nat.mul_comm V U
  omega

theorem scanRowGo_count (U V j : Nat) (hj : j < V) :
    ∀ (fuel i : Nat) (m : Nat → Int),
    (scanRowGo U V j fuel i m).1.length +
      suppCountL (scanRowGo U V j fuel i m).2 (List.range (U * V)) ≤
      suppCountL m (List.range (U * V)) ∧
    (∀ x, (scanRowGo U V j fuel i m).2 x = 0 ∨
      (scanRowGo U V j fuel i m).2 x = m x) := by
  intro fuel
  induction fuel with
  | zero =>
    intro i m
    exact ⟨Nat.le_of_eq (Nat.zero_add _), fun x => Or.inr rfl⟩
  | succ fuel ih =>
    intro i m
    by_cases hi : i < U
    · by_cases hm : m (i + j * U) = 0
      · rw [scanRowGo_skip U V j (fuel + 1) i m (Nat.succ_pos fuel) hi hm]
        simp only [Nat.add_sub_cancel]
        exact ih (i + 1) m
      · rw [scanRowGo_emit U V j (fuel + 1) i m (Nat.succ_pos fuel) hi hm]
        simp only [Nat.add_sub_cancel, List.length_cons]
        obtain ⟨ihle, ihpt⟩ := ih (i + widthAt U m (i + j * U) i)
          (zeroRect U m (i + j * U) (widthAt U m (i + j * U) i)
            (heightAt U V m (i + j * U) j (widthAt U m (i + j * U) i)))
        have hdrop : suppCountL (zeroRect U m (i + j * U)
            (widthAt U m (i + j * U) i)
            (heightAt U V m (i + j * U) j (widthAt U m (i + j * U) i)))
            (List.range (U * V)) + 1 ≤
            suppCountL m (List.range (U * V)) :=
          suppCountL_drop
            (zeroRect U m (i + j * U) (widthAt U m (i + j * U) i)
              (heightAt U V m (i + j * U) j (widthAt U m (i + j * U) i))) m
            (fun x => zeroRect_cases U m (i + j * U)
              (widthAt U m (i + j * U) i)
              (heightAt U V m (i + j * U) j (widthAt U m (i + j * U) i)) x)
            (i + j * U)
            (zeroRect_anchor U m (i + j * U)
              (widthAt U m (i + j * U) i)
              (heightAt U V m (i + j * U) j (widthAt U m (i + j * U) i))
              (widthAt_pos U m (i + j * U) i)
              (heightAt_pos U V m (i + j * U) j
                (widthAt U m (i + j * U) i)))
            hm (List.range (U * V))
            (List.mem_range.mpr (cell_lt_area U V i j hi hj))
        constructor
        · omega
        · intro x
          rcases ihpt x with h0 | he
          · exact Or.inl h0
          · rw [he]
            exact zeroRect_cases U m (i + j * U) _ _ x
    · rw [scanRowGo_stop U V j (fuel + 1) i m hi]
      exact ⟨Nat.le_of_eq (Nat.zero_add _), fun x => Or.inr rfl⟩

theorem scanRows_stop (U V fuel j : Nat) (mask : Nat → Int)
    (hj : ¬ j < V) : scanRows U V fuel j mask = [] := by
  cases fuel with
  | zero => rfl
  | succ f => simp only [scanRows, if_neg hj]

theorem scanRows_count (U V : Nat) : ∀ (fuel j : Nat) (m : Nat → Int),
    (scanRows U V fuel j m).length ≤ suppCountL m (List.range (U * V)) := by
  intro fuel
  induction fuel with
  | zero => intro j m; exact Nat.zero_le _
  | succ fuel ih =>
    intro j m
    by_cases hj : j < V
    · rw [scanRows_step U V (fuel + 1) j m (Nat.succ_pos fuel) hj]
      simp only [Nat.add_sub_cancel, List.length_append]
      obtain ⟨hle, hpt⟩ := scanRowGo_count U V j hj U 0 m
      have h2 := ih (j + 1) (scanRowGo U V j U 0 m).2
      omega
    · rw [scanRows_stop U V (fuel + 1) j m hj]
      exact Nat.zero_le _

/-- Each quad emitted by the greedy scan consumes at least one non-zero
mask cell, so the quad count is bounded by the mask support size. -/
theorem scanMask_count (U V : Nat) (m : Nat → Int) :
    (scanMask U V m).length ≤ suppCountL m (List.range (U * V)) :=
  scanRows_count U V V 0 m

theorem sum_range_add (g : Nat → Nat) (a : Nat) :
    ∀ b, ∑ n ∈ Finset.range (a + b), g n =
      (∑ n ∈ Finset.range a, g n) + ∑ k ∈ Finset.range b, g (a + k) := by
  intro b
  induction b with
  | zero => simp
  | succ b ih =>
    rw [show a + (b + 1) = (a + b) + 1 from rfl, Finset.sum_range_succ,
      Finset.sum_range_succ, ih, Nat.add_assoc]

theorem sum_range_mul (U : Nat) (g : Nat → Nat) :
    ∀ V, ∑ n ∈ Finset.range (U * V), g n =
      ∑ j ∈ Finset.range V, ∑ i ∈ Finset.range U, g (i + j * U) := by
  intro V
  induction V with
  | zero => simp
  | succ V ih =>
    rw [Nat.mul_succ, sum_range_add g (U * V) U, ih, Finset.sum_range_succ]
    congr 1
    refine Finset.sum_congr rfl (fun i _ => ?_)
    exact congrArg g (by ring)

theorem suppCountL_eq_sum (m : Nat → Int) :
    ∀ K, suppCountL m (List.range K) =
      ∑ n ∈ Finset.range K, (if m n ≠ 0 then 1 else 0) := by
  intro K
  induction K with
  | zero => rfl
  | succ K ih =>
    unfold suppCountL at ih ⊢
    rw [List.range_succ, List.filter_append, List.length_append,
      Finset.sum_range_succ, ih]
    congr 1
    by_cases h : m K ≠ 0
    · rw [if_pos h]
      simp [List.filter_cons, h]
    · rw [if_neg h]
      simp [List.filter_cons, h]

theorem sum_map_range (g : Nat → Nat) :
    ∀ K, ((List.range K).map g).sum = ∑ n ∈ Finset.range K, g n := by
  intro K
  induction K with
  | zero => rfl
  | succ K ih =>
    rw [List.range_succ, List.map_append, List.sum_append,
      Finset.sum_range_succ, ih]
    rfl

theorem axisQuads_length (voxels : List Nat) (dims : Nat × Nat × Nat)
    (d u v : Nat) :
    (axisQuads voxels dims d u v).length =
      ∑ t ∈ Finset.range (dimGet dims d + 1),
        (scanMask (dimGet dims u) (dimGet dims v)
          (maskFn voxels dims d u v ((t : Int) - 1))).length := by
  unfold axisQuads
  rw [List.length_flatMap]
  simp only [Function.comp_def, List.length_map]
  exact sum_map_range _ _

/-- The greedy mesher's total quad count is bounded by the total number
of non-zero mask cells over all axes and slices. -/
theorem meshQuads_le_supp (voxels : List Nat) (dims : Nat × Nat × Nat) :
    (meshQuads voxels dims).length ≤
      (∑ t ∈ Finset.range (dimGet dims 0 + 1),
        suppCountL (maskFn voxels dims 0 1 2 ((t : Int) - 1))
          (List.range (dimGet dims 1 * dimGet dims 2))) +
      (∑ t ∈ Finset.range (dimGet dims 1 + 1),
        suppCountL (maskFn voxels dims 1 2 0 ((t : Int) - 1))
          (List.range (dimGet dims 2 * dimGet dims 0))) +
      (∑ t ∈ Finset.range (dimGet dims 2 + 1),
        suppCountL (maskFn voxels dims 2 0 1 ((t : Int) - 1))
          (List.range (dimGet dims 0 * dimGet dims 1))) := by
  unfold meshQuads
  rw [List.length_append, List.length_append, List.length_map,
    List.length_map, List.length_map, axisQuads_length, axisQuads_length,
    axisQuads_length]
  refine Nat.add_le_add (Nat.add_le_add ?_ ?_) ?_ <;>
    exact Finset.sum_le_sum (fun t _ => scanMask_count _ _ _)

/-- Grid read at Nat coordinates (row-major, as both meshers index). -/
def vAt (voxels : List Nat) (N x y z : Nat) : Nat :=
  voxels.getD (x + y * N + z * N * N) 0

theorem mGetVoxel_nat (voxels : List Nat) (N x y z : Nat) :
    mGetVoxel voxels (N, N, N) ((x : Int), (y : Int), (z : Int)) =
      vAt voxels N x y z := by
  unfold mGetVoxel vAt
  simp only []
  rw [if_pos (by positivity)]
  congr 1

/-- The voxel just behind the slice plane (air outside the grid). -/
def aVal (voxels : List Nat) (N : Nat) (d u v : Nat) (s : Int)
    (i j : Nat) : Nat :=
  if 0 ≤ s then mGetVoxel voxels (N, N, N) (posAt d u v s i j) else 0

/-- The voxel just ahead of the slice plane (air outside the grid). -/
def bVal (voxels : List Nat) (N : Nat) (d u v : Nat) (s : Int)
    (i j : Nat) : Nat :=
  if s < (N : Int) - 1 then
    mGetVoxel voxels (N, N, N) (stepAx (posAt d u v s i j) d) else 0

theorem maskFn_cell (voxels : List Nat) (N : Nat) (d u v : Nat) (s : Int)
    (i j : Nat) (hi : i < N) (hj : j < N) :
    maskFn voxels (N, N, N) d u v s (i + j * N) =
      (if aVal voxels N d u v s i j = bVal voxels N d u v s i j then 0
       else if aVal voxels N d u v s i j ≠ 0 then
         (aVal voxels N d u v s i j : Int)
       else -(bVal voxels N d u v s i j : Int)) := by
  unfold maskFn aVal bVal
  simp only [dimGet_cube]
  rw [if_pos (cell_lt_area N N i j hi hj)]
  rw [show (i + j * N) % N = i from by
    rw [Nat.add_mul_mod_self_right]
    exact Nat.mod_eq_of_lt hi]
  rw [show (i + j * N) / N = j from by
    rw [Nat.add_mul_div_right _ _ (by omega : 0 < N),
      Nat.div_eq_of_lt hi]
    omega]

/-- Indicator of a non-zero mask cell whose behind voxel is solid: the
face belongs to the behind cell, pointing in the positive direction. -/
def pInd (voxels : List Nat) (N : Nat) (d u v : Nat) (s i j : Nat) : Nat :=
  if aVal voxels N d u v (s : Int) i j ≠ bVal voxels N d u v (s : Int) i j ∧
      aVal voxels N d u v (s : Int) i j ≠ 0 then 1 else 0

/-- Indicator of a non-zero mask cell whose behind voxel is air: the
face belongs to the ahead cell (plane index `t`), pointing in the
negative direction. -/
def nInd (voxels : List Nat) (N : Nat) (d u v : Nat) (t i j : Nat) : Nat :=
  if aVal voxels N d u v ((t : Int) - 1) i j ≠
      bVal voxels N d u v ((t : Int) - 1) i j ∧
      aVal voxels N d u v ((t : Int) - 1) i j = 0 then 1 else 0

theorem aVal_of_neg (voxels : List Nat) (N d u v : Nat) (s : Int)
    (i j : Nat) (hs : s < 0) : aVal voxels N d u v s i j = 0 := by
  unfold aVal
  rw [if_neg (Int.not_le.mpr hs)]

theorem bVal_of_last (voxels : List Nat) (N d u v : Nat) (s : Int)
    (i j : Nat) (hs : (N : Int) - 1 ≤ s) : bVal voxels N d u v s i j = 0 := by
  unfold bVal
  rw [if_neg (Int.not_lt.mpr hs)]

theorem maskInd_split (voxels : List Nat) (N d u v : Nat) (t i j : Nat)
    (hi : i < N) (hj : j < N) :
    (if maskFn voxels (N, N, N) d u v ((t : Int) - 1) (i + j * N) ≠ 0
      then 1 else 0) =
      (if aVal voxels N d u v ((t : Int) - 1) i j ≠
          bVal voxels N d u v ((t : Int) - 1) i j ∧
          aVal voxels N d u v ((t : Int) - 1) i j ≠ 0 then 1 else 0) +
      nInd voxels N d u v t i j := by
  rw [maskFn_cell voxels N d u v ((t : Int) - 1) i j hi hj]
  unfold nInd
  by_cases hab : aVal voxels N d u v ((t : Int) - 1) i j =
      bVal voxels N d u v ((t : Int) - 1) i j
  · simp [hab]
  · by_cases ha : aVal voxels N d u v ((t : Int) - 1) i j = 0
    · have hb : bVal voxels N d u v ((t : Int) - 1) i j ≠ 0 :=
        fun h0 => hab (by rw [ha, h0])
      simp [hab, ha, hb]
    · simp [hab, ha]

theorem axis_supp_sum (voxels : List Nat) (N d u v : Nat) :
    ∑ t ∈ Finset.range (N + 1),
      suppCountL (maskFn voxels (N, N, N) d u v ((t : Int) - 1))
        (List.range (N * N)) =
    (∑ s ∈ Finset.range N, ∑ j ∈ Finset.range N, ∑ i ∈ Finset.range N,
      pInd voxels N d u v s i j) +
    (∑ t ∈ Finset.range N, ∑ j ∈ Finset.range N, ∑ i ∈ Finset.range N,
      nInd voxels N d u v t i j) := by
  have h1 : ∀ t : Nat, suppCountL (maskFn voxels (N, N, N) d u v ((t : Int) - 1))
      (List.range (N * N)) =
      (∑ j ∈ Finset.range N, ∑ i ∈ Finset.range N,
        (if aVal voxels N d u v ((t : Int) - 1) i j ≠
            bVal voxels N d u v ((t : Int) - 1) i j ∧
            aVal voxels N d u v ((t : Int) - 1) i j ≠ 0 then 1 else 0)) +
      (∑ j ∈ Finset.range N, ∑ i ∈ Finset.range N,
        nInd voxels N d u v t i j) := by
    intro t
    rw [suppCountL_eq_sum, sum_range_mul]
    rw [Finset.sum_congr rfl (fun j hj => Finset.sum_congr rfl (fun i hi =>
      maskInd_split voxels N d u v t i j (Finset.mem_range.mp hi)
        (Finset.mem_range.mp hj)))]
    rw [← Finset.sum_add_distrib]
    exact Finset.sum_congr rfl (fun j _ => Finset.sum_add_distrib)
  rw [Finset.sum_congr rfl (fun t _ => h1 t), Finset.sum_add_distrib]
  congr 1
  · -- the behind-cell half: slice t = 0 contributes nothing; shift
    rw [Finset.sum_range_succ']
    have h0 : (∑ j ∈ Finset.range N, ∑ i ∈ Finset.range N,
        (if aVal voxels N d u v (((0 : Nat) : Int) - 1) i j ≠
            bVal voxels N d u v (((0 : Nat) : Int) - 1) i j ∧
            aVal voxels N d u v (((0 : Nat) : Int) - 1) i j ≠ 0
          then 1 else 0)) = 0 := by
      refine Finset.sum_eq_zero (fun j _ => Finset.sum_eq_zero (fun i _ => ?_))
      rw [if_neg]
      intro hc
      exact hc.2 (aVal_of_neg voxels N d u v _ i j (by norm_num))
    rw [h0, Nat.add_zero]
    refine Finset.sum_congr rfl (fun s _ => ?_)
    refine Finset.sum_congr rfl (fun j _ => Finset.sum_congr rfl (fun i _ => ?_))
    unfold pInd
    rw [show ((s + 1 : Nat) : Int) - 1 = (s : Int) from by push_cast; ring]
  · -- the ahead-cell half: slice t = N contributes nothing
    rw [Finset.sum_range_succ]
    have h0 : (∑ j ∈ Finset.range N, ∑ i ∈ Finset.range N,
        nInd voxels N d u v N i j) = 0 := by
      refine Finset.sum_eq_zero (fun j _ => Finset.sum_eq_zero (fun i _ => ?_))
      unfold nInd
      rw [if_neg]
      intro hc
      have hb := bVal_of_last voxels N d u v ((N : Int) - 1) i j (le_refl _)
      exact hc.1 (by rw [hc.2, hb])
    rw [h0, Nat.add_zero]

theorem getVoxel_nat (voxels : List Nat) (N : Nat) (nu ie : Bool)
    (x y z : Nat) (hx : x < N) (hy : y < N) (hz : z < N) :
    (Chunk.mk N voxels nu ie).getVoxel ((x : Int)) ((y : Int)) ((z : Int)) =
      vAt voxels N x y z := by
  have ho : (Chunk.mk N voxels nu ie).outOfRange x y z = false :=
    (outOfRange_false_iff _ _ _ _).mpr
      ⟨Int.ofNat_nonneg x, by exact_mod_cast hx, Int.ofNat_nonneg y,
        by exact_mod_cast hy, Int.ofNat_nonneg z, by exact_mod_cast hz⟩
  unfold Chunk.getVoxel
  rw [if_neg (by rw [ho]; exact Bool.false_ne_true)]
  unfold Chunk.voxelIndex vAt
  congr 1

theorem length_filter_cons (p : Face → Bool) (a : Face) (l : List Face) :
    ((a :: l).filter p).length =
      (if p a = true then 1 else 0) + (l.filter p).length := by
  rw [List.filter_cons]
  split
  · next h =>
    rw [List.length_cons]
    omega
  · next h =>
    omega

/-- Per-cell, per-face contribution of the naive mesher. -/
def fInd (c : Chunk) (x y z : Nat) (f : Face) : Nat :=
  if c.getVoxel ((x : Int)) ((y : Int)) ((z : Int)) = 0 then 0
  else if c.shouldRenderFace (fun _ => none) x y z f then 1 else 0

theorem naiveFaceCount_sum (c : Chunk) :
    naiveFaceCount c =
      ∑ x ∈ Finset.range c.size, ∑ y ∈ Finset.range c.size,
        ∑ z ∈ Finset.range c.size,
        (fInd c x y z Face.left + fInd c x y z Face.right +
         fInd c x y z Face.bottom + fInd c x y z Face.top +
         fInd c x y z Face.back + fInd c x y z Face.front) := by
  unfold naiveFaceCount naiveFaces
  rw [List.length_flatMap]
  simp only [Function.comp_def]
  rw [sum_map_range]
  refine Finset.sum_congr rfl (fun x _ => ?_)
  rw [List.length_flatMap]
  simp only [Function.comp_def]
  rw [sum_map_range]
  refine Finset.sum_congr rfl (fun y _ => ?_)
  rw [List.length_flatMap]
  simp only [Function.comp_def]
  rw [sum_map_range]
  refine Finset.sum_congr rfl (fun z _ => ?_)
  by_cases hv : c.getVoxel ((x : Int)) ((y : Int)) ((z : Int)) = 0
  · rw [if_pos hv]
    unfold fInd
    rw [if_pos hv, if_pos hv, if_pos hv, if_pos hv, if_pos hv, if_pos hv]
    rfl
  · rw [if_neg hv, List.length_map]
    unfold fInd naiveFaceList
    rw [if_neg hv, if_neg hv, if_neg hv, if_neg hv, if_neg hv, if_neg hv]
    rw [length_filter_cons, length_filter_cons, length_filter_cons,
      length_filter_cons, length_filter_cons, length_filter_cons]
    simp only [List.filter_nil, List.length_nil]
    ring

theorem outOfRange_mk_false (N : Nat) (voxels : List Nat) (nu ie : Bool)
    (x y z : Int) (hx0 : 0 ≤ x) (hxN : x < (N : Int)) (hy0 : 0 ≤ y)
    (hyN : y < (N : Int)) (hz0 : 0 ≤ z) (hzN : z < (N : Int)) :
    (Chunk.mk N voxels nu ie).outOfRange x y z = false :=
  (outOfRange_false_iff _ _ _ _).mpr ⟨hx0, hxN, hy0, hyN, hz0, hzN⟩

/-- No two face-adjacent in-grid cells hold distinct non-air types. -/
def sepGrid (voxels : List Nat) (N : Nat) : Bool :=
  (List.range N).all fun x => (List.range N).all fun y =>
    (List.range N).all fun z =>
      (decide (x + 1 < N → vAt voxels N x y z = vAt voxels N (x + 1) y z ∨
        vAt voxels N x y z = 0 ∨ vAt voxels N (x + 1) y z = 0)) &&
      (decide (y + 1 < N → vAt voxels N x y z = vAt voxels N x (y + 1) z ∨
        vAt voxels N x y z = 0 ∨ vAt voxels N x (y + 1) z = 0)) &&
      (decide (z + 1 < N → vAt voxels N x y z = vAt voxels N x y (z + 1) ∨
        vAt voxels N x y z = 0 ∨ vAt voxels N x y (z + 1) = 0))

theorem sepGrid_spec (voxels : List Nat) (N : Nat)
    (h : sepGrid voxels N = true) (x y z : Nat)
    (hx : x < N) (hy : y < N) (hz : z < N) :
    (x + 1 < N → vAt voxels N x y z = vAt voxels N (x + 1) y z ∨
      vAt voxels N x y z = 0 ∨ vAt voxels N (x + 1) y z = 0) ∧
    (y + 1 < N → vAt voxels N x y z = vAt voxels N x (y + 1) z ∨
      vAt voxels N x y z = 0 ∨ vAt voxels N x (y + 1) z = 0) ∧
    (z + 1 < N → vAt voxels N x y z = vAt voxels N x y (z + 1) ∨
      vAt voxels N x y z = 0 ∨ vAt voxels N x y (z + 1) = 0) := by
  unfold sepGrid at h
  simp only [List.all_eq_true, List.mem_range, Bool.and_eq_true,
    decide_eq_true_eq] at h
  obtain ⟨⟨h1, h2⟩, h3⟩ := h x hx y hy z hz
  exact ⟨h1, h2, h3⟩

theorem srf_right (voxels : List Nat) (N : Nat) (nu ie : Bool)
    (x y z : Nat) (hx : x < N) (hy : y < N) (hz : z < N) :
    (Chunk.mk N voxels nu ie).shouldRenderFace (fun _ => none)
      ((x : Int)) ((y : Int)) ((z : Int)) Face.right =
      (decide (N ≤ x + 1) ||
        decide (vAt voxels N (x + 1) y z = 0)) := by
  simp only [Chunk.shouldRenderFace, Face.offset, add_zero]
  by_cases hb : x + 1 < N
  · have ho : (Chunk.mk N voxels nu ie).outOfRange ((x : Int) + 1) ((y : Int)) ((z : Int)) = false :=
      outOfRange_mk_false N voxels nu ie _ _ _ (by omega) (by omega)
        (by omega) (by omega) (by omega) (by omega)
    rw [if_neg (by rw [ho]; exact Bool.false_ne_true)]
    rw [decide_eq_false (by omega : ¬ N ≤ x + 1), Bool.false_or]
    rw [show (Chunk.mk N voxels nu ie).getVoxel ((x : Int) + 1) ((y : Int)) ((z : Int)) =
      vAt voxels N (x + 1) y z from getVoxel_nat voxels N nu ie (x + 1) y z hb hy hz]
  · have h1 : ((N : Nat) : Int) ≤ (x : Int) + 1 := by omega
    have ho : (Chunk.mk N voxels nu ie).outOfRange ((x : Int) + 1) ((y : Int)) ((z : Int)) = true := by
      unfold Chunk.outOfRange
      simp only []
      simp [h1]
    rw [if_pos ho, decide_eq_true (by omega : N ≤ x + 1),
      Bool.true_or]

theorem srf_top (voxels : List Nat) (N : Nat) (nu ie : Bool)
    (x y z : Nat) (hx : x < N) (hy : y < N) (hz : z < N) :
    (Chunk.mk N voxels nu ie).shouldRenderFace (fun _ => none)
      ((x : Int)) ((y : Int)) ((z : Int)) Face.top =
      (decide (N ≤ y + 1) ||
        decide (vAt voxels N x (y + 1) z = 0)) := by
  simp only [Chunk.shouldRenderFace, Face.offset, add_zero]
  by_cases hb : y + 1 < N
  · have ho : (Chunk.mk N voxels nu ie).outOfRange ((x : Int)) ((y : Int) + 1) ((z : Int)) = false :=
      outOfRange_mk_false N voxels nu ie _ _ _ (by omega) (by omega)
        (by omega) (by omega) (by omega) (by omega)
    rw [if_neg (by rw [ho]; exact Bool.false_ne_true)]
    rw [decide_eq_false (by omega : ¬ N ≤ y + 1), Bool.false_or]
    rw [show (Chunk.mk N voxels nu ie).getVoxel ((x : Int)) ((y : Int) + 1) ((z : Int)) =
      vAt voxels N x (y + 1) z from getVoxel_nat voxels N nu ie x (y + 1) z hx hb hz]
  · have h1 : ((N : Nat) : Int) ≤ (y : Int) + 1 := by omega
    have ho : (Chunk.mk N voxels nu ie).outOfRange ((x : Int)) ((y : Int) + 1) ((z : Int)) = true := by
      unfold Chunk.outOfRange
      simp only []
      simp [h1]
    rw [if_pos ho, decide_eq_true (by omega : N ≤ y + 1),
      Bool.true_or]

theorem srf_front (voxels : List Nat) (N : Nat) (nu ie : Bool)
    (x y z : Nat) (hx : x < N) (hy : y < N) (hz : z < N) :
    (Chunk.mk N voxels nu ie).shouldRenderFace (fun _ => none)
      ((x : Int)) ((y : Int)) ((z : Int)) Face.front =
      (decide (N ≤ z + 1) ||
        decide (vAt voxels N x y (z + 1) = 0)) := by
  simp only [Chunk.shouldRenderFace, Face.offset, add_zero]
  by_cases hb : z + 1 < N
  · have ho : (Chunk.mk N voxels nu ie).outOfRange ((x : Int)) ((y : Int)) ((z : Int) + 1) = false :=
      outOfRange_mk_false N voxels nu ie _ _ _ (by omega) (by omega)
        (by omega) (by omega) (by omega) (by omega)
    rw [if_neg (by rw [ho]; exact Bool.false_ne_true)]
    rw [decide_eq_false (by omega : ¬ N ≤ z + 1), Bool.false_or]
    rw [show (Chunk.mk N voxels nu ie).getVoxel ((x : Int)) ((y : Int)) ((z : Int) + 1) =
      vAt voxels N x y (z + 1) from getVoxel_nat voxels N nu ie x y (z + 1) hx hy hb]
  · have h1 : ((N : Nat) : Int) ≤ (z : Int) + 1 := by omega
    have ho : (Chunk.mk N voxels nu ie).outOfRange ((x : Int)) ((y : Int)) ((z : Int) + 1) = true := by
      unfold Chunk.outOfRange
      simp only []
      simp [h1]
    rw [if_pos ho, decide_eq_true (by omega : N ≤ z + 1),
      Bool.true_or]

theorem srf_left (voxels : List Nat) (N : Nat) (nu ie : Bool)
    (x y z : Nat) (hx : x < N) (hy : y < N) (hz : z < N) :
    (Chunk.mk N voxels nu ie).shouldRenderFace (fun _ => none)
      ((x : Int)) ((y : Int)) ((z : Int)) Face.left =
      (decide (x = 0) ||
        decide (vAt voxels N (x - 1) y z = 0)) := by
  simp only [Chunk.shouldRenderFace, Face.offset, add_zero]
  by_cases hb : x = 0
  · have ho : (Chunk.mk N voxels nu ie).outOfRange ((x : Int) + -1) ((y : Int)) ((z : Int)) = true := by
      unfold Chunk.outOfRange
      simp only []
      have h1 : (((x : Int) + -1) : Int) < 0 := by omega
      simp [h1]
    rw [if_pos ho, decide_eq_true hb, Bool.true_or]
  · have ho : (Chunk.mk N voxels nu ie).outOfRange ((x : Int) + -1) ((y : Int)) ((z : Int)) = false :=
      outOfRange_mk_false N voxels nu ie _ _ _ (by omega) (by omega)
        (by omega) (by omega) (by omega) (by omega)
    rw [if_neg (by rw [ho]; exact Bool.false_ne_true)]
    rw [decide_eq_false hb, Bool.false_or]
    rw [show (Chunk.mk N voxels nu ie).getVoxel ((x : Int) + -1) ((y : Int)) ((z : Int)) =
      vAt voxels N (x - 1) y z from by
        rw [show (((x : Int) + -1) : Int) = ((x - 1 : Nat) : Int) from by omega]
        exact getVoxel_nat voxels N nu ie (x - 1) y z (by omega) hy hz]

theorem srf_bottom (voxels : List Nat) (N : Nat) (nu ie : Bool)
    (x y z : Nat) (hx : x < N) (hy : y < N) (hz : z < N) :
    (Chunk.mk N voxels nu ie).shouldRenderFace (fun _ => none)
      ((x : Int)) ((y : Int)) ((z : Int)) Face.bottom =
      (decide (y = 0) ||
        decide (vAt voxels N x (y - 1) z = 0)) := by
  simp only [Chunk.shouldRenderFace, Face.offset, add_zero]
  by_cases hb : y = 0
  · have ho : (Chunk.mk N voxels nu ie).outOfRange ((x : Int)) ((y : Int) + -1) ((z : Int)) = true := by
      unfold Chunk.outOfRange
      simp only []
      have h1 : (((y : Int) + -1) : Int) < 0 := by omega
      simp [h1]
    rw [if_pos ho, decide_eq_true hb, Bool.true_or]
  · have ho : (Chunk.mk N voxels nu ie).outOfRange ((x : Int)) ((y : Int) + -1) ((z : Int)) = false :=
      outOfRange_mk_false N voxels nu ie _ _ _ (by omega) (by omega)
        (by omega) (by omega) (by omega) (by omega)
    rw [if_neg (by rw [ho]; exact Bool.false_ne_true)]
    rw [decide_eq_false hb, Bool.false_or]
    rw [show (Chunk.mk N voxels nu ie).getVoxel ((x : Int)) ((y : Int) + -1) ((z : Int)) =
      vAt voxels N x (y - 1) z from by
        rw [show (((y : Int) + -1) : Int) = ((y - 1 : Nat) : Int) from by omega]
        exact getVoxel_nat voxels N nu ie x (y - 1) z hx (by omega) hz]

theorem srf_back (voxels : List Nat) (N : Nat) (nu ie : Bool)
    (x y z : Nat) (hx : x < N) (hy : y < N) (hz : z < N) :
    (Chunk.mk N voxels nu ie).shouldRenderFace (fun _ => none)
      ((x : Int)) ((y : Int)) ((z : Int)) Face.back =
      (decide (z = 0) ||
        decide (vAt voxels N x y (z - 1) = 0)) := by
  simp only [Chunk.shouldRenderFace, Face.offset, add_zero]
  by_cases hb : z = 0
  · have ho : (Chunk.mk N voxels nu ie).outOfRange ((x : Int)) ((y : Int)) ((z : Int) + -1) = true := by
      unfold Chunk.outOfRange
      simp only []
      have h1 : (((z : Int) + -1) : Int) < 0 := by omega
      simp [h1]
    rw [if_pos ho, decide_eq_true hb, Bool.true_or]
  · have ho : (Chunk.mk N voxels nu ie).outOfRange ((x : Int)) ((y : Int)) ((z : Int) + -1) = false :=
      outOfRange_mk_false N voxels nu ie _ _ _ (by omega) (by omega)
        (by omega) (by omega) (by omega) (by omega)
    rw [if_neg (by rw [ho]; exact Bool.false_ne_true)]
    rw [decide_eq_false hb, Bool.false_or]
    rw [show (Chunk.mk N voxels nu ie).getVoxel ((x : Int)) ((y : Int)) ((z : Int) + -1) =
      vAt voxels N x y (z - 1) from by
        rw [show (((z : Int) + -1) : Int) = ((z - 1 : Nat) : Int) from by omega]
        exact getVoxel_nat voxels N nu ie x y (z - 1) hx hy (by omega)]

theorem pInd_face0 (voxels : List Nat) (N : Nat)
    (hsep : sepGrid voxels N = true) (nu ie : Bool) (s i j : Nat)
    (hs : s < N) (hi : i < N) (hj : j < N) :
    pInd voxels N 0 1 2 s i j =
      fInd (Chunk.mk N voxels nu ie) s i j Face.right := by
  unfold pInd fInd
  have ha : aVal voxels N 0 1 2 ((s : Nat) : Int) i j =
      vAt voxels N s i j := by
    unfold aVal
    rw [if_pos (Int.ofNat_nonneg s)]
    exact mGetVoxel_nat voxels N s i j
  have hgv : (Chunk.mk N voxels nu ie).getVoxel ((s : Nat) : Int)
      ((i : Nat) : Int) ((j : Nat) : Int) = vAt voxels N s i j :=
    getVoxel_nat voxels N nu ie s i j hs hi hj
  rw [ha, hgv, srf_right voxels N nu ie s i j hs hi hj]
  by_cases hlast : s + 1 < N
  · have hb : bVal voxels N 0 1 2 ((s : Nat) : Int) i j =
        vAt voxels N (s + 1) i j := by
      unfold bVal
      rw [if_pos (by omega)]
      exact mGetVoxel_nat voxels N (s + 1) i j
    rw [hb, decide_eq_false (by omega : ¬ N ≤ s + 1), Bool.false_or]
    by_cases hva : vAt voxels N s i j = 0
    · rw [if_pos hva, if_neg (fun hc => hc.2 hva)]
    · rw [if_neg hva]
      by_cases hvb : vAt voxels N (s + 1) i j = 0
      · rw [if_pos ⟨fun he => hva (he.trans hvb), hva⟩,
          if_pos (decide_eq_true hvb)]
      · have hsepc := (sepGrid_spec voxels N hsep s i j hs hi hj).1 hlast
        rcases hsepc with he | h0 | h0
        · rw [if_neg (fun hc => hc.1 he), if_neg (by simp [hvb])]
        · exact absurd h0 hva
        · exact absurd h0 hvb
  · have hb : bVal voxels N 0 1 2 ((s : Nat) : Int) i j = 0 :=
      bVal_of_last voxels N 0 1 2 _ i j (by omega)
    rw [hb, decide_eq_true (by omega : N ≤ s + 1), Bool.true_or]
    by_cases hva : vAt voxels N s i j = 0
    · rw [if_pos hva, if_neg (fun hc => hc.2 hva)]
    · rw [if_neg hva, if_pos ⟨hva, hva⟩, if_pos rfl]

theorem pInd_face1 (voxels : List Nat) (N : Nat)
    (hsep : sepGrid voxels N = true) (nu ie : Bool) (s i j : Nat)
    (hs : s < N) (hi : i < N) (hj : j < N) :
    pInd voxels N 1 2 0 s i j =
      fInd (Chunk.mk N voxels nu ie) j s i Face.top := by
  unfold pInd fInd
  have ha : aVal voxels N 1 2 0 ((s : Nat) : Int) i j =
      vAt voxels N j s i := by
    unfold aVal
    rw [if_pos (Int.ofNat_nonneg s)]
    exact mGetVoxel_nat voxels N j s i
  have hgv : (Chunk.mk N voxels nu ie).getVoxel ((j : Nat) : Int)
      ((s : Nat) : Int) ((i : Nat) : Int) = vAt voxels N j s i :=
    getVoxel_nat voxels N nu ie j s i hj hs hi
  rw [ha, hgv, srf_top voxels N nu ie j s i hj hs hi]
  by_cases hlast : s + 1 < N
  · have hb : bVal voxels N 1 2 0 ((s : Nat) : Int) i j =
        vAt voxels N j (s + 1) i := by
      unfold bVal
      rw [if_pos (by omega)]
      exact mGetVoxel_nat voxels N j (s + 1) i
    rw [hb, decide_eq_false (by omega : ¬ N ≤ s + 1), Bool.false_or]
    by_cases hva : vAt voxels N j s i = 0
    · rw [if_pos hva, if_neg (fun hc => hc.2 hva)]
    · rw [if_neg hva]
      by_cases hvb : vAt voxels N j (s + 1) i = 0
      · rw [if_pos ⟨fun he => hva (he.trans hvb), hva⟩,
          if_pos (decide_eq_true hvb)]
      · have hsepc := (sepGrid_spec voxels N hsep j s i hj hs hi).2.1 hlast
        rcases hsepc with he | h0 | h0
        · rw [if_neg (fun hc => hc.1 he), if_neg (by simp [hvb])]
        · exact absurd h0 hva
        · exact absurd h0 hvb
  · have hb : bVal voxels N 1 2 0 ((s : Nat) : Int) i j = 0 :=
      bVal_of_last voxels N 1 2 0 _ i j (by omega)
    rw [hb, decide_eq_true (by omega : N ≤ s + 1), Bool.true_or]
    by_cases hva : vAt voxels N j s i = 0
    · rw [if_pos hva, if_neg (fun hc => hc.2 hva)]
    · rw [if_neg hva, if_pos ⟨hva, hva⟩, if_pos rfl]

theorem pInd_face2 (voxels : List Nat) (N : Nat)
    (hsep : sepGrid voxels N = true) (nu ie : Bool) (s i j : Nat)
    (hs : s < N) (hi : i < N) (hj : j < N) :
    pInd voxels N 2 0 1 s i j =
      fInd (Chunk.mk N voxels nu ie) i j s Face.front := by
  unfold pInd fInd
  have ha : aVal voxels N 2 0 1 ((s : Nat) : Int) i j =
      vAt voxels N i j s := by
    unfold aVal
    rw [if_pos (Int.ofNat_nonneg s)]
    exact mGetVoxel_nat voxels N i j s
  have hgv : (Chunk.mk N voxels nu ie).getVoxel ((i : Nat) : Int)
      ((j : Nat) : Int) ((s : Nat) : Int) = vAt voxels N i j s :=
    getVoxel_nat voxels N nu ie i j s hi hj hs
  rw [ha, hgv, srf_front voxels N nu ie i j s hi hj hs]
  by_cases hlast : s + 1 < N
  · have hb : bVal voxels N 2 0 1 ((s : Nat) : Int) i j =
        vAt voxels N i j (s + 1) := by
      unfold bVal
      rw [if_pos (by omega)]
      exact mGetVoxel_nat voxels N i j (s + 1)
    rw [hb, decide_eq_false (by omega : ¬ N ≤ s + 1), Bool.false_or]
    by_cases hva : vAt voxels N i j s = 0
    · rw [if_pos hva, if_neg (fun hc => hc.2 hva)]
    · rw [if_neg hva]
      by_cases hvb : vAt voxels N i j (s + 1) = 0
      · rw [if_pos ⟨fun he => hva (he.trans hvb), hva⟩,
          if_pos (decide_eq_true hvb)]
      · have hsepc := (sepGrid_spec voxels N hsep i j s hi hj hs).2.2 hlast
        rcases hsepc with he | h0 | h0
        · rw [if_neg (fun hc => hc.1 he), if_neg (by simp [hvb])]
        · exact absurd h0 hva
        · exact absurd h0 hvb
  · have hb : bVal voxels N 2 0 1 ((s : Nat) : Int) i j = 0 :=
      bVal_of_last voxels N 2 0 1 _ i j (by omega)
    rw [hb, decide_eq_true (by omega : N ≤ s + 1), Bool.true_or]
    by_cases hva : vAt voxels N i j s = 0
    · rw [if_pos hva, if_neg (fun hc => hc.2 hva)]
    · rw [if_neg hva, if_pos ⟨hva, hva⟩, if_pos rfl]

theorem nInd_face0 (voxels : List Nat) (N : Nat) (nu ie : Bool)
    (t i j : Nat) (ht : t < N) (hi : i < N) (hj : j < N) :
    nInd voxels N 0 1 2 t i j =
      fInd (Chunk.mk N voxels nu ie) t i j Face.left := by
  unfold nInd fInd
  have hb : bVal voxels N 0 1 2 ((t : Int) - 1) i j =
      vAt voxels N t i j := by
    unfold bVal
    rw [if_pos (by omega)]
    show mGetVoxel voxels (N, N, N) ((((t : Int) - 1) + 1), (i : Int), (j : Int)) = vAt voxels N t i j
    rw [show (((t : Int) - 1) + 1) = ((t : Nat) : Int) from by ring]
    exact mGetVoxel_nat voxels N t i j
  have hgv : (Chunk.mk N voxels nu ie).getVoxel ((t : Nat) : Int)
      ((i : Nat) : Int) ((j : Nat) : Int) = vAt voxels N t i j :=
    getVoxel_nat voxels N nu ie t i j ht hi hj
  rw [hb, hgv, srf_left voxels N nu ie t i j ht hi hj]
  by_cases ht0 : t = 0
  · have ha : aVal voxels N 0 1 2 ((t : Int) - 1) i j = 0 :=
      aVal_of_neg voxels N 0 1 2 _ i j (by omega)
    rw [ha, decide_eq_true ht0, Bool.true_or]
    by_cases hvb : vAt voxels N t i j = 0
    · rw [if_pos hvb, if_neg (fun hc => hc.1 hvb.symm)]
    · rw [if_neg hvb, if_pos ⟨fun he => hvb he.symm, rfl⟩, if_pos rfl]
  · have ha : aVal voxels N 0 1 2 ((t : Int) - 1) i j =
        vAt voxels N (t - 1) i j := by
      unfold aVal
      rw [if_pos (by omega)]
      show mGetVoxel voxels (N, N, N) (((t : Int) - 1), (i : Int), (j : Int)) =
        vAt voxels N (t - 1) i j
      rw [show ((t : Int) - 1) = ((t - 1 : Nat) : Int) from by omega]
      exact mGetVoxel_nat voxels N (t - 1) i j
    rw [ha, decide_eq_false ht0, Bool.false_or]
    by_cases hvb : vAt voxels N t i j = 0
    · rw [if_pos hvb, if_neg (fun hc => hc.1 (hc.2.trans hvb.symm))]
    · rw [if_neg hvb]
      by_cases hva : vAt voxels N (t - 1) i j = 0
      · rw [if_pos ⟨fun he => hvb (he.symm.trans hva), hva⟩,
          if_pos (decide_eq_true hva)]
      · rw [if_neg (fun hc => hva hc.2), if_neg (by simp [hva])]

theorem nInd_face1 (voxels : List Nat) (N : Nat) (nu ie : Bool)
    (t i j : Nat) (ht : t < N) (hi : i < N) (hj : j < N) :
    nInd voxels N 1 2 0 t i j =
      fInd (Chunk.mk N voxels nu ie) j t i Face.bottom := by
  unfold nInd fInd
  have hb : bVal voxels N 1 2 0 ((t : Int) - 1) i j =
      vAt voxels N j t i := by
    unfold bVal
    rw [if_pos (by omega)]
    show mGetVoxel voxels (N, N, N) ((j : Int), (((t : Int) - 1) + 1), (i : Int)) = vAt voxels N j t i
    rw [show (((t : Int) - 1) + 1) = ((t : Nat) : Int) from by ring]
    exact mGetVoxel_nat voxels N j t i
  have hgv : (Chunk.mk N voxels nu ie).getVoxel ((j : Nat) : Int)
      ((t : Nat) : Int) ((i : Nat) : Int) = vAt voxels N j t i :=
    getVoxel_nat voxels N nu ie j t i hj ht hi
  rw [hb, hgv, srf_bottom voxels N nu ie j t i hj ht hi]
  by_cases ht0 : t = 0
  · have ha : aVal voxels N 1 2 0 ((t : Int) - 1) i j = 0 :=
      aVal_of_neg voxels N 1 2 0 _ i j (by omega)
    rw [ha, decide_eq_true ht0, Bool.true_or]
    by_cases hvb : vAt voxels N j t i = 0
    · rw [if_pos hvb, if_neg (fun hc => hc.1 hvb.symm)]
    · rw [if_neg hvb, if_pos ⟨fun he => hvb he.symm, rfl⟩, if_pos rfl]
  · have ha : aVal voxels N 1 2 0 ((t : Int) - 1) i j =
        vAt voxels N j (t - 1) i := by
      unfold aVal
      rw [if_pos (by omega)]
      show mGetVoxel voxels (N, N, N) ((j : Int), ((t : Int) - 1), (i : Int)) =
        vAt voxels N j (t - 1) i
      rw [show ((t : Int) - 1) = ((t - 1 : Nat) : Int) from by omega]
      exact mGetVoxel_nat voxels N j (t - 1) i
    rw [ha, decide_eq_false ht0, Bool.false_or]
    by_cases hvb : vAt voxels N j t i = 0
    · rw [if_pos hvb, if_neg (fun hc => hc.1 (hc.2.trans hvb.symm))]
    · rw [if_neg hvb]
      by_cases hva : vAt voxels N j (t - 1) i = 0
      · rw [if_pos ⟨fun he => hvb (he.symm.trans hva), hva⟩,
          if_pos (decide_eq_true hva)]
      · rw [if_neg (fun hc => hva hc.2), if_neg (by simp [hva])]

theorem nInd_face2 (voxels : List Nat) (N : Nat) (nu ie : Bool)
    (t i j : Nat) (ht : t < N) (hi : i < N) (hj : j < N) :
    nInd voxels N 2 0 1 t i j =
      fInd (Chunk.mk N voxels nu ie) i j t Face.back := by
  unfold nInd fInd
  have hb : bVal voxels N 2 0 1 ((t : Int) - 1) i j =
      vAt voxels N i j t := by
    unfold bVal
    rw [if_pos (by omega)]
    show mGetVoxel voxels (N, N, N) ((i : Int), (j : Int), (((t : Int) - 1) + 1)) = vAt voxels N i j t
    rw [show (((t : Int) - 1) + 1) = ((t : Nat) : Int) from by ring]
    exact mGetVoxel_nat voxels N i j t
  have hgv : (Chunk.mk N voxels nu ie).getVoxel ((i : Nat) : Int)
      ((j : Nat) : Int) ((t : Nat) : Int) = vAt voxels N i j t :=
    getVoxel_nat voxels N nu ie i j t hi hj ht
  rw [hb, hgv, srf_back voxels N nu ie i j t hi hj ht]
  by_cases ht0 : t = 0
  · have ha : aVal voxels N 2 0 1 ((t : Int) - 1) i j = 0 :=
      aVal_of_neg voxels N 2 0 1 _ i j (by omega)
    rw [ha, decide_eq_true ht0, Bool.true_or]
    by_cases hvb : vAt voxels N i j t = 0
    · rw [if_pos hvb, if_neg (fun hc => hc.1 hvb.symm)]
    · rw [if_neg hvb, if_pos ⟨fun he => hvb he.symm, rfl⟩, if_pos rfl]
  · have ha : aVal voxels N 2 0 1 ((t : Int) - 1) i j =
        vAt voxels N i j (t - 1) := by
      unfold aVal
      rw [if_pos (by omega)]
      show mGetVoxel voxels (N, N, N) ((i : Int), (j : Int), ((t : Int) - 1)) =
        vAt voxels N i j (t - 1)
      rw [show ((t : Int) - 1) = ((t - 1 : Nat) : Int) from by omega]
      exact mGetVoxel_nat voxels N i j (t - 1)
    rw [ha, decide_eq_false ht0, Bool.false_or]
    by_cases hvb : vAt voxels N i j t = 0
    · rw [if_pos hvb, if_neg (fun hc => hc.1 (hc.2.trans hvb.symm))]
    · rw [if_neg hvb]
      by_cases hva : vAt voxels N i j (t - 1) = 0
      · rw [if_pos ⟨fun he => hvb (he.symm.trans hva), hva⟩,
          if_pos (decide_eq_true hva)]
      · rw [if_neg (fun hc => hva hc.2), if_neg (by simp [hva])]

theorem axis0_count (voxels : List Nat) (N : Nat)
    (hsep : sepGrid voxels N = true) (nu ie : Bool) :
    ∑ t ∈ Finset.range (N + 1),
      suppCountL (maskFn voxels (N, N, N) 0 1 2 ((t : Int) - 1))
        (List.range (N * N)) =
    (∑ x ∈ Finset.range N, ∑ y ∈ Finset.range N, ∑ z ∈ Finset.range N,
      fInd (Chunk.mk N voxels nu ie) x y z Face.right) +
    (∑ x ∈ Finset.range N, ∑ y ∈ Finset.range N, ∑ z ∈ Finset.range N,
      fInd (Chunk.mk N voxels nu ie) x y z Face.left) := by
  rw [axis_supp_sum]
  congr 1
  · refine Finset.sum_congr rfl (fun x hx => ?_)
    rw [Finset.sum_comm]
    refine Finset.sum_congr rfl (fun y hy =>
      Finset.sum_congr rfl (fun z hz => ?_))
    exact pInd_face0 voxels N hsep nu ie x y z (Finset.mem_range.mp hx)
      (Finset.mem_range.mp hy) (Finset.mem_range.mp hz)
  · refine Finset.sum_congr rfl (fun x hx => ?_)
    rw [Finset.sum_comm]
    refine Finset.sum_congr rfl (fun y hy =>
      Finset.sum_congr rfl (fun z hz => ?_))
    exact nInd_face0 voxels N nu ie x y z (Finset.mem_range.mp hx)
      (Finset.mem_range.mp hy) (Finset.mem_range.mp hz)

theorem axis1_count (voxels : List Nat) (N : Nat)
    (hsep : sepGrid voxels N = true) (nu ie : Bool) :
    ∑ t ∈ Finset.range (N + 1),
      suppCountL (maskFn voxels (N, N, N) 1 2 0 ((t : Int) - 1))
        (List.range (N * N)) =
    (∑ x ∈ Finset.range N, ∑ y ∈ Finset.range N, ∑ z ∈ Finset.range N,
      fInd (Chunk.mk N voxels nu ie) x y z Face.top) +
    (∑ x ∈ Finset.range N, ∑ y ∈ Finset.range N, ∑ z ∈ Finset.range N,
      fInd (Chunk.mk N voxels nu ie) x y z Face.bottom) := by
  rw [axis_supp_sum]
  congr 1
  · rw [Finset.sum_comm]
    refine Finset.sum_congr rfl (fun x hx => Finset.sum_congr rfl (fun y hy =>
      Finset.sum_congr rfl (fun z hz => ?_)))
    exact pInd_face1 voxels N hsep nu ie y z x (Finset.mem_range.mp hy)
      (Finset.mem_range.mp hz) (Finset.mem_range.mp hx)
  · rw [Finset.sum_comm]
    refine Finset.sum_congr rfl (fun x hx => Finset.sum_congr rfl (fun y hy =>
      Finset.sum_congr rfl (fun z hz => ?_)))
    exact nInd_face1 voxels N nu ie y z x (Finset.mem_range.mp hy)
      (Finset.mem_range.mp hz) (Finset.mem_range.mp hx)

theorem axis2_count (voxels : List Nat) (N : Nat)
    (hsep : sepGrid voxels N = true) (nu ie : Bool) :
    ∑ t ∈ Finset.range (N + 1),
      suppCountL (maskFn voxels (N, N, N) 2 0 1 ((t : Int) - 1))
        (List.range (N * N)) =
    (∑ x ∈ Finset.range N, ∑ y ∈ Finset.range N, ∑ z ∈ Finset.range N,
      fInd (Chunk.mk N voxels nu ie) x y z Face.front) +
    (∑ x ∈ Finset.range N, ∑ y ∈ Finset.range N, ∑ z ∈ Finset.range N,
      fInd (Chunk.mk N voxels nu ie) x y z Face.back) := by
  rw [axis_supp_sum]
  congr 1
  · rw [Finset.sum_congr rfl (fun s0 _ => (Finset.sum_comm : _))]
    rw [Finset.sum_comm]
    refine Finset.sum_congr rfl (fun x hx => ?_)
    rw [Finset.sum_comm]
    refine Finset.sum_congr rfl (fun y hy =>
      Finset.sum_congr rfl (fun z hz => ?_))
    exact pInd_face2 voxels N hsep nu ie z x y (Finset.mem_range.mp hz)
      (Finset.mem_range.mp hx) (Finset.mem_range.mp hy)
  · rw [Finset.sum_congr rfl (fun s0 _ => (Finset.sum_comm : _))]
    rw [Finset.sum_comm]
    refine Finset.sum_congr rfl (fun x hx => ?_)
    rw [Finset.sum_comm]
    refine Finset.sum_congr rfl (fun y hy =>
      Finset.sum_congr rfl (fun z hz => ?_))
    exact nInd_face2 voxels N nu ie z x y (Finset.mem_range.mp hz)
      (Finset.mem_range.mp hx) (Finset.mem_range.mp hy)

theorem sum3_split (N : Nat) (F G : Nat → Nat → Nat → Nat) :
    (∑ x ∈ Finset.range N, ∑ y ∈ Finset.range N, ∑ z ∈ Finset.range N,
      (F x y z + G x y z)) =
    (∑ x ∈ Finset.range N, ∑ y ∈ Finset.range N, ∑ z ∈ Finset.range N,
      F x y z) +
    (∑ x ∈ Finset.range N, ∑ y ∈ Finset.range N, ∑ z ∈ Finset.range N,
      G x y z) := by
  rw [← Finset.sum_add_distrib]
  refine Finset.sum_congr rfl (fun x _ => ?_)
  rw [← Finset.sum_add_distrib]
  exact Finset.sum_congr rfl (fun y _ => Finset.sum_add_distrib)

end GreedyMesher

/- ### Claim C1, revised: the equality direction -/

/-- The sweep axis to which a face's normal is parallel. -/
def faceAxis : Face → Nat
  | Face.left => 0
  | Face.right => 0
  | Face.bottom => 1
  | Face.top => 1
  | Face.back => 2
  | Face.front => 2

/-- `q` is the cell one step from `p` in the positive direction along an
axis other than `ax`; for faces whose normal axis is `ax`, the faces of
`p` and `q` then lie in one plane and are edge-adjacent. -/
def adjPerp (p q : Nat × Nat × Nat) (ax : Nat) : Prop :=
  (ax ≠ 0 ∧ q = (p.1 + 1, p.2.1, p.2.2)) ∨
  (ax ≠ 1 ∧ q = (p.1, p.2.1 + 1, p.2.2)) ∨
  (ax ≠ 2 ∧ q = (p.1, p.2.1, p.2.2 + 1))

/-- Two adjacent same-type coplanar faces of the naive mesh: two faces
of the same direction emitted by the naive mesher, lying in one plane,
edge-adjacent, whose owning cells hold the same block type. -/
def mergeablePair (c : Chunk) : Prop :=
  ∃ p q f, (p, f) ∈ naiveFaces c ∧ (q, f) ∈ naiveFaces c ∧
    adjPerp p q (faceAxis f) ∧
    c.getVoxel ((p.1 : Int)) ((p.2.1 : Int)) ((p.2.2 : Int)) =
      c.getVoxel ((q.1 : Int)) ((q.2.1 : Int)) ((q.2.2 : Int))

namespace GreedyMesher

theorem takeWhile_range_true (R : Nat) (p : Nat → Bool) (k : Nat)
    (hk : k < ((List.range R).takeWhile p).length) : p k = true := by
  have hpre : List.IsPrefix ((List.range R).takeWhile p) (List.range R) :=
    List.takeWhile_prefix p
  have hkR : k < (List.range R).length := Nat.lt_of_lt_of_le hk hpre.length_le
  have hge : ((List.range R).takeWhile p)[k] = (List.range R)[k] :=
    hpre.getElem hk
  have hrr : (List.range R)[k] = k := List.getElem_range _ hkR
  have hmem : ((List.range R).takeWhile p)[k] ∈ (List.range R).takeWhile p :=
    List.getElem_mem hk
  have hp := List.mem_takeWhile_imp hmem
  rwa [hge, hrr] at hp

theorem widthAt_le (U : Nat) (mask : Nat → Int) (n i : Nat) (hi : i < U) :
    widthAt U mask n i ≤ U - i := by
  unfold widthAt
  have h := (List.takeWhile_prefix
    (fun k => mask (n + (k + 1)) == mask n) :
      List.IsPrefix _ (List.range (U - i - 1))).length_le
  rw [List.length_range] at h
  omega

theorem widthAt_sound (U : Nat) (mask : Nat → Int) (n i k : Nat)
    (hk : k + 1 < widthAt U mask n i) : mask (n + (k + 1)) = mask n := by
  unfold widthAt at hk
  have hp := takeWhile_range_true (U - i - 1)
    (fun k => mask (n + (k + 1)) == mask n) k (by omega)
  exact beq_iff_eq.mp hp

theorem heightAt_le (U V : Nat) (mask : Nat → Int) (n j w : Nat)
    (hj : j < V) : heightAt U V mask n j w ≤ V - j := by
  unfold heightAt
  have h := (List.takeWhile_prefix
    (fun hh => (List.range w).all
      (fun k => mask (n + k + (hh + 1) * U) == mask n)) :
      List.IsPrefix _ (List.range (V - j - 1))).length_le
  rw [List.length_range] at h
  omega

theorem heightAt_sound (U V : Nat) (mask : Nat → Int) (n j w l k : Nat)
    (hl : l + 1 < heightAt U V mask n j w) (hk : k < w) :
    mask (n + k + (l + 1) * U) = mask n := by
  unfold heightAt at hl
  have hp := takeWhile_range_true (V - j - 1)
    (fun hh => (List.range w).all
      (fun k => mask (n + k + (hh + 1) * U) == mask n)) l (by omega)
  have hall := List.all_eq_true.mp hp k (List.mem_range.mpr hk)
  exact beq_iff_eq.mp hall

theorem widthAt_two (U : Nat) (mask : Nat → Int) (n i : Nat)
    (hi : i + 1 < U) (h : mask (n + 1) = mask n) :
    2 ≤ widthAt U mask n i := by
  unfold widthAt
  have h2 : 1 ≤ ((List.range (U - i - 1)).takeWhile
      (fun k => mask (n + (k + 1)) == mask n)).length := by
    obtain ⟨R, hR⟩ : ∃ R, U - i - 1 = R + 1 := ⟨U - i - 2, by omega⟩
    rw [hR, List.range_succ_eq_map,
      List.takeWhile_cons_of_pos (by exact beq_iff_eq.mpr h)]
    rw [List.length_cons]
    omega
  omega

theorem heightAt_two (U V : Nat) (mask : Nat → Int) (n j : Nat)
    (hj : j + 1 < V) (h : mask (n + U) = mask n) :
    2 ≤ heightAt U V mask n j 1 := by
  unfold heightAt
  have h2 : 1 ≤ ((List.range (V - j - 1)).takeWhile
      (fun hh => (List.range 1).all
        (fun k => mask (n + k + (hh + 1) * U) == mask n))).length := by
    obtain ⟨R, hR⟩ : ∃ R, V - j - 1 = R + 1 := ⟨V - j - 2, by omega⟩
    rw [hR, show List.range (R + 1) = 0 :: List.map Nat.succ (List.range R)
        from List.range_succ_eq_map R,
      List.takeWhile_cons_of_pos (by
        simp only [show List.range 1 = [0] from by decide, List.all_cons,
          List.all_nil, Bool.and_true]
        exact beq_iff_eq.mpr (by simpa using h))]
    rw [List.length_cons]
    omega
  omega

theorem zeroRect_zero (U : Nat) (mask : Nat → Int) (n w h k l : Nat)
    (hk : k < w) (hl : l < h) : zeroRect U mask n w h (n + k + l * U) = 0 := by
  unfold zeroRect
  rw [if_pos (List.any_eq_true.mpr ⟨l, List.mem_range.mpr hl,
    List.any_eq_true.mpr ⟨k, List.mem_range.mpr hk, by simp⟩⟩)]

theorem zeroRect_one_ne (U : Nat) (mask : Nat → Int) (n x : Nat)
    (hx : x ≠ n) : zeroRect U mask n 1 1 x = mask x := by
  unfold zeroRect
  rw [if_neg]
  simp only [show List.range 1 = [0] from by decide, List.any_cons,
    List.any_nil, Bool.or_false, beq_iff_eq]
  omega

theorem cell_inj (U i1 j1 i2 j2 : Nat) (h1 : i1 < U) (h2 : i2 < U)
    (he : i1 + j1 * U = i2 + j2 * U) : i1 = i2 ∧ j1 = j2 := by
  have hm1 : (i1 + j1 * U) % U = i1 := by
    rw [Nat.add_mul_mod_self_right]
    exact Nat.mod_eq_of_lt h1
  have hm2 : (i2 + j2 * U) % U = i2 := by
    rw [Nat.add_mul_mod_self_right]
    exact Nat.mod_eq_of_lt h2
  have hi : i1 = i2 := by rw [← hm1, ← hm2, he]
  refine ⟨hi, ?_⟩
  have hU : 0 < U := by omega
  have hjj : j1 * U = j2 * U := by omega
  exact Nat.eq_of_mul_eq_mul_right hU hjj

theorem suppCountL_drop2 (mp m : Nat → Int)
    (h : ∀ x, mp x = 0 ∨ mp x = m x) (n0 n1 : Nat) (hne : n0 ≠ n1)
    (h0p : mp n0 = 0) (h0 : m n0 ≠ 0) (h1p : mp n1 = 0) (h1 : m n1 ≠ 0) :
    ∀ L : List Nat, n0 ∈ L → n1 ∈ L →
      suppCountL mp L + 2 ≤ suppCountL m L := by
  intro L
  induction L with
  | nil => intro hm; exact absurd hm (List.not_mem_nil _)
  | cons a t ih =>
    intro hm0 hm1
    unfold suppCountL at ih ⊢
    rw [List.filter_cons, List.filter_cons]
    by_cases ha0 : a = n0
    · subst ha0
      have hm1t : n1 ∈ t := by
        rcases List.mem_cons.mp hm1 with he | ht
        · exact absurd he.symm hne
        · exact ht
      rw [if_neg (by simp [h0p]), if_pos (decide_eq_true h0)]
      simp only [List.length_cons]
      have hd := suppCountL_drop mp m h n1 h1p h1 t hm1t
      unfold suppCountL at hd
      omega
    · by_cases ha1 : a = n1
      · subst ha1
        have hm0t : n0 ∈ t := by
          rcases List.mem_cons.mp hm0 with he | ht
          · exact absurd he hne
          · exact ht
        rw [if_neg (by simp [h1p]), if_pos (decide_eq_true h1)]
        simp only [List.length_cons]
        have hd := suppCountL_drop mp m h n0 h0p h0 t hm0t
        unfold suppCountL at hd
        omega
      · have hm0t : n0 ∈ t := by
          rcases List.mem_cons.mp hm0 with he | ht
          · exact absurd he.symm ha0
          · exact ht
        have hm1t : n1 ∈ t := by
          rcases List.mem_cons.mp hm1 with he | ht
          · exact absurd he.symm ha1
          · exact ht
        have hih := ih hm0t hm1t
        by_cases hmp : mp a ≠ 0
        · have hma : m a ≠ 0 := by
            rcases h a with hz | he
            · exact absurd hz hmp
            · rw [← he]; exact hmp
          rw [if_pos (decide_eq_true hmp), if_pos (decide_eq_true hma)]
          simp only [List.length_cons]
          omega
        · rw [if_neg (by simp [hmp])]
          by_cases hma : m a ≠ 0
          · rw [if_pos (decide_eq_true hma)]
            simp only [List.length_cons]
            omega
          · rw [if_neg (by simp [hma])]
            exact hih


/-- Two horizontally or vertically adjacent mask cells holding the same
non-zero value: the configuration the greedy scan always merges into a
rectangle of area at least 2. -/
def hasPair (U V : Nat) (m : Nat → Int) : Prop :=
  ∃ i j, (i + 1 < U ∧ j < V ∧ m (i + j * U) ≠ 0 ∧
      m (i + 1 + j * U) = m (i + j * U)) ∨
    (i < U ∧ j + 1 < V ∧ m (i + j * U) ≠ 0 ∧
      m (i + (j + 1) * U) = m (i + j * U))

theorem scanRowGo_clears (U V j : Nat) : ∀ (fuel i : Nat) (m : Nat → Int),
    U ≤ fuel + i →
    (∀ i2, i2 < i → m (i2 + j * U) = 0) →
    ∀ i2, i2 < U → (scanRowGo U V j fuel i m).2 (i2 + j * U) = 0 := by
  intro fuel
  induction fuel with
  | zero =>
    intro i m hfuel hpre i2 hi2
    exact hpre i2 (by omega)
  | succ fuel ih =>
    intro i m hfuel hpre i2 hi2
    by_cases hi : i < U
    · by_cases hm : m (i + j * U) = 0
      · rw [scanRowGo_skip U V j (fuel + 1) i m (Nat.succ_pos fuel) hi hm]
        simp only [Nat.add_sub_cancel]
        refine ih (i + 1) m (by omega) (fun i3 hi3 => ?_) i2 hi2
        by_cases hi3e : i3 = i
        · rw [hi3e]; exact hm
        · exact hpre i3 (by omega)
      · rw [scanRowGo_emit U V j (fuel + 1) i m (Nat.succ_pos fuel) hi hm]
        simp only [Nat.add_sub_cancel]
        have hw := widthAt_pos U m (i + j * U) i
        refine ih (i + widthAt U m (i + j * U) i)
          (zeroRect U m (i + j * U) (widthAt U m (i + j * U) i)
            (heightAt U V m (i + j * U) j (widthAt U m (i + j * U) i)))
          (by omega) (fun i3 hi3 => ?_) i2 hi2
        by_cases hi3lt : i3 < i
        · rcases zeroRect_cases U m (i + j * U) (widthAt U m (i + j * U) i)
            (heightAt U V m (i + j * U) j (widthAt U m (i + j * U) i))
            (i3 + j * U) with hz | he
          · exact hz
          · rw [he]; exact hpre i3 hi3lt
        · rw [show i3 + j * U = (i + j * U) + (i3 - i) + 0 * U from by omega]
          exact zeroRect_zero U m (i + j * U) _ _ (i3 - i) 0 (by omega)
            (heightAt_pos U V m (i + j * U) j _)
    · rw [scanRowGo_stop U V j (fuel + 1) i m hi]
      exact hpre i2 (by omega)

theorem scanRowGo_strict (U V j : Nat) (hj : j < V) :
    ∀ (fuel i : Nat) (m : Nat → Int),
    U ≤ fuel + i →
    (∀ i2, i2 < i → m (i2 + j * U) = 0) →
    (∀ i2 j2, i2 < U → j2 < j → m (i2 + j2 * U) = 0) →
    hasPair U V m →
    ((scanRowGo U V j fuel i m).1.length +
        suppCountL (scanRowGo U V j fuel i m).2 (List.range (U * V)) + 1 ≤
      suppCountL m (List.range (U * V))) ∨
    hasPair U V (scanRowGo U V j fuel i m).2 := by
  intro fuel
  induction fuel with
  | zero =>
    intro i m hfuel hpre hrows hpair
    exact Or.inr hpair
  | succ fuel ih =>
    intro i m hfuel hpre hrows hpair
    by_cases hi : i < U
    · by_cases hm : m (i + j * U) = 0
      · rw [scanRowGo_skip U V j (fuel + 1) i m (Nat.succ_pos fuel) hi hm]
        simp only [Nat.add_sub_cancel]
        refine ih (i + 1) m (by omega) (fun i3 hi3 => ?_) hrows hpair
        by_cases hi3e : i3 = i
        · rw [hi3e]; exact hm
        · exact hpre i3 (by omega)
      · rw [scanRowGo_emit U V j (fuel + 1) i m (Nat.succ_pos fuel) hi hm]
        simp only [Nat.add_sub_cancel, List.length_cons]
        by_cases hbig : widthAt U m (i + j * U) i = 1 ∧
            heightAt U V m (i + j * U) j (widthAt U m (i + j * U) i) = 1
        · -- a 1×1 rectangle: the pair cannot touch the anchor, so it
          -- survives into the zeroed mask
          obtain ⟨hw1, hh1⟩ := hbig
          rw [hh1, hw1]
          have hU : 0 < U := by omega
          have hnofix : ∀ a b : Nat, a < U → (a ≠ i ∨ b ≠ j) →
              a + b * U ≠ i + j * U := by
            intro a b ha hor hEq
            rcases cell_inj U a b i j ha hi hEq with ⟨hc1, hc2⟩
            rcases hor with hx | hx
            · exact hx hc1
            · exact hx hc2
          have hsurv : hasPair U V (zeroRect U m (i + j * U) 1 1) := by
            obtain ⟨i0, j0, hp⟩ := hpair
            rcases hp with ⟨hi0, hj0, hne0, heq0⟩ | ⟨hi0, hj0, hne0, heq0⟩
            · rcases Nat.lt_trichotomy j0 j with hjlt | hjeq | hjgt
              · exact absurd (hrows i0 j0 (by omega) hjlt) hne0
              · rw [hjeq] at hj0 hne0 heq0
                rcases Nat.lt_trichotomy i0 i with hilt | hieq | higt
                · exact absurd (hpre i0 hilt) hne0
                · rw [hieq] at hi0 hne0 heq0
                  have h2 := widthAt_two U m (i + j * U) i hi0 (by
                    rw [show i + j * U + 1 = i + 1 + j * U from by omega]
                    exact heq0)
                  omega
                · refine ⟨i0, j, Or.inl ⟨hi0, hj, ?_, ?_⟩⟩
                  · rw [zeroRect_one_ne U m (i + j * U) (i0 + j * U)
                      (hnofix i0 j (by omega) (Or.inl (by omega)))]
                    exact hne0
                  · rw [zeroRect_one_ne U m (i + j * U) (i0 + 1 + j * U)
                      (hnofix (i0 + 1) j (by omega) (Or.inl (by omega))),
                      zeroRect_one_ne U m (i + j * U) (i0 + j * U)
                      (hnofix i0 j (by omega) (Or.inl (by omega)))]
                    exact heq0
              · refine ⟨i0, j0, Or.inl ⟨hi0, hj0, ?_, ?_⟩⟩
                · rw [zeroRect_one_ne U m (i + j * U) (i0 + j0 * U)
                    (hnofix i0 j0 (by omega) (Or.inr (by omega)))]
                  exact hne0
                · rw [zeroRect_one_ne U m (i + j * U) (i0 + 1 + j0 * U)
                    (hnofix (i0 + 1) j0 (by omega) (Or.inr (by omega))),
                    zeroRect_one_ne U m (i + j * U) (i0 + j0 * U)
                    (hnofix i0 j0 (by omega) (Or.inr (by omega)))]
                  exact heq0
            · rcases Nat.lt_trichotomy j0 j with hjlt | hjeq | hjgt
              · exact absurd (hrows i0 j0 hi0 hjlt) hne0
              · rw [hjeq] at hj0 hne0 heq0
                rcases Nat.lt_trichotomy i0 i with hilt | hieq | higt
                · exact absurd (hpre i0 hilt) hne0
                · rw [hieq] at hi0 hne0 heq0
                  have hh1w : heightAt U V m (i + j * U) j 1 = 1 := hw1 ▸ hh1
                  have h2 := heightAt_two U V m (i + j * U) j hj0 (by
                    rw [show i + j * U + U = i + (j + 1) * U from by ring]
                    exact heq0)
                  omega
                · refine ⟨i0, j, Or.inr ⟨hi0, hj0, ?_, ?_⟩⟩
                  · rw [zeroRect_one_ne U m (i + j * U) (i0 + j * U)
                      (hnofix i0 j hi0 (Or.inl (by omega)))]
                    exact hne0
                  · rw [zeroRect_one_ne U m (i + j * U) (i0 + (j + 1) * U)
                      (hnofix i0 (j + 1) hi0 (Or.inr (by omega))),
                      zeroRect_one_ne U m (i + j * U) (i0 + j * U)
                      (hnofix i0 j hi0 (Or.inl (by omega)))]
                    exact heq0
              · refine ⟨i0, j0, Or.inr ⟨hi0, hj0, ?_, ?_⟩⟩
                · rw [zeroRect_one_ne U m (i + j * U) (i0 + j0 * U)
                    (hnofix i0 j0 hi0 (Or.inr (by omega)))]
                  exact hne0
                · rw [zeroRect_one_ne U m (i + j * U) (i0 + (j0 + 1) * U)
                    (hnofix i0 (j0 + 1) hi0 (Or.inr (by omega))),
                    zeroRect_one_ne U m (i + j * U) (i0 + j0 * U)
                    (hnofix i0 j0 hi0 (Or.inr (by omega)))]
                  exact heq0
          have hpre2 : ∀ i3, i3 < i + 1 →
              zeroRect U m (i + j * U) 1 1 (i3 + j * U) = 0 := by
            intro i3 hi3
            by_cases hie : i3 = i
            · rw [hie]
              exact zeroRect_anchor U m (i + j * U) 1 1 (by omega) (by omega)
            · rcases zeroRect_cases U m (i + j * U) 1 1 (i3 + j * U)
                with hz | he
              · exact hz
              · rw [he]; exact hpre i3 (by omega)
          have hrows2 : ∀ i2 j2, i2 < U → j2 < j →
              zeroRect U m (i + j * U) 1 1 (i2 + j2 * U) = 0 := by
            intro i2 j2 hi2 hj2
            rcases zeroRect_cases U m (i + j * U) 1 1 (i2 + j2 * U)
              with hz | he
            · exact hz
            · rw [he]; exact hrows i2 j2 hi2 hj2
          have hanch : suppCountL (zeroRect U m (i + j * U) 1 1)
              (List.range (U * V)) + 1 ≤ suppCountL m (List.range (U * V)) :=
            suppCountL_drop (zeroRect U m (i + j * U) 1 1) m
              (fun x => zeroRect_cases U m (i + j * U) 1 1 x) (i + j * U)
              (zeroRect_anchor U m (i + j * U) 1 1 (by omega) (by omega)) hm
              (List.range (U * V))
              (List.mem_range.mpr (cell_lt_area U V i j hi hj))
          rcases ih (i + 1) (zeroRect U m (i + j * U) 1 1) (by omega) hpre2
            hrows2 hsurv with hl | hr
          · exact Or.inl (by omega)
          · exact Or.inr hr
        · -- a rectangle of area ≥ 2: it consumes two distinct non-zero
          -- cells, and the plain count bound covers the rest of the scan
          have hw := widthAt_pos U m (i + j * U) i
          have hh := heightAt_pos U V m (i + j * U) j
            (widthAt U m (i + j * U) i)
          have hwle := widthAt_le U m (i + j * U) i hi
          have hhle := heightAt_le U V m (i + j * U) j
            (widthAt U m (i + j * U) i) hj
          obtain ⟨c2, hc2ne, hc2m, hc2z, hc2lt⟩ :
              ∃ c2, c2 ≠ i + j * U ∧ m c2 ≠ 0 ∧
                zeroRect U m (i + j * U) (widthAt U m (i + j * U) i)
                  (heightAt U V m (i + j * U) j
                    (widthAt U m (i + j * U) i)) c2 = 0 ∧
                c2 < U * V := by
            by_cases hw2 : 2 ≤ widthAt U m (i + j * U) i
            · refine ⟨i + j * U + 1, by omega, ?_, ?_, ?_⟩
              · have hs : m (i + j * U + 1) = m (i + j * U) :=
                  widthAt_sound U m (i + j * U) i 0 (by omega)
                rw [hs]
                exact hm
              · rw [show i + j * U + 1 = (i + j * U) + 1 + 0 * U from by omega]
                exact zeroRect_zero U m (i + j * U) _ _ 1 0 (by omega) (by omega)
              · have hi1 : i + 1 < U := by omega
                have := cell_lt_area U V (i + 1) j hi1 hj
                omega
            · have hwe1 : widthAt U m (i + j * U) i = 1 := by omega
              have hh2 : 2 ≤ heightAt U V m (i + j * U) j
                  (widthAt U m (i + j * U) i) := by
                by_contra hc
                exact hbig ⟨hwe1, by omega⟩
              refine ⟨i + j * U + U, by omega, ?_, ?_, ?_⟩
              · have hs0 := heightAt_sound U V m (i + j * U) j
                  (widthAt U m (i + j * U) i) 0 0 (by omega) (by omega)
                have hs : m (i + j * U + U) = m (i + j * U) := by
                  rw [show i + j * U + U = i + j * U + 0 + (0 + 1) * U
                    from by ring]
                  exact hs0
                rw [hs]
                exact hm
              · rw [show i + j * U + U = (i + j * U) + 0 + 1 * U from by ring]
                exact zeroRect_zero U m (i + j * U) _ _ 0 1 (by omega) (by omega)
              · have hj1 : j + 1 < V := by omega
                have hca := cell_lt_area U V i (j + 1) hi hj1
                have hexp : (j + 1) * U = j * U + U := by ring
                omega
          have hdrop2 : suppCountL (zeroRect U m (i + j * U)
              (widthAt U m (i + j * U) i)
              (heightAt U V m (i + j * U) j (widthAt U m (i + j * U) i)))
              (List.range (U * V)) + 2 ≤
              suppCountL m (List.range (U * V)) :=
            suppCountL_drop2 (zeroRect U m (i + j * U)
                (widthAt U m (i + j * U) i)
                (heightAt U V m (i + j * U) j (widthAt U m (i + j * U) i))) m
              (fun x => zeroRect_cases U m (i + j * U)
                (widthAt U m (i + j * U) i)
                (heightAt U V m (i + j * U) j
                  (widthAt U m (i + j * U) i)) x)
              (i + j * U) c2 (fun hq => hc2ne hq.symm)
              (zeroRect_anchor U m (i + j * U)
                (widthAt U m (i + j * U) i)
                (heightAt U V m (i + j * U) j (widthAt U m (i + j * U) i))
                hw hh)
              hm hc2z hc2m (List.range (U * V))
              (List.mem_range.mpr (cell_lt_area U V i j hi hj))
              (List.mem_range.mpr hc2lt)
          obtain ⟨hcnt, hpt⟩ := scanRowGo_count U V j hj fuel
            (i + widthAt U m (i + j * U) i)
            (zeroRect U m (i + j * U) (widthAt U m (i + j * U) i)
              (heightAt U V m (i + j * U) j (widthAt U m (i + j * U) i)))
          exact Or.inl (by omega)
    · rw [scanRowGo_stop U V j (fuel + 1) i m hi]
      exact Or.inr hpair

theorem scanRows_strict (U V : Nat) : ∀ (fuel j : Nat) (m : Nat → Int),
    V ≤ fuel + j →
    (∀ i2 j2, i2 < U → j2 < j → m (i2 + j2 * U) = 0) →
    hasPair U V m →
    (scanRows U V fuel j m).length + 1 ≤ suppCountL m (List.range (U * V)) := by
  intro fuel
  induction fuel with
  | zero =>
    intro j m hfuel hrows hpair
    obtain ⟨i0, j0, hp⟩ := hpair
    rcases hp with ⟨hi0, hj0, hne0, heq0⟩ | ⟨hi0, hj0, hne0, heq0⟩
    · exact absurd (hrows i0 j0 (by omega) (by omega)) hne0
    · exact absurd (hrows i0 j0 hi0 (by omega)) hne0
  | succ fuel ih =>
    intro j m hfuel hrows hpair
    by_cases hj : j < V
    · rw [scanRows_step U V (fuel + 1) j m (Nat.succ_pos fuel) hj]
      simp only [Nat.add_sub_cancel, List.length_append]
      obtain ⟨hcnt, hpt⟩ := scanRowGo_count U V j hj U 0 m
      rcases scanRowGo_strict U V j hj U 0 m (by omega)
        (fun i2 hi2 => absurd hi2 (Nat.not_lt_zero i2)) hrows hpair
        with hl | hr
      · have h2 := scanRows_count U V fuel (j + 1) (scanRowGo U V j U 0 m).2
        omega
      · have hclr := scanRowGo_clears U V j U 0 m (by omega)
          (fun i2 hi2 => absurd hi2 (Nat.not_lt_zero i2))
        have hrows2 : ∀ i2 j2, i2 < U → j2 < j + 1 →
            (scanRowGo U V j U 0 m).2 (i2 + j2 * U) = 0 := by
          intro i2 j2 hi2 hj2
          by_cases hje : j2 = j
          · rw [hje]; exact hclr i2 hi2
          · rcases hpt (i2 + j2 * U) with hz | he
            · exact hz
            · rw [he]; exact hrows i2 j2 hi2 (by omega)
        have h2 := ih (j + 1) (scanRowGo U V j U 0 m).2 (by omega) hrows2 hr
        omega
    · obtain ⟨i0, j0, hp⟩ := hpair
      rcases hp with ⟨hi0, hj0, hne0, heq0⟩ | ⟨hi0, hj0, hne0, heq0⟩
      · exact absurd (hrows i0 j0 (by omega) (by omega)) hne0
      · exact absurd (hrows i0 j0 hi0 (by omega)) hne0

/-- A mask holding two adjacent equal non-zero cells loses strictly more
cells than quads in a greedy scan. -/
theorem scanMask_strict (U V : Nat) (m : Nat → Int) (hp : hasPair U V m) :
    (scanMask U V m).length + 1 ≤ suppCountL m (List.range (U * V)) :=
  scanRows_strict U V V 0 m (by omega)
    (fun i2 j2 hi2 hj2 => absurd hj2 (Nat.not_lt_zero j2)) hp


theorem naiveFaces_mem (c : Chunk) (p : Nat × Nat × Nat) (f : Face)
    (h : (p, f) ∈ naiveFaces c) :
    p.1 < c.size ∧ p.2.1 < c.size ∧ p.2.2 < c.size ∧
    c.getVoxel ((p.1 : Int)) ((p.2.1 : Int)) ((p.2.2 : Int)) ≠ 0 ∧
    c.shouldRenderFace (fun _ => none) ((p.1 : Int)) ((p.2.1 : Int))
      ((p.2.2 : Int)) f = true := by
  unfold naiveFaces at h
  rw [List.mem_flatMap] at h
  obtain ⟨x, hx, h⟩ := h
  rw [List.mem_flatMap] at h
  obtain ⟨y, hy, h⟩ := h
  rw [List.mem_flatMap] at h
  obtain ⟨z, hz, h⟩ := h
  rw [List.mem_range] at hx hy hz
  by_cases hv : c.getVoxel ((x : Int)) ((y : Int)) ((z : Int)) = 0
  · rw [if_pos hv] at h
    exact absurd h (List.not_mem_nil _)
  · rw [if_neg hv] at h
    rw [List.mem_map] at h
    obtain ⟨g, hg, hge⟩ := h
    rw [List.mem_filter] at hg
    obtain ⟨hgl, hgp⟩ := hg
    have hpe : p = (x, y, z) := (congrArg Prod.fst hge).symm
    have hfe : g = f := congrArg Prod.snd hge
    subst hpe
    rw [hfe] at hgp
    exact ⟨hx, hy, hz, hv, hgp⟩

theorem mask_val_right (voxels : List Nat) (N : Nat) (nu ie : Bool)
    (x y z : Nat) (hx : x < N) (hy : y < N) (hz : z < N)
    (hv : vAt voxels N x y z ≠ 0)
    (hr : (Chunk.mk N voxels nu ie).shouldRenderFace (fun _ => none)
      ((x : Int)) ((y : Int)) ((z : Int)) Face.right = true) :
    maskFn voxels (N, N, N) 0 1 2 (((x + 1 : Nat) : Int) - 1) (y + z * N) =
      ((vAt voxels N x y z : Nat) : Int) := by
  rw [show ((x + 1 : Nat) : Int) - 1 = ((x : Nat) : Int)
    from by push_cast; ring]
  rw [maskFn_cell voxels N 0 1 2 ((x : Int)) y z hy hz]
  have ha : aVal voxels N 0 1 2 ((x : Int)) y z = vAt voxels N x y z := by
    unfold aVal
    rw [if_pos (Int.ofNat_nonneg x)]
    exact mGetVoxel_nat voxels N x y z
  have hb : bVal voxels N 0 1 2 ((x : Int)) y z = 0 := by
    rw [srf_right voxels N nu ie x y z hx hy hz] at hr
    rcases (Bool.or_eq_true _ _).mp hr with h1 | h2
    · exact bVal_of_last voxels N 0 1 2 ((x : Int)) y z
        (by have := of_decide_eq_true h1; omega)
    · have h2v := of_decide_eq_true h2
      unfold bVal
      by_cases hc : ((x : Int)) < (N : Int) - 1
      · rw [if_pos hc]
        show mGetVoxel voxels (N, N, N) (((x : Int) + 1), ((y : Int)), ((z : Int))) = 0
        rw [show ((x : Int) + 1) = (((x + 1 : Nat)) : Int)
          from by push_cast; ring]
        rw [mGetVoxel_nat voxels N (x + 1) y z]
        exact h2v
      · rw [if_neg hc]
  rw [ha, hb, if_neg hv, if_pos hv]

theorem mask_val_top (voxels : List Nat) (N : Nat) (nu ie : Bool)
    (x y z : Nat) (hx : x < N) (hy : y < N) (hz : z < N)
    (hv : vAt voxels N x y z ≠ 0)
    (hr : (Chunk.mk N voxels nu ie).shouldRenderFace (fun _ => none)
      ((x : Int)) ((y : Int)) ((z : Int)) Face.top = true) :
    maskFn voxels (N, N, N) 1 2 0 (((y + 1 : Nat) : Int) - 1) (z + x * N) =
      ((vAt voxels N x y z : Nat) : Int) := by
  rw [show ((y + 1 : Nat) : Int) - 1 = ((y : Nat) : Int)
    from by push_cast; ring]
  rw [maskFn_cell voxels N 1 2 0 ((y : Int)) z x hz hx]
  have ha : aVal voxels N 1 2 0 ((y : Int)) z x = vAt voxels N x y z := by
    unfold aVal
    rw [if_pos (Int.ofNat_nonneg y)]
    exact mGetVoxel_nat voxels N x y z
  have hb : bVal voxels N 1 2 0 ((y : Int)) z x = 0 := by
    rw [srf_top voxels N nu ie x y z hx hy hz] at hr
    rcases (Bool.or_eq_true _ _).mp hr with h1 | h2
    · exact bVal_of_last voxels N 1 2 0 ((y : Int)) z x
        (by have := of_decide_eq_true h1; omega)
    · have h2v := of_decide_eq_true h2
      unfold bVal
      by_cases hc : ((y : Int)) < (N : Int) - 1
      · rw [if_pos hc]
        show mGetVoxel voxels (N, N, N) (((x : Int)), ((y : Int) + 1), ((z : Int))) = 0
        rw [show ((y : Int) + 1) = (((y + 1 : Nat)) : Int)
          from by push_cast; ring]
        rw [mGetVoxel_nat voxels N x (y + 1) z]
        exact h2v
      · rw [if_neg hc]
  rw [ha, hb, if_neg hv, if_pos hv]

theorem mask_val_front (voxels : List Nat) (N : Nat) (nu ie : Bool)
    (x y z : Nat) (hx : x < N) (hy : y < N) (hz : z < N)
    (hv : vAt voxels N x y z ≠ 0)
    (hr : (Chunk.mk N voxels nu ie).shouldRenderFace (fun _ => none)
      ((x : Int)) ((y : Int)) ((z : Int)) Face.front = true) :
    maskFn voxels (N, N, N) 2 0 1 (((z + 1 : Nat) : Int) - 1) (x + y * N) =
      ((vAt voxels N x y z : Nat) : Int) := by
  rw [show ((z + 1 : Nat) : Int) - 1 = ((z : Nat) : Int)
    from by push_cast; ring]
  rw [maskFn_cell voxels N 2 0 1 ((z : Int)) x y hx hy]
  have ha : aVal voxels N 2 0 1 ((z : Int)) x y = vAt voxels N x y z := by
    unfold aVal
    rw [if_pos (Int.ofNat_nonneg z)]
    exact mGetVoxel_nat voxels N x y z
  have hb : bVal voxels N 2 0 1 ((z : Int)) x y = 0 := by
    rw [srf_front voxels N nu ie x y z hx hy hz] at hr
    rcases (Bool.or_eq_true _ _).mp hr with h1 | h2
    · exact bVal_of_last voxels N 2 0 1 ((z : Int)) x y
        (by have := of_decide_eq_true h1; omega)
    · have h2v := of_decide_eq_true h2
      unfold bVal
      by_cases hc : ((z : Int)) < (N : Int) - 1
      · rw [if_pos hc]
        show mGetVoxel voxels (N, N, N) (((x : Int)), ((y : Int)), ((z : Int) + 1)) = 0
        rw [show ((z : Int) + 1) = (((z + 1 : Nat)) : Int)
          from by push_cast; ring]
        rw [mGetVoxel_nat voxels N x y (z + 1)]
        exact h2v
      · rw [if_neg hc]
  rw [ha, hb, if_neg hv, if_pos hv]

theorem mask_val_left (voxels : List Nat) (N : Nat) (nu ie : Bool)
    (x y z : Nat) (hx : x < N) (hy : y < N) (hz : z < N)
    (hv : vAt voxels N x y z ≠ 0)
    (hr : (Chunk.mk N voxels nu ie).shouldRenderFace (fun _ => none)
      ((x : Int)) ((y : Int)) ((z : Int)) Face.left = true) :
    maskFn voxels (N, N, N) 0 1 2 (((x : Nat) : Int) - 1) (y + z * N) =
      -((vAt voxels N x y z : Nat) : Int) := by
  rw [maskFn_cell voxels N 0 1 2 ((x : Int) - 1) y z hy hz]
  have hb : bVal voxels N 0 1 2 ((x : Int) - 1) y z = vAt voxels N x y z := by
    unfold bVal
    rw [if_pos (by omega)]
    show mGetVoxel voxels (N, N, N) ((((x : Int) - 1) + 1), ((y : Int)), ((z : Int))) = vAt voxels N x y z
    rw [show (((x : Int) - 1) + 1) = ((x : Nat) : Int) from by ring]
    exact mGetVoxel_nat voxels N x y z
  have ha : aVal voxels N 0 1 2 ((x : Int) - 1) y z = 0 := by
    rw [srf_left voxels N nu ie x y z hx hy hz] at hr
    rcases (Bool.or_eq_true _ _).mp hr with h1 | h2
    · exact aVal_of_neg voxels N 0 1 2 _ y z
        (by have := of_decide_eq_true h1; omega)
    · have h2v := of_decide_eq_true h2
      unfold aVal
      by_cases hc : (0 : Int) ≤ (x : Int) - 1
      · rw [if_pos hc]
        show mGetVoxel voxels (N, N, N) (((x : Int) - 1), ((y : Int)), ((z : Int))) = 0
        rw [show ((x : Int) - 1) = ((x - 1 : Nat) : Int) from by omega]
        rw [mGetVoxel_nat voxels N (x - 1) y z]
        exact h2v
      · rw [if_neg hc]
  rw [ha, hb, if_neg (fun hq => hv hq.symm), if_neg (fun hq => hq rfl)]

theorem mask_val_bottom (voxels : List Nat) (N : Nat) (nu ie : Bool)
    (x y z : Nat) (hx : x < N) (hy : y < N) (hz : z < N)
    (hv : vAt voxels N x y z ≠ 0)
    (hr : (Chunk.mk N voxels nu ie).shouldRenderFace (fun _ => none)
      ((x : Int)) ((y : Int)) ((z : Int)) Face.bottom = true) :
    maskFn voxels (N, N, N) 1 2 0 (((y : Nat) : Int) - 1) (z + x * N) =
      -((vAt voxels N x y z : Nat) : Int) := by
  rw [maskFn_cell voxels N 1 2 0 ((y : Int) - 1) z x hz hx]
  have hb : bVal voxels N 1 2 0 ((y : Int) - 1) z x = vAt voxels N x y z := by
    unfold bVal
    rw [if_pos (by omega)]
    show mGetVoxel voxels (N, N, N) (((x : Int)), (((y : Int) - 1) + 1), ((z : Int))) = vAt voxels N x y z
    rw [show (((y : Int) - 1) + 1) = ((y : Nat) : Int) from by ring]
    exact mGetVoxel_nat voxels N x y z
  have ha : aVal voxels N 1 2 0 ((y : Int) - 1) z x = 0 := by
    rw [srf_bottom voxels N nu ie x y z hx hy hz] at hr
    rcases (Bool.or_eq_true _ _).mp hr with h1 | h2
    · exact aVal_of_neg voxels N 1 2 0 _ z x
        (by have := of_decide_eq_true h1; omega)
    · have h2v := of_decide_eq_true h2
      unfold aVal
      by_cases hc : (0 : Int) ≤ (y : Int) - 1
      · rw [if_pos hc]
        show mGetVoxel voxels (N, N, N) (((x : Int)), ((y : Int) - 1), ((z : Int))) = 0
        rw [show ((y : Int) - 1) = ((y - 1 : Nat) : Int) from by omega]
        rw [mGetVoxel_nat voxels N x (y - 1) z]
        exact h2v
      · rw [if_neg hc]
  rw [ha, hb, if_neg (fun hq => hv hq.symm), if_neg (fun hq => hq rfl)]

theorem mask_val_back (voxels : List Nat) (N : Nat) (nu ie : Bool)
    (x y z : Nat) (hx : x < N) (hy : y < N) (hz : z < N)
    (hv : vAt voxels N x y z ≠ 0)
    (hr : (Chunk.mk N voxels nu ie).shouldRenderFace (fun _ => none)
      ((x : Int)) ((y : Int)) ((z : Int)) Face.back = true) :
    maskFn voxels (N, N, N) 2 0 1 (((z : Nat) : Int) - 1) (x + y * N) =
      -((vAt voxels N x y z : Nat) : Int) := by
  rw [maskFn_cell voxels N 2 0 1 ((z : Int) - 1) x y hx hy]
  have hb : bVal voxels N 2 0 1 ((z : Int) - 1) x y = vAt voxels N x y z := by
    unfold bVal
    rw [if_pos (by omega)]
    show mGetVoxel voxels (N, N, N) (((x : Int)), ((y : Int)), (((z : Int) - 1) + 1)) = vAt voxels N x y z
    rw [show (((z : Int) - 1) + 1) = ((z : Nat) : Int) from by ring]
    exact mGetVoxel_nat voxels N x y z
  have ha : aVal voxels N 2 0 1 ((z : Int) - 1) x y = 0 := by
    rw [srf_back voxels N nu ie x y z hx hy hz] at hr
    rcases (Bool.or_eq_true _ _).mp hr with h1 | h2
    · exact aVal_of_neg voxels N 2 0 1 _ x y
        (by have := of_decide_eq_true h1; omega)
    · have h2v := of_decide_eq_true h2
      unfold aVal
      by_cases hc : (0 : Int) ≤ (z : Int) - 1
      · rw [if_pos hc]
        show mGetVoxel voxels (N, N, N) (((x : Int)), ((y : Int)), ((z : Int) - 1)) = 0
        rw [show ((z : Int) - 1) = ((z - 1 : Nat) : Int) from by omega]
        rw [mGetVoxel_nat voxels N x y (z - 1)]
        exact h2v
      · rw [if_neg hc]
  rw [ha, hb, if_neg (fun hq => hv hq.symm), if_neg (fun hq => hq rfl)]

theorem greedy_eq_scan (voxels : List Nat) (N : Nat) :
    (meshQuads voxels (N, N, N)).length =
      (∑ t ∈ Finset.range (N + 1),
        (scanMask N N (maskFn voxels (N, N, N) 0 1 2 ((t : Int) - 1))).length) +
      (∑ t ∈ Finset.range (N + 1),
        (scanMask N N (maskFn voxels (N, N, N) 1 2 0 ((t : Int) - 1))).length) +
      (∑ t ∈ Finset.range (N + 1),
        (scanMask N N (maskFn voxels (N, N, N) 2 0 1 ((t : Int) - 1))).length) := by
  unfold meshQuads
  rw [List.length_append, List.length_append, List.length_map,
    List.length_map, List.length_map, axisQuads_length, axisQuads_length,
    axisQuads_length]
  simp only [dimGet_cube]

theorem naive_eq_supp (N : Nat) (voxels : List Nat)
    (hsep : sepGrid voxels N = true) (nu ie : Bool) :
    naiveFaceCount (Chunk.mk N voxels nu ie) =
      (∑ t ∈ Finset.range (N + 1),
        suppCountL (maskFn voxels (N, N, N) 0 1 2 ((t : Int) - 1))
          (List.range (N * N))) +
      (∑ t ∈ Finset.range (N + 1),
        suppCountL (maskFn voxels (N, N, N) 1 2 0 ((t : Int) - 1))
          (List.range (N * N))) +
      (∑ t ∈ Finset.range (N + 1),
        suppCountL (maskFn voxels (N, N, N) 2 0 1 ((t : Int) - 1))
          (List.range (N * N))) := by
  rw [axis0_count voxels N hsep nu ie, axis1_count voxels N hsep nu ie,
    axis2_count voxels N hsep nu ie, naiveFaceCount_sum]
  simp only []
  rw [sum3_split, sum3_split, sum3_split, sum3_split, sum3_split]
  omega

theorem strict_of_axis0 (voxels : List Nat) (N : Nat)
    (hsep : sepGrid voxels N = true) (nu ie : Bool) (t0 : Nat)
    (ht0 : t0 < N + 1)
    (hp : hasPair N N (maskFn voxels (N, N, N) 0 1 2 ((t0 : Int) - 1))) :
    (meshQuads voxels (N, N, N)).length <
      naiveFaceCount (Chunk.mk N voxels nu ie) := by
  rw [greedy_eq_scan voxels N, naive_eq_supp N voxels hsep nu ie]
  have hstrict : (∑ t ∈ Finset.range (N + 1),
      (scanMask N N (maskFn voxels (N, N, N) 0 1 2 ((t : Int) - 1))).length) <
      ∑ t ∈ Finset.range (N + 1),
        suppCountL (maskFn voxels (N, N, N) 0 1 2 ((t : Int) - 1))
          (List.range (N * N)) :=
    Finset.sum_lt_sum (fun t _ => scanMask_count N N _)
      ⟨t0, Finset.mem_range.mpr ht0, by
        have hs := scanMask_strict N N
          (maskFn voxels (N, N, N) 0 1 2 ((t0 : Int) - 1)) hp
        omega⟩
  have hb1 : (∑ t ∈ Finset.range (N + 1),
      (scanMask N N (maskFn voxels (N, N, N) 1 2 0 ((t : Int) - 1))).length) ≤
      ∑ t ∈ Finset.range (N + 1),
        suppCountL (maskFn voxels (N, N, N) 1 2 0 ((t : Int) - 1))
          (List.range (N * N)) :=
    Finset.sum_le_sum (fun t _ => scanMask_count N N _)
  have hb2 : (∑ t ∈ Finset.range (N + 1),
      (scanMask N N (maskFn voxels (N, N, N) 2 0 1 ((t : Int) - 1))).length) ≤
      ∑ t ∈ Finset.range (N + 1),
        suppCountL (maskFn voxels (N, N, N) 2 0 1 ((t : Int) - 1))
          (List.range (N * N)) :=
    Finset.sum_le_sum (fun t _ => scanMask_count N N _)
  omega

theorem strict_of_axis1 (voxels : List Nat) (N : Nat)
    (hsep : sepGrid voxels N = true) (nu ie : Bool) (t0 : Nat)
    (ht0 : t0 < N + 1)
    (hp : hasPair N N (maskFn voxels (N, N, N) 1 2 0 ((t0 : Int) - 1))) :
    (meshQuads voxels (N, N, N)).length <
      naiveFaceCount (Chunk.mk N voxels nu ie) := by
  rw [greedy_eq_scan voxels N, naive_eq_supp N voxels hsep nu ie]
  have hstrict : (∑ t ∈ Finset.range (N + 1),
      (scanMask N N (maskFn voxels (N, N, N) 1 2 0 ((t : Int) - 1))).length) <
      ∑ t ∈ Finset.range (N + 1),
        suppCountL (maskFn voxels (N, N, N) 1 2 0 ((t : Int) - 1))
          (List.range (N * N)) :=
    Finset.sum_lt_sum (fun t _ => scanMask_count N N _)
      ⟨t0, Finset.mem_range.mpr ht0, by
        have hs := scanMask_strict N N
          (maskFn voxels (N, N, N) 1 2 0 ((t0 : Int) - 1)) hp
        omega⟩
  have hb1 : (∑ t ∈ Finset.range (N + 1),
      (scanMask N N (maskFn voxels (N, N, N) 0 1 2 ((t : Int) - 1))).length) ≤
      ∑ t ∈ Finset.range (N + 1),
        suppCountL (maskFn voxels (N, N, N) 0 1 2 ((t : Int) - 1))
          (List.range (N * N)) :=
    Finset.sum_le_sum (fun t _ => scanMask_count N N _)
  have hb2 : (∑ t ∈ Finset.range (N + 1),
      (scanMask N N (maskFn voxels (N, N, N) 2 0 1 ((t : Int) - 1))).length) ≤
      ∑ t ∈ Finset.range (N + 1),
        suppCountL (maskFn voxels (N, N, N) 2 0 1 ((t : Int) - 1))
          (List.range (N * N)) :=
    Finset.sum_le_sum (fun t _ => scanMask_count N N _)
  omega

theorem strict_of_axis2 (voxels : List Nat) (N : Nat)
    (hsep : sepGrid voxels N = true) (nu ie : Bool) (t0 : Nat)
    (ht0 : t0 < N + 1)
    (hp : hasPair N N (maskFn voxels (N, N, N) 2 0 1 ((t0 : Int) - 1))) :
    (meshQuads voxels (N, N, N)).length <
      naiveFaceCount (Chunk.mk N voxels nu ie) := by
  rw [greedy_eq_scan voxels N, naive_eq_supp N voxels hsep nu ie]
  have hstrict : (∑ t ∈ Finset.range (N + 1),
      (scanMask N N (maskFn voxels (N, N, N) 2 0 1 ((t : Int) - 1))).length) <
      ∑ t ∈ Finset.range (N + 1),
        suppCountL (maskFn voxels (N, N, N) 2 0 1 ((t : Int) - 1))
          (List.range (N * N)) :=
    Finset.sum_lt_sum (fun t _ => scanMask_count N N _)
      ⟨t0, Finset.mem_range.mpr ht0, by
        have hs := scanMask_strict N N
          (maskFn voxels (N, N, N) 2 0 1 ((t0 : Int) - 1)) hp
        omega⟩
  have hb1 : (∑ t ∈ Finset.range (N + 1),
      (scanMask N N (maskFn voxels (N, N, N) 0 1 2 ((t : Int) - 1))).length) ≤
      ∑ t ∈ Finset.range (N + 1),
        suppCountL (maskFn voxels (N, N, N) 0 1 2 ((t : Int) - 1))
          (List.range (N * N)) :=
    Finset.sum_le_sum (fun t _ => scanMask_count N N _)
  have hb2 : (∑ t ∈ Finset.range (N + 1),
      (scanMask N N (maskFn voxels (N, N, N) 1 2 0 ((t : Int) - 1))).length) ≤
      ∑ t ∈ Finset.range (N + 1),
        suppCountL (maskFn voxels (N, N, N) 1 2 0 ((t : Int) - 1))
          (List.range (N * N)) :=
    Finset.sum_le_sum (fun t _ => scanMask_count N N _)
  omega


/-- A mergeable pair of naive faces forces a greedy rectangle of area at
least 2, hence a strictly smaller greedy quad count. -/
theorem mergeable_strict (N : Nat) (voxels : List Nat)
    (hsep : sepGrid voxels N = true) (nu ie : Bool)
    (hm : mergeablePair (Chunk.mk N voxels nu ie)) :
    (meshQuads voxels (N, N, N)).length <
      naiveFaceCount (Chunk.mk N voxels nu ie) := by
  obtain ⟨p, q, f, hpf, hqf, hadj, htype⟩ := hm
  obtain ⟨px, py, pz⟩ := p
  obtain ⟨qx, qy, qz⟩ := q
  obtain ⟨hpx, hpy, hpz, hpv, hpr⟩ :=
    naiveFaces_mem (Chunk.mk N voxels nu ie) (px, py, pz) f hpf
  obtain ⟨hqx, hqy, hqz, hqv, hqr⟩ :=
    naiveFaces_mem (Chunk.mk N voxels nu ie) (qx, qy, qz) f hqf
  have hpx' : px < N := hpx
  have hpy' : py < N := hpy
  have hpz' : pz < N := hpz
  have hqx' : qx < N := hqx
  have hqy' : qy < N := hqy
  have hqz' : qz < N := hqz
  have hgvp : (Chunk.mk N voxels nu ie).getVoxel ((px : Int)) ((py : Int))
      ((pz : Int)) = vAt voxels N px py pz :=
    getVoxel_nat voxels N nu ie px py pz hpx' hpy' hpz'
  have hgvq : (Chunk.mk N voxels nu ie).getVoxel ((qx : Int)) ((qy : Int))
      ((qz : Int)) = vAt voxels N qx qy qz :=
    getVoxel_nat voxels N nu ie qx qy qz hqx' hqy' hqz'
  have hpv' : vAt voxels N px py pz ≠ 0 := by rw [← hgvp]; exact hpv
  have hqv' : vAt voxels N qx qy qz ≠ 0 := by rw [← hgvq]; exact hqv
  have htyp : vAt voxels N px py pz = vAt voxels N qx qy qz := by
    rw [← hgvp, ← hgvq]; exact htype
  cases f with
  | left =>
    rcases hadj with ⟨hax, hqe⟩ | ⟨hax, hqe⟩ | ⟨hax, hqe⟩
    · exact absurd rfl hax
    · simp only [Prod.mk.injEq] at hqe
      obtain ⟨hq1, hq2, hq3⟩ := hqe
      rw [hq1, hq2, hq3] at hqv' htyp hqr
      refine strict_of_axis0 voxels N hsep nu ie (px) (by omega)
        ⟨py, pz, Or.inl ⟨by omega, hpz', ?_, ?_⟩⟩
      · rw [mask_val_left voxels N nu ie px py pz hpx' hpy' hpz' hpv' hpr]
        exact neg_ne_zero.mpr (by exact_mod_cast hpv')
      · rw [mask_val_left voxels N nu ie px (py + 1) pz hpx' (by omega) hpz' hqv' hqr,
          mask_val_left voxels N nu ie px py pz hpx' hpy' hpz' hpv' hpr, htyp]
    · simp only [Prod.mk.injEq] at hqe
      obtain ⟨hq1, hq2, hq3⟩ := hqe
      rw [hq1, hq2, hq3] at hqv' htyp hqr
      refine strict_of_axis0 voxels N hsep nu ie (px) (by omega)
        ⟨py, pz, Or.inr ⟨hpy', by omega, ?_, ?_⟩⟩
      · rw [mask_val_left voxels N nu ie px py pz hpx' hpy' hpz' hpv' hpr]
        exact neg_ne_zero.mpr (by exact_mod_cast hpv')
      · rw [mask_val_left voxels N nu ie px py (pz + 1) hpx' hpy' (by omega) hqv' hqr,
          mask_val_left voxels N nu ie px py pz hpx' hpy' hpz' hpv' hpr, htyp]
  | right =>
    rcases hadj with ⟨hax, hqe⟩ | ⟨hax, hqe⟩ | ⟨hax, hqe⟩
    · exact absurd rfl hax
    · simp only [Prod.mk.injEq] at hqe
      obtain ⟨hq1, hq2, hq3⟩ := hqe
      rw [hq1, hq2, hq3] at hqv' htyp hqr
      refine strict_of_axis0 voxels N hsep nu ie (px + 1) (by omega)
        ⟨py, pz, Or.inl ⟨by omega, hpz', ?_, ?_⟩⟩
      · rw [mask_val_right voxels N nu ie px py pz hpx' hpy' hpz' hpv' hpr]
        exact_mod_cast hpv'
      · rw [mask_val_right voxels N nu ie px (py + 1) pz hpx' (by omega) hpz' hqv' hqr,
          mask_val_right voxels N nu ie px py pz hpx' hpy' hpz' hpv' hpr, htyp]
    · simp only [Prod.mk.injEq] at hqe
      obtain ⟨hq1, hq2, hq3⟩ := hqe
      rw [hq1, hq2, hq3] at hqv' htyp hqr
      refine strict_of_axis0 voxels N hsep nu ie (px + 1) (by omega)
        ⟨py, pz, Or.inr ⟨hpy', by omega, ?_, ?_⟩⟩
      · rw [mask_val_right voxels N nu ie px py pz hpx' hpy' hpz' hpv' hpr]
        exact_mod_cast hpv'
      · rw [mask_val_right voxels N nu ie px py (pz + 1) hpx' hpy' (by omega) hqv' hqr,
          mask_val_right voxels N nu ie px py pz hpx' hpy' hpz' hpv' hpr, htyp]
  | bottom =>
    rcases hadj with ⟨hax, hqe⟩ | ⟨hax, hqe⟩ | ⟨hax, hqe⟩
    · simp only [Prod.mk.injEq] at hqe
      obtain ⟨hq1, hq2, hq3⟩ := hqe
      rw [hq1, hq2, hq3] at hqv' htyp hqr
      refine strict_of_axis1 voxels N hsep nu ie (py) (by omega)
        ⟨pz, px, Or.inr ⟨hpz', by omega, ?_, ?_⟩⟩
      · rw [mask_val_bottom voxels N nu ie px py pz hpx' hpy' hpz' hpv' hpr]
        exact neg_ne_zero.mpr (by exact_mod_cast hpv')
      · rw [mask_val_bottom voxels N nu ie (px + 1) py pz (by omega) hpy' hpz' hqv' hqr,
          mask_val_bottom voxels N nu ie px py pz hpx' hpy' hpz' hpv' hpr, htyp]
    · exact absurd rfl hax
    · simp only [Prod.mk.injEq] at hqe
      obtain ⟨hq1, hq2, hq3⟩ := hqe
      rw [hq1, hq2, hq3] at hqv' htyp hqr
      refine strict_of_axis1 voxels N hsep nu ie (py) (by omega)
        ⟨pz, px, Or.inl ⟨by omega, hpx', ?_, ?_⟩⟩
      · rw [mask_val_bottom voxels N nu ie px py pz hpx' hpy' hpz' hpv' hpr]
        exact neg_ne_zero.mpr (by exact_mod_cast hpv')
      · rw [mask_val_bottom voxels N nu ie px py (pz + 1) hpx' hpy' (by omega) hqv' hqr,
          mask_val_bottom voxels N nu ie px py pz hpx' hpy' hpz' hpv' hpr, htyp]
  | top =>
    rcases hadj with ⟨hax, hqe⟩ | ⟨hax, hqe⟩ | ⟨hax, hqe⟩
    · simp only [Prod.mk.injEq] at hqe
      obtain ⟨hq1, hq2, hq3⟩ := hqe
      rw [hq1, hq2, hq3] at hqv' htyp hqr
      refine strict_of_axis1 voxels N hsep nu ie (py + 1) (by omega)
        ⟨pz, px, Or.inr ⟨hpz', by omega, ?_, ?_⟩⟩
      · rw [mask_val_top voxels N nu ie px py pz hpx' hpy' hpz' hpv' hpr]
        exact_mod_cast hpv'
      · rw [mask_val_top voxels N nu ie (px + 1) py pz (by omega) hpy' hpz' hqv' hqr,
          mask_val_top voxels N nu ie px py pz hpx' hpy' hpz' hpv' hpr, htyp]
    · exact absurd rfl hax
    · simp only [Prod.mk.injEq] at hqe
      obtain ⟨hq1, hq2, hq3⟩ := hqe
      rw [hq1, hq2, hq3] at hqv' htyp hqr
      refine strict_of_axis1 voxels N hsep nu ie (py + 1) (by omega)
        ⟨pz, px, Or.inl ⟨by omega, hpx', ?_, ?_⟩⟩
      · rw [mask_val_top voxels N nu ie px py pz hpx' hpy' hpz' hpv' hpr]
        exact_mod_cast hpv'
      · rw [mask_val_top voxels N nu ie px py (pz + 1) hpx' hpy' (by omega) hqv' hqr,
          mask_val_top voxels N nu ie px py pz hpx' hpy' hpz' hpv' hpr, htyp]
  | back =>
    rcases hadj with ⟨hax, hqe⟩ | ⟨hax, hqe⟩ | ⟨hax, hqe⟩
    · simp only [Prod.mk.injEq] at hqe
      obtain ⟨hq1, hq2, hq3⟩ := hqe
      rw [hq1, hq2, hq3] at hqv' htyp hqr
      refine strict_of_axis2 voxels N hsep nu ie (pz) (by omega)
        ⟨px, py, Or.inl ⟨by omega, hpy', ?_, ?_⟩⟩
      · rw [mask_val_back voxels N nu ie px py pz hpx' hpy' hpz' hpv' hpr]
        exact neg_ne_zero.mpr (by exact_mod_cast hpv')
      · rw [mask_val_back voxels N nu ie (px + 1) py pz (by omega) hpy' hpz' hqv' hqr,
          mask_val_back voxels N nu ie px py pz hpx' hpy' hpz' hpv' hpr, htyp]
    · simp only [Prod.mk.injEq] at hqe
      obtain ⟨hq1, hq2, hq3⟩ := hqe
      rw [hq1, hq2, hq3] at hqv' htyp hqr
      refine strict_of_axis2 voxels N hsep nu ie (pz) (by omega)
        ⟨px, py, Or.inr ⟨hpx', by omega, ?_, ?_⟩⟩
      · rw [mask_val_back voxels N nu ie px py pz hpx' hpy' hpz' hpv' hpr]
        exact neg_ne_zero.mpr (by exact_mod_cast hpv')
      · rw [mask_val_back voxels N nu ie px (py + 1) pz hpx' (by omega) hpz' hqv' hqr,
          mask_val_back voxels N nu ie px py pz hpx' hpy' hpz' hpv' hpr, htyp]
    · exact absurd rfl hax
  | front =>
    rcases hadj with ⟨hax, hqe⟩ | ⟨hax, hqe⟩ | ⟨hax, hqe⟩
    · simp only [Prod.mk.injEq] at hqe
      obtain ⟨hq1, hq2, hq3⟩ := hqe
      rw [hq1, hq2, hq3] at hqv' htyp hqr
      refine strict_of_axis2 voxels N hsep nu ie (pz + 1) (by omega)
        ⟨px, py, Or.inl ⟨by omega, hpy', ?_, ?_⟩⟩
      · rw [mask_val_front voxels N nu ie px py pz hpx' hpy' hpz' hpv' hpr]
        exact_mod_cast hpv'
      · rw [mask_val_front voxels N nu ie (px + 1) py pz (by omega) hpy' hpz' hqv' hqr,
          mask_val_front voxels N nu ie px py pz hpx' hpy' hpz' hpv' hpr, htyp]
    · simp only [Prod.mk.injEq] at hqe
      obtain ⟨hq1, hq2, hq3⟩ := hqe
      rw [hq1, hq2, hq3] at hqv' htyp hqr
      refine strict_of_axis2 voxels N hsep nu ie (pz + 1) (by omega)
        ⟨px, py, Or.inr ⟨hpx', by omega, ?_, ?_⟩⟩
      · rw [mask_val_front voxels N nu ie px py pz hpx' hpy' hpz' hpv' hpr]
        exact_mod_cast hpv'
      · rw [mask_val_front voxels N nu ie px (py + 1) pz hpx' (by omega) hpz' hqv' hqr,
          mask_val_front voxels N nu ie px py pz hpx' hpy' hpz' hpv' hpr, htyp]
    · exact absurd rfl hax

end GreedyMesher

/-- Claim C1, amended: on grids in which no two face-adjacent cells hold
distinct non-air block types, the number of quads emitted by
`GreedyMesher.mesh` is at most the number of faces emitted by the naive
per-voxel `generateMesh` on the same grid with no neighbor chunks
linked, and the two counts are equal only when the naive mesh contains
no two adjacent same-type coplanar faces (two faces of the same
direction, in one plane, edge-adjacent, on cells of equal type).
Without the restriction the inequality itself fails: where two distinct
solid types touch, the greedy mask is non-zero on both sides while the
naive mesher emits no face. -/
theorem greedy_le_naive_amended (N : Nat) (voxels : List Nat)
    (hsep : GreedyMesher.sepGrid voxels N = true) (nu ie : Bool) :
    ((GreedyMesher.meshQuads voxels (N, N, N)).length ≤
      naiveFaceCount (Chunk.mk N voxels nu ie)) ∧
    ((GreedyMesher.meshQuads voxels (N, N, N)).length =
        naiveFaceCount (Chunk.mk N voxels nu ie) →
      ¬ mergeablePair (Chunk.mk N voxels nu ie)) := by
  constructor
  · rw [GreedyMesher.greedy_eq_scan voxels N,
      GreedyMesher.naive_eq_supp N voxels hsep nu ie]
    have h0 : (∑ t ∈ Finset.range (N + 1),
        (GreedyMesher.scanMask N N
          (GreedyMesher.maskFn voxels (N, N, N) 0 1 2 ((t : Int) - 1))).length) ≤
        ∑ t ∈ Finset.range (N + 1),
          GreedyMesher.suppCountL
            (GreedyMesher.maskFn voxels (N, N, N) 0 1 2 ((t : Int) - 1))
            (List.range (N * N)) :=
      Finset.sum_le_sum (fun t _ => GreedyMesher.scanMask_count N N _)
    have h1 : (∑ t ∈ Finset.range (N + 1),
        (GreedyMesher.scanMask N N
          (GreedyMesher.maskFn voxels (N, N, N) 1 2 0 ((t : Int) - 1))).length) ≤
        ∑ t ∈ Finset.range (N + 1),
          GreedyMesher.suppCountL
            (GreedyMesher.maskFn voxels (N, N, N) 1 2 0 ((t : Int) - 1))
            (List.range (N * N)) :=
      Finset.sum_le_sum (fun t _ => GreedyMesher.scanMask_count N N _)
    have h2 : (∑ t ∈ Finset.range (N + 1),
        (GreedyMesher.scanMask N N
          (GreedyMesher.maskFn voxels (N, N, N) 2 0 1 ((t : Int) - 1))).length) ≤
        ∑ t ∈ Finset.range (N + 1),
          GreedyMesher.suppCountL
            (GreedyMesher.maskFn voxels (N, N, N) 2 0 1 ((t : Int) - 1))
            (List.range (N * N)) :=
      Finset.sum_le_sum (fun t _ => GreedyMesher.scanMask_count N N _)
    omega
  · intro heq hmer
    exact absurd heq
      (Nat.ne_of_lt (GreedyMesher.mergeable_strict N voxels hsep nu ie hmer))

theorem greedy_le_naive_amended_witness :
    GreedyMesher.sepGrid [1, 1, 0, 0, 0, 0, 0, 0] 2 = true ∧
    (((GreedyMesher.meshQuads [1, 1, 0, 0, 0, 0, 0, 0] (2, 2, 2)).length ≤
        naiveFaceCount (Chunk.mk 2 [1, 1, 0, 0, 0, 0, 0, 0] true false)) ∧
      ((GreedyMesher.meshQuads [1, 1, 0, 0, 0, 0, 0, 0] (2, 2, 2)).length =
          naiveFaceCount (Chunk.mk 2 [1, 1, 0, 0, 0, 0, 0, 0] true false) →
        ¬ mergeablePair (Chunk.mk 2 [1, 1, 0, 0, 0, 0, 0, 0] true false))) :=
  ⟨by decide,
    greedy_le_naive_amended 2 [1, 1, 0, 0, 0, 0, 0, 0] (by decide) true false⟩

end VoxelCraft
